import Mathlib

/-! # fvProcessor: the streaming statistics and the aggregation engine

A shallow embedding of `src/fvProcessor/main.cpp` (the processors
`AverageProcessor`, `MaxProcessor`, `VariabilityProcessor`) and of
`src/fvProcessor/FVProcessor.cpp` (`FVProcessor::addOutput`,
`FVProcessor::addInputCSVFile`).

Conventions of the embedding.

* `double` is the type `Double` below, IEEE 754 binary64 with NaN, the two
  infinities, the two zeros and rounding to nearest, ties to even, after every
  operation.  The engine itself is generic in the type `D` of values.
* The `int` counter `m_count` is an `Int` that wraps at 32 bits; a header
  position is an `Int` without wrap-around, as a header stays far below `2^31`
  columns.
* A C++ object that is mutated in place becomes a state that is passed and
  returned; a `std::shared_ptr<IProcessor>` becomes an address into a heap of
  processor objects, so that two bindings may share one processor.
* A thrown exception becomes the field `thrown` of the outcome of a call: the
  state the call leaves behind is kept, as it is in C++.
-/

namespace FV

/-! ## The type `double` -/

/-- The power `2^e` as a rational number. -/
def pow2 (e : Int) : ℚ :=
  if 0 ≤ e then ((2 ^ e.toNat : Nat) : ℚ) else 1 / ((2 ^ (-e).toNat : Nat) : ℚ)

/-- Rounding of a non-negative rational to the nearest natural number, ties to
even. -/
def roundHalfEven (q : ℚ) : Nat :=
  let f := ⌊q⌋.toNat
  if q - (f : ℚ) > 1 / 2 ∨ (q - (f : ℚ) = 1 / 2 ∧ f % 2 = 1) then f + 1 else f

/-- The number of binary digits of `n`, by halving at most `fuel` times. -/
def bitLenAux : Nat → Nat → Nat
  | 0, _ => 0
  | fuel + 1, n => if n = 0 then 0 else bitLenAux fuel (n / 2) + 1

/-- The number of binary digits of a natural number, `0` for `0`. -/
def bitLen (n : Nat) : Nat := bitLenAux n n

/-- A value of the C++ type `double` (IEEE 754 binary64): not-a-number, an
infinity with its sign, or a finite value with its sign bit and its magnitude,
so that `fin true 0` is the negative zero.  The magnitude is kept as a rational
number; the doubles proper are the values whose magnitude is a fixed point of
the rounding `nearestMag` below `2^1024`, and the operations below and
`std::stod` return only such values.  What is proved for every value of this
type holds for every double. -/
inductive Double where
  | nan : Double
  | inf (neg : Bool) : Double
  | fin (neg : Bool) (mag : ℚ) : Double
  deriving DecidableEq

namespace Double

/-- The number a sign bit and a magnitude stand for. -/
def value (neg : Bool) (mag : ℚ) : ℚ := if neg then -mag else mag

/-- The number a finite double stands for; none for infinities and NaN. -/
def toRat : Double → Option ℚ
  | fin s a => some (value s a)
  | _ => none

/-- The binary exponent of a positive rational: the `e` with
`2^e ≤ a < 2^(e+1)`. -/
def ilog2 (a : ℚ) : Int :=
  if a < pow2 ((bitLen a.num.natAbs : Int) - (bitLen a.den : Int)) then
    (bitLen a.num.natAbs : Int) - (bitLen a.den : Int) - 1
  else (bitLen a.num.natAbs : Int) - (bitLen a.den : Int)

/-- The exponent of the last place of the doubles around a positive rational:
53 significant bits, and never below the exponent `-1074` of the subnormal
numbers. -/
def quantum (a : ℚ) : Int := max (ilog2 a - 52) (-1074)

/-- The nearest multiple of the last place to a positive rational, ties to the
even multiple. -/
def nearestMag (a : ℚ) : ℚ :=
  (roundHalfEven (a / pow2 (quantum a)) : ℚ) * pow2 (quantum a)

/-- Rounding of an exact result to `double` in the default rounding mode
(to nearest, ties to even): an exact zero is `+0`, a magnitude that rounds to
`2^1024` or more overflows to the infinity of its sign, and a result that
underflows to zero keeps its sign. -/
def ofRat (q : ℚ) : Double :=
  if q = 0 then fin false 0
  else if pow2 1024 ≤ nearestMag |q| then inf (decide (q < 0))
  else fin (decide (q < 0)) (nearestMag |q|)

/-- The conversion of an `int` to `double`, which is exact. -/
def ofInt (n : Int) : Double := fin (decide (n < 0)) |(n : ℚ)|

/-- Whether a rational number is the value of a double: rounding it gives a
finite double of that value. -/
def representable (q : ℚ) : Bool := decide ((ofRat q).toRat = some q)

/-- The literal `0.0`. -/
def zero : Double := fin false 0

/-- The largest magnitude of a finite double: `(2^53 - 1) * 2^971`. -/
def maxMag : ℚ := (((2 ^ 53 - 1) * 2 ^ 971 : Nat) : ℚ)

/-- The constant `std::numeric_limits<double>::max()`. -/
def maxValue : Double := fin false maxMag

/-- The constant `std::numeric_limits<double>::lowest()`, `-max()`. -/
def lowest : Double := fin true maxMag

/-- Unary minus: the sign bit is flipped. -/
def neg : Double → Double
  | nan => nan
  | inf s => inf (!s)
  | fin s a => fin (!s) a

/-- The function `abs(double)`: the sign bit is cleared. -/
def abs : Double → Double
  | nan => nan
  | inf _ => inf false
  | fin _ a => fin false a

/-- The operator `+` on `double`. -/
def add : Double → Double → Double
  | nan, _ => nan
  | _, nan => nan
  | inf s, inf t => if s = t then inf s else nan
  | inf s, fin _ _ => inf s
  | fin _ _, inf t => inf t
  | fin s a, fin t b =>
    if value s a + value t b = 0 then fin (s && t) 0 else ofRat (value s a + value t b)

/-- The operator `-` on `double`: `x - y` is `x + (-y)`. -/
def sub (x y : Double) : Double := add x (neg y)

/-- The operator `*` on `double`. -/
def mul : Double → Double → Double
  | nan, _ => nan
  | _, nan => nan
  | inf s, inf t => inf (xor s t)
  | inf s, fin t b => if b = 0 then nan else inf (xor s t)
  | fin s a, inf t => if a = 0 then nan else inf (xor s t)
  | fin s a, fin t b =>
    if value s a * value t b = 0 then fin (xor s t) 0 else ofRat (value s a * value t b)

/-- The operator `/` on `double`. -/
def div : Double → Double → Double
  | nan, _ => nan
  | _, nan => nan
  | inf _, inf _ => nan
  | inf s, fin t _ => inf (xor s t)
  | fin s _, inf t => fin (xor s t) 0
  | fin s a, fin t b =>
    if b = 0 then (if a = 0 then nan else inf (xor s t))
    else if a = 0 then fin (xor s t) 0
    else ofRat (value s a / value t b)

/-- The operator `<` on `double`: false as soon as an operand is NaN. -/
def lt : Double → Double → Bool
  | nan, _ => false
  | _, nan => false
  | inf s, inf t => s && !t
  | inf s, fin _ _ => s
  | fin _ _, inf t => !t
  | fin s a, fin t b => decide (value s a < value t b)

/-- The operator `==` on `double`: false as soon as an operand is NaN, true
between the two zeros. -/
def eq : Double → Double → Bool
  | nan, _ => false
  | _, nan => false
  | inf s, inf t => decide (s = t)
  | inf _, fin _ _ => false
  | fin _ _, inf _ => false
  | fin s a, fin t b => decide (value s a = value t b)

/-- The operator `>` on `double`. -/
def gt (x y : Double) : Bool := lt y x

/-- The operator `<=` on `double`. -/
def le (x y : Double) : Bool := lt x y || eq x y

/-- The operator `!=` on `double`: the negation of `==`, true against NaN. -/
def ne (x y : Double) : Bool := !eq x y

/-- Whether a value is NaN. -/
def isNaN : Double → Bool
  | nan => true
  | _ => false

end Double

/-- A literal `n` of the source or of an example: the double of that value.  The
literals in use (`0.0`, `1`, `100`, and the small integers of the examples) are
below `2^53`, where every integer is a double. -/
instance : OfNat Double n := ⟨Double.fin false (n : ℚ)⟩

instance : Neg Double := ⟨Double.neg⟩

instance : Add Double := ⟨Double.add⟩

instance : Sub Double := ⟨Double.sub⟩

instance : Mul Double := ⟨Double.mul⟩

instance : Div Double := ⟨Double.div⟩

/-! ## The concrete processors of `main.cpp` -/

/-- The value an `int` has after an arithmetic result `n`: 32 bits, two's
complement.  The increment of an `int` beyond `2^31 - 1` is undefined in C++;
the wrap-around is what the target does, and nothing proved below goes that
far. -/
def wrapInt32 (n : Int) : Int :=
  (n + 2147483648) % 4294967296 - 2147483648

/-- State of `class AverageProcessor`: the members `m_sum` and `m_count`. -/
structure AverageProcessor where
  m_sum : Double
  m_count : Int
  deriving DecidableEq

namespace AverageProcessor

/-- A newly constructed object: `m_sum = 0.0`, `m_count = 0`. -/
def init : AverageProcessor := { m_sum := 0, m_count := 0 }

/-- The method `reset()`. -/
def reset (_self : AverageProcessor) : AverageProcessor :=
  { m_sum := 0, m_count := 0 }

/-- The method `notifyValue(f)`: `m_sum += f; m_count++`. -/
def notifyValue (self : AverageProcessor) (f : Double) : AverageProcessor :=
  { m_sum := self.m_sum + f, m_count := wrapInt32 (self.m_count + 1) }

/-- The method `getResult()`: `(m_count > 0) ? (m_sum / m_count) : 0.0`. -/
def getResult (self : AverageProcessor) : Double :=
  if self.m_count > 0 then self.m_sum / Double.ofInt self.m_count else 0

/-- A run of `notifyValue` calls, in order. -/
def feed (self : AverageProcessor) (xs : List Double) : AverageProcessor :=
  xs.foldl notifyValue self

end AverageProcessor

/-- State of `class MaxProcessor`: the members `m_max` and `m_hasValue`. -/
structure MaxProcessor where
  m_max : Double
  m_hasValue : Bool
  deriving DecidableEq

namespace MaxProcessor

/-- A newly constructed object: `m_max = lowest()`, `m_hasValue = false`. -/
def init : MaxProcessor := { m_max := Double.lowest, m_hasValue := false }

/-- The method `reset()`. -/
def reset (_self : MaxProcessor) : MaxProcessor :=
  { m_max := Double.lowest, m_hasValue := false }

/-- The method `notifyValue(f)`: the value replaces the maximum when there is
none yet or when `f > m_max`. -/
def notifyValue (self : MaxProcessor) (f : Double) : MaxProcessor :=
  if !self.m_hasValue || Double.gt f self.m_max then
    { m_max := f, m_hasValue := true }
  else self

/-- The method `getResult()`: `m_hasValue ? m_max : 0.0`. -/
def getResult (self : MaxProcessor) : Double :=
  if self.m_hasValue then self.m_max else 0

/-- A run of `notifyValue` calls, in order. -/
def feed (self : MaxProcessor) (xs : List Double) : MaxProcessor :=
  xs.foldl notifyValue self

end MaxProcessor

/-- State of `class VariabilityProcessor`: the members `m_prevValue` (with `-1`
for "no previous value") and `m_avgProcessor`. -/
structure VariabilityProcessor where
  m_prevValue : Double
  m_avgProcessor : AverageProcessor
  deriving DecidableEq

namespace VariabilityProcessor

/-- A newly constructed object: `m_prevValue = -1` and a new average. -/
def init : VariabilityProcessor :=
  { m_prevValue := -1, m_avgProcessor := AverageProcessor.init }

/-- The method `reset()`. -/
def reset (self : VariabilityProcessor) : VariabilityProcessor :=
  { m_prevValue := -1, m_avgProcessor := self.m_avgProcessor.reset }

/-- The method `notifyValue(f)`: when `m_prevValue != -1` and
`fSum = m_prevValue + f > 0`, the sample `abs(m_prevValue - f) / fSum * 100`
goes to the inner average; `m_prevValue = f` in every case. -/
def notifyValue (self : VariabilityProcessor) (f : Double) : VariabilityProcessor :=
  let avg :=
    if Double.ne self.m_prevValue (-1) then
      let fSum := self.m_prevValue + f
      if Double.gt fSum 0 then
        let fVariability := Double.abs (self.m_prevValue - f) / fSum
        self.m_avgProcessor.notifyValue (fVariability * 100)
      else self.m_avgProcessor
    else self.m_avgProcessor
  { m_prevValue := f, m_avgProcessor := avg }

/-- The method `getResult()`: the result of the inner average. -/
def getResult (self : VariabilityProcessor) : Double :=
  self.m_avgProcessor.getResult

/-- A run of `notifyValue` calls, in order. -/
def feed (self : VariabilityProcessor) (xs : List Double) : VariabilityProcessor :=
  xs.foldl notifyValue self

end VariabilityProcessor

/-- The arithmetic mean of a list of numbers, `0` for the empty list. -/
def mean (xs : List ℚ) : ℚ :=
  if xs.length = 0 then 0 else xs.sum / (xs.length : ℚ)

/-- The result of the double arithmetic of `AverageProcessor` on a list of
values: the sum, taken from `0.0` in the order of the list, divided by the
number of values; `0.0` for the empty list. -/
def doubleMean (xs : List Double) : Double :=
  if xs.length = 0 then 0
  else xs.foldl (fun s x => s + x) 0 / Double.ofInt (xs.length : Int)

/-- The consecutive pairs `(v_i, v_(i+1))` of a sequence. -/
def consecutivePairs (xs : List Double) : List (Double × Double) :=
  xs.zip xs.tail

/-- The variability sample of a pair in double arithmetic:
`abs(a - b) / (a + b) * 100`. -/
def variabilitySample (a b : Double) : Double :=
  Double.abs (a - b) / (a + b) * 100

/-- The variability samples of a sequence: one sample per consecutive pair
`(a, b)` whose first value counts as a previous value (`a != -1`) and whose
sum is positive (`a + b > 0`), all in double arithmetic. -/
def variabilitySamples (xs : List Double) : List Double :=
  ((consecutivePairs xs).filter
    (fun p => Double.ne p.1 (-1) && Double.gt (p.1 + p.2) 0)).map
    (fun p => variabilitySample p.1 p.2)

/-- The exact value `|a - b| / (a + b) * 100` of the sample of a pair of
rational numbers. -/
def exactSample (a b : ℚ) : ℚ := |a - b| / (a + b) * 100

/-- A double that is `+inf` or a finite double with a clear sign bit and a
magnitude that is not negative. -/
def Double.NonNeg (v : Double) : Prop :=
  v = Double.inf false ∨ ∃ a : ℚ, 0 ≤ a ∧ v = Double.fin false a

/-- A finite double with a clear sign bit and a magnitude from 0 to `c`. -/
def Double.Within (c : ℚ) (v : Double) : Prop :=
  ∃ a : ℚ, 0 ≤ a ∧ a ≤ c ∧ v = Double.fin false a

/-- A result of double arithmetic that is not negative: NaN, `+inf`, or a
finite double with a clear sign bit whose magnitude is a fixed point of the
rounding, below the overflow threshold. -/
def Double.Settled (v : Double) : Prop :=
  v = Double.nan ∨ v = Double.inf false ∨
    ∃ a : ℚ, 0 ≤ a ∧ Double.nearestMag a = a ∧ a < pow2 1024 ∧ v = Double.fin false a

/-! ## The processor interface -/

/-- The interface `FVProcessor::IProcessor` as seen by the engine: a class of
processor objects with its three virtual methods over a state.  `getResult()`
is not `const` in the interface, so it returns the state it leaves as well. -/
structure IProcessor (D : Type) where
  State : Type
  reset : State → State
  notifyValue : State → D → State
  getResult : State → D × State

/-- The class `AverageProcessor` behind the interface. -/
def averageProcessor : IProcessor Double :=
  { State := AverageProcessor
    reset := AverageProcessor.reset
    notifyValue := AverageProcessor.notifyValue
    getResult := fun s => (s.getResult, s) }

/-- The class `MaxProcessor` behind the interface. -/
def maxProcessor : IProcessor Double :=
  { State := MaxProcessor
    reset := MaxProcessor.reset
    notifyValue := MaxProcessor.notifyValue
    getResult := fun s => (s.getResult, s) }

/-- The class `VariabilityProcessor` behind the interface. -/
def variabilityProcessor : IProcessor Double :=
  { State := VariabilityProcessor
    reset := VariabilityProcessor.reset
    notifyValue := VariabilityProcessor.notifyValue
    getResult := fun s => (s.getResult, s) }

/-- One call of a method of the interface. -/
inductive Call (D : Type) where
  | reset : Call D
  | notifyValue (f : D) : Call D
  | getResult : Call D

namespace IProcessor

variable {D : Type}

/-- A run of `notifyValue` calls, in order. -/
def feed (P : IProcessor D) (s : P.State) (xs : List D) : P.State :=
  xs.foldl P.notifyValue s

/-- One call on an object: the state it leaves and what it returns. -/
def call (P : IProcessor D) (s : P.State) : Call D → P.State × Option D
  | Call.reset => (P.reset s, none)
  | Call.notifyValue f => (P.notifyValue s f, none)
  | Call.getResult => ((P.getResult s).2, some (P.getResult s).1)

/-- A sequence of calls on an object: the state it leaves and the values the
`getResult()` calls returned, in order. -/
def run (P : IProcessor D) (s : P.State) : List (Call D) → P.State × List D
  | [] => (s, [])
  | c :: cs =>
    let r := P.call s c
    let rest := P.run r.1 cs
    (rest.1, r.2.toList ++ rest.2)

end IProcessor

/-! ## The engine of `FVProcessor.cpp` -/

/-- The struct `FVProcessor::OutputType`, one binding.  `m_pProcessor` is the
address of the processor object the shared pointer points to. -/
structure OutputType where
  m_inputColumnName : String
  m_outputTypeName : String
  m_pProcessor : Nat
  deriving DecidableEq

/-- Modelled from the spec: the class `CSVFileWriter` of
`utils/csvFile/CSVFileWriter.h`, "constructed with a path and ordered header;
exposes addRow(ordered sequence of string), flush(), validity check after
open".  `m_rows` are the rows handed to `addRow`, `m_flushed` how many of them
were there at the last `flush()`. -/
structure CSVFileWriter where
  m_path : String
  m_headers : List String
  m_rows : List (List String)
  m_flushed : Nat
  m_valid : Bool
  deriving DecidableEq

namespace CSVFileWriter

/-- The constructor `CSVFileWriter(path, headers)`; `valid` tells whether the
destination could be created. -/
def create (path : String) (headers : List String) (valid : Bool) : CSVFileWriter :=
  { m_path := path, m_headers := headers, m_rows := [], m_flushed := 0, m_valid := valid }

/-- The method `isValid()`. -/
def isValid (w : CSVFileWriter) : Bool := w.m_valid

/-- The method `addRow(row)`: the row is appended to the table. -/
def addRow (w : CSVFileWriter) (row : List String) : CSVFileWriter :=
  { w with m_rows := w.m_rows ++ [row] }

/-- The method `flush()`. -/
def flush (w : CSVFileWriter) : CSVFileWriter :=
  { w with m_flushed := w.m_rows.length }

end CSVFileWriter

/-- Modelled from the spec: what a valid `CSVFileReader` of
`utils/csvFile/CSVFileReader.h` yields, "an ordered header row and then a
sequence of string-cell rows": `getHeaders()` and the rows `readRow` delivers
until it returns false. -/
structure CSVFile where
  headers : List String
  rows : List (List String)
  deriving DecidableEq

/-- What the engine calls outside this repository's sources: the C++ standard
library and the file system behind the CSV reader and writer. -/
structure Env (D : Type) where
  /-- The function `std::stod`; `none` when it throws. -/
  stod : String → Option D
  /-- The function `std::to_string(double)`. -/
  to_string : D → String
  /-- The base name `std::filesystem::path(p).filename().string()`. -/
  filename : String → String
  /-- The constructor `CSVFileReader(path)`; `none` when `isValid()` is false. -/
  openInput : String → Option CSVFile
  /-- Whether a `CSVFileWriter` constructed on the path is valid. -/
  createOutput : String → Bool

/-- The members of `class FVProcessor`. -/
structure FVProcessor where
  m_outputs : List OutputType
  m_outputCsvPath : String
  m_outputCSV : Option CSVFileWriter
  deriving DecidableEq

/-- The heap of processor objects the shared pointers point into: the object at
address `a` is of class `cls a`. -/
abbrev Heap {D : Type} (cls : Nat → IProcessor D) : Type :=
  (a : Nat) → (cls a).State

/-- What a call of `addInputCSVFile` leaves: the exception it threw, if any,
the engine and the heap. -/
structure Outcome {D : Type} (cls : Nat → IProcessor D) where
  thrown : Option String
  self : FVProcessor
  heap : Heap cls

/-- The expression `std::find(headers.begin(), headers.end(), name)` turned into
a column index: the position of the first equal header, `-1` when there is
none. -/
def findColumn (headers : List String) (name : String) : Int :=
  if headers.indexOf name < headers.length then (headers.indexOf name : Int) else -1

/-- The guard and the access of the row loop: the cell of a row at a column
index, when `columnIndices[i] >= 0` and it is below `row.size()`. -/
def cellAt (row : List String) (c : Int) : Option String :=
  if 0 ≤ c ∧ c.toNat < row.length then some (row.getD c.toNat "") else none

namespace FVProcessor

variable {D : Type} {cls : Nat → IProcessor D}

/-- The constructor `FVProcessor(outputCsvPath)`. -/
def create (outputCsvPath : String) : FVProcessor :=
  { m_outputs := [], m_outputCsvPath := outputCsvPath, m_outputCSV := none }

/-- The method `addOutput(inputColumnName, outputName, pProcessor)`. -/
def addOutput (self : FVProcessor) (inputColumnName outputName : String)
    (pProcessor : Nat) : FVProcessor :=
  { self with
    m_outputs := self.m_outputs ++
      [{ m_inputColumnName := inputColumnName, m_outputTypeName := outputName,
         m_pProcessor := pProcessor }] }

/-- The header the first part of `addInputCSVFile` builds. -/
def outputHeaders (self : FVProcessor) : List String :=
  "InputFileName" :: self.m_outputs.map (fun o => o.m_outputTypeName)

/-- The first part of `addInputCSVFile`: the writer is created when there is
none and there is a binding. -/
def initOutput (env : Env D) (self : FVProcessor) : FVProcessor :=
  if self.m_outputCSV.isNone ∧ self.m_outputs ≠ [] then
    { self with
      m_outputCSV := some (CSVFileWriter.create self.m_outputCsvPath self.outputHeaders
        (env.createOutput self.m_outputCsvPath)) }
  else self

/-- Whether the first part of `addInputCSVFile` throws: it created the writer
and the writer is not valid. -/
def initThrows (env : Env D) (self : FVProcessor) : Bool :=
  decide (self.m_outputCSV.isNone ∧ self.m_outputs ≠ []) &&
    !(env.createOutput self.m_outputCsvPath)

/-- The loop that fills `columnIndices`. -/
def columnIndices (outputs : List OutputType) (headers : List String) : List Int :=
  outputs.map (fun o => findColumn headers o.m_inputColumnName)

/-- The loop `output.m_pProcessor->reset()` over the bindings. -/
def resetAll (outputs : List OutputType) (heap : Heap cls) : Heap cls :=
  outputs.foldl
    (fun h o => Function.update h o.m_pProcessor
      ((cls o.m_pProcessor).reset (h o.m_pProcessor)))
    heap

/-- The body of the inner loop for binding `o` with column index `c`: inside
the guard the cell goes through `std::stod` and the value to `notifyValue`; an
exception skips the cell. -/
def processCell (env : Env D) (row : List String) (heap : Heap cls)
    (oc : OutputType × Int) : Heap cls :=
  match cellAt row oc.2 with
  | some cell =>
    match env.stod cell with
    | some value =>
      Function.update heap oc.1.m_pProcessor
        ((cls oc.1.m_pProcessor).notifyValue (heap oc.1.m_pProcessor) value)
    | none => heap
  | none => heap

/-- The inner loop over the bindings, for one row. -/
def processRow (env : Env D) (outputs : List OutputType) (indices : List Int)
    (heap : Heap cls) (row : List String) : Heap cls :=
  (outputs.zip indices).foldl (processCell env row) heap

/-- The loop `while (reader.readRow(row))`. -/
def processRows (env : Env D) (outputs : List OutputType) (indices : List Int)
    (rows : List (List String)) (heap : Heap cls) : Heap cls :=
  rows.foldl (processRow env outputs indices) heap

/-- The loop that calls `getResult()` on each binding's processor, in
registration order: the results and the heap it leaves. -/
def collectResults : List OutputType → Heap cls → List D × Heap cls
  | [], heap => ([], heap)
  | o :: rest, heap =>
    let r := (cls o.m_pProcessor).getResult (heap o.m_pProcessor)
    let tail := collectResults rest (Function.update heap o.m_pProcessor r.2)
    (r.1 :: tail.1, tail.2)

/-- The method `addInputCSVFile(inputCsvPath)`. -/
def addInputCSVFile (env : Env D) (self : FVProcessor) (heap : Heap cls)
    (inputCsvPath : String) : Outcome cls :=
  let self1 := initOutput env self
  if initThrows env self then
    { thrown := some ("Failed to create output CSV file: " ++ self.m_outputCsvPath),
      self := self1, heap := heap }
  else
    match env.openInput inputCsvPath with
    | none =>
      { thrown := some ("Failed to open input CSV file: " ++ inputCsvPath),
        self := self1, heap := heap }
    | some reader =>
      let indices := columnIndices self1.m_outputs reader.headers
      let heap1 := resetAll self1.m_outputs heap
      let heap2 := processRows env self1.m_outputs indices reader.rows heap1
      match self1.m_outputCSV with
      | none => { thrown := none, self := self1, heap := heap2 }
      | some w =>
        let res := collectResults self1.m_outputs heap2
        let mixedRow := env.filename inputCsvPath :: res.1.map env.to_string
        { thrown := none,
          self := { self1 with m_outputCSV := some ((w.addRow mixedRow).flush) },
          heap := res.2 }

end FVProcessor

/-! ## The library functions the end-to-end run goes through

The C++ standard library is not part of the repository.  The engine takes it as
an `Env`; for a run on concrete text the three functions below stand for
`std::stod`, `std::to_string(double)` and `std::filesystem::path::filename` on
the inputs the run meets: decimal numerals, `inf` and `nan`, and plain paths. -/

/-- The characters `std::isspace` accepts in the C locale. -/
def isSpace (c : Char) : Bool :=
  c.toNat = 32 || (9 ≤ c.toNat && c.toNat ≤ 13)

/-- The number a string of decimal digits denotes. -/
def digitsValue (cs : List Char) : Nat :=
  cs.foldl (fun n c => 10 * n + (c.toNat - 48)) 0

/-- The exponent part of a decimal numeral: `e` or `E`, an optional sign and at
least one digit; anything else is not part of the number and counts as `0`. -/
def exponentOf (cs : List Char) : Int :=
  match cs with
  | c :: rest =>
    if c = 'e' ∨ c = 'E' then
      match rest with
      | s :: ds =>
        if s = '-' then
          (if (ds.takeWhile Char.isDigit) = [] then 0
           else -(digitsValue (ds.takeWhile Char.isDigit) : Int))
        else if s = '+' then (digitsValue (ds.takeWhile Char.isDigit) : Int)
        else (digitsValue (rest.takeWhile Char.isDigit) : Int)
      | [] => 0
    else 0
  | [] => 0

/-- The unsigned part of a decimal numeral: digits, an optional point and
digits, an optional exponent; `none` when there is no digit at all. -/
def unsignedDecimal (cs : List Char) : Option ℚ :=
  let ip := cs.takeWhile Char.isDigit
  let rest := cs.dropWhile Char.isDigit
  let fp := match rest with
    | c :: t => if c = '.' then t.takeWhile Char.isDigit else []
    | [] => []
  let rest2 := match rest with
    | c :: t => if c = '.' then t.dropWhile Char.isDigit else rest
    | [] => []
  if ip = [] ∧ fp = [] then none
  else some ((digitsValue (ip ++ fp) : ℚ) / (10 : ℚ) ^ fp.length * (10 : ℚ) ^ exponentOf rest2)

/-- The lower-case form of an ASCII letter. -/
def lowerAscii (c : Char) : Char :=
  if 65 ≤ c.toNat ∧ c.toNat ≤ 90 then Char.ofNat (c.toNat + 32) else c

/-- Whether a text starts with a word, whatever the case of its letters. -/
def startsWithWord (cs : List Char) (w : List Char) : Bool :=
  (cs.take w.length).map lowerAscii = w

/-- The unsigned part of what `std::stod` reads: `inf` or `nan` in any case, or
a decimal numeral, rounded to `double`; `none` when there is no number
(`std::invalid_argument`) or when the numeral overflows the range of `double`
(`std::out_of_range`). -/
def unsignedDouble (cs : List Char) : Option Double :=
  if startsWithWord cs [ 'i', 'n', 'f'] then some (Double.inf false)
  else if startsWithWord cs [ 'n', 'a', 'n'] then some Double.nan
  else
    match unsignedDecimal cs with
    | none => none
    | some q =>
      match Double.ofRat q with
      | Double.inf _ => none
      | d => some d

/-- The function `std::stod`: leading white space is skipped, an optional sign
and the longest number are read, what follows is ignored; `none` stands for an
exception.  Hexadecimal numerals are left out, and a numeral that underflows is
read as its rounded value. -/
def stdStod (s : String) : Option Double :=
  match s.toList.dropWhile isSpace with
  | c :: rest =>
    if c = '-' then (unsignedDouble rest).map Double.neg
    else if c = '+' then unsignedDouble rest
    else unsignedDouble (c :: rest)
  | [] => none

/-- Whether a text is a decimal numeral and nothing else: an optional sign,
digits with an optional point, at least one digit, and an optional exponent
with at least one digit. -/
def isDecimalNumeral (s : String) : Bool :=
  let cs := match s.toList with
    | c :: rest => if c = '-' ∨ c = '+' then rest else c :: rest
    | [] => []
  let ip := cs.takeWhile Char.isDigit
  let rest := cs.dropWhile Char.isDigit
  let fp := match rest with
    | c :: t => if c = '.' then t.takeWhile Char.isDigit else []
    | [] => []
  let rest2 := match rest with
    | c :: t => if c = '.' then t.dropWhile Char.isDigit else rest
    | [] => []
  let rest3 := match rest2 with
    | c :: t =>
      if c = 'e' ∨ c = 'E' then
        match t with
        | s :: ds =>
          if s = '-' ∨ s = '+' then
            (if ds.takeWhile Char.isDigit = [] then rest2 else ds.dropWhile Char.isDigit)
          else (if t.takeWhile Char.isDigit = [] then rest2 else t.dropWhile Char.isDigit)
        | [] => rest2
      else rest2
    | [] => []
  !(decide (ip = [] ∧ fp = [])) && decide (rest3 = [])

/-- The function `std::to_string(double)`, the `printf` format `%f`: a sign when
the sign bit is set, then `inf`, `nan`, or the integer part, a point and six
decimals, rounded. -/
def stdToString : Double → String
  | Double.nan => "nan"
  | Double.inf s => if s then "-inf" else "inf"
  | Double.fin s a =>
    let n := roundHalfEven (a * 1000000)
    let frac := Nat.toDigits 10 (n % 1000000)
    String.mk ((if s then [ '-'] else []) ++ Nat.toDigits 10 (n / 1000000) ++ [ '.'] ++
      List.replicate (6 - frac.length) '0' ++ frac)

/-- The base name `std::filesystem::path(p).filename()`: what follows the last
directory separator, `/` or the backslash of Windows paths. -/
def stdFilename (p : String) : String :=
  String.mk ((p.toList.reverse.takeWhile (fun c => !(c = '/' || c.toNat = 92))).reverse)

/-- An environment with the library functions above, a file system that holds
the listed input files and an output destination that can be created. -/
def stdEnv (files : List (String × CSVFile)) : Env Double :=
  { stod := stdStod
    to_string := stdToString
    filename := stdFilename
    openInput := fun p => files.lookup p
    createOutput := fun _ => true }

/-! ## Sequences of calls on the engine -/

/-- One call a client makes on the engine; the environment of an
`addInputCSVFile` call comes with it, since files change between calls. -/
inductive Cmd (D : Type) where
  | addOutput (inputColumnName outputName : String) (pProcessor : Nat) : Cmd D
  | addInputCSVFile (env : Env D) (inputCsvPath : String) : Cmd D

/-- The engine and the heap, the state a sequence of calls works on. -/
structure World {D : Type} (cls : Nat → IProcessor D) where
  self : FVProcessor
  heap : Heap cls

namespace World

variable {D : Type} {cls : Nat → IProcessor D}

/-- One call; a client that catches an exception goes on with the state the
call left. -/
def step (w : World cls) : Cmd D → World cls
  | Cmd.addOutput c n p => { w with self := w.self.addOutput c n p }
  | Cmd.addInputCSVFile env path =>
    let out := FVProcessor.addInputCSVFile env w.self w.heap path
    { self := out.self, heap := out.heap }

/-- A sequence of calls, in order. -/
def run (w : World cls) (cmds : List (Cmd D)) : World cls :=
  cmds.foldl step w

end World

/-! ## What the claims speak of -/

section Notions

variable {D : Type} {cls : Nat → IProcessor D}

/-- The value a row holds for a column index: the cell inside the guard of the
row loop, when `std::stod` accepts it. -/
def deliveredValue (env : Env D) (row : List String) (c : Int) : Option D :=
  (cellAt row c).bind env.stod

/-- The successfully parsed cells of a named column of a file, in row order. -/
def parsedCells (env : Env D) (file : CSVFile) (name : String) : List D :=
  file.rows.filterMap (fun row => deliveredValue env row (findColumn file.headers name))

/-- A `notifyValue` call that takes place only when there is a value. -/
def IProcessor.notifyOpt (P : IProcessor D) (s : P.State) : Option D → P.State
  | some v => P.notifyValue s v
  | none => s

/-- The result a binding's processor returns after `reset()` and `notifyValue`
on the given values, formatted. -/
def formattedResult (env : Env D) (heap : Heap cls) (p : Nat) (values : List D) : String :=
  env.to_string
    ((cls p).getResult ((cls p).feed ((cls p).reset (heap p)) values)).1

/-- The row the engine is to append for a file: the base name of the path, then
for each binding, in registration order, the formatted result of its processor
on the parsed cells of its column. -/
def expectedRow (env : Env D) (outputs : List OutputType) (heap : Heap cls)
    (inputCsvPath : String) (file : CSVFile) : List String :=
  env.filename inputCsvPath ::
    outputs.map (fun o =>
      formattedResult env heap o.m_pProcessor (parsedCells env file o.m_inputColumnName))

/-- One call `notifyValue(v)` on the processor object at an address of the
heap. -/
def notifyAt (heap : Heap cls) (pv : Nat × D) : Heap cls :=
  Function.update heap pv.1 ((cls pv.1).notifyValue (heap pv.1) pv.2)

/-- The `notifyValue` calls a row is to give rise to: for each binding, in
registration order, whose column is in the header and in the row and holds a
cell that `std::stod` accepts, the address of the binding's processor and the
value of the cell. -/
def rowNotifications (env : Env D) (outputs : List OutputType) (headers : List String)
    (row : List String) : List (Nat × D) :=
  outputs.filterMap (fun o =>
    (deliveredValue env row (findColumn headers o.m_inputColumnName)).map
      (fun v => (o.m_pProcessor, v)))

/-- The `notifyValue` calls a file is to give rise to: those of its rows, in
row order. -/
def fileNotifications (env : Env D) (outputs : List OutputType) (file : CSVFile) :
    List (Nat × D) :=
  file.rows.flatMap (rowNotifications env outputs file.headers)

/-- The rows of the output table, none while the table does not exist. -/
def outputRows (self : FVProcessor) : List (List String) :=
  match self.m_outputCSV with
  | some w => w.m_rows
  | none => []

/-- The header of the output table, when the table exists. -/
def outputHeader (self : FVProcessor) : Option (List String) :=
  self.m_outputCSV.map (fun w => w.m_headers)

end Notions

/-! ## Invariants and protocols of call sequences -/

section Protocol

variable {D : Type} {cls : Nat → IProcessor D}

/-- The row `mixedRow` the last part of `addInputCSVFile` builds for a file that
was opened: the base name, then the formatted results of the bindings'
processors after the reset loop and the row loop. -/
def FVProcessor.mixedRow (env : Env D) (outputs : List OutputType) (heap : Heap cls)
    (inputCsvPath : String) (file : CSVFile) : List String :=
  env.filename inputCsvPath ::
    (FVProcessor.collectResults outputs
      (FVProcessor.processRows env outputs
        (FVProcessor.columnIndices outputs file.headers) file.rows
        (FVProcessor.resetAll outputs heap))).1.map env.to_string

/-- Whether every row of the output table has as many cells as the header,
that is as many result cells as there were bindings when the header was
built. -/
def rowsMatchHeader (self : FVProcessor) : Bool :=
  match self.m_outputCSV with
  | some w => w.m_rows.all (fun row => row.length == w.m_headers.length)
  | none => true

/-- Whether a sequence of calls registers no binding once the output table
exists. -/
def noLateAddOutput (w : World cls) : List (Cmd D) → Bool
  | [] => true
  | Cmd.addOutput c n p :: rest =>
    w.self.m_outputCSV.isNone && noLateAddOutput (w.step (Cmd.addOutput c n p)) rest
  | Cmd.addInputCSVFile env path :: rest =>
    noLateAddOutput (w.step (Cmd.addInputCSVFile env path)) rest

/-- The invariant behind the row widths: the header has one name per binding
and every row is as wide as the header. -/
def WidthInv (self : FVProcessor) : Prop :=
  ∀ w, self.m_outputCSV = some w →
    w.m_headers.length = self.m_outputs.length + 1 ∧
      ∀ row ∈ w.m_rows, row.length = w.m_headers.length

/-- A sequence of `addInputCSVFile` calls, one per path, in order. -/
def World.addFiles (env : Env D) (w : World cls) (paths : List String) : World cls :=
  w.run (paths.map (fun path => Cmd.addInputCSVFile env path))

/-- Whether every call of a sequence of `addInputCSVFile` calls returns without
an exception. -/
def World.allSucceed (env : Env D) (w : World cls) : List String → Bool
  | [] => true
  | path :: rest =>
    (FVProcessor.addInputCSVFile env w.self w.heap path).thrown.isNone &&
      World.allSucceed env (w.step (Cmd.addInputCSVFile env path)) rest

/-- The invariant behind the lazy creation of the table: a table exists only
when there is a binding. -/
def TableInv (self : FVProcessor) : Prop :=
  self.m_outputCSV.isSome = true → self.m_outputs ≠ []

end Protocol

/-! ## Example data -/

/-- The input file `a.csv` of the end-to-end example. -/
def exampleFile : CSVFile :=
  { headers := ["X", "Y"], rows := [["1", "10"], ["3", "30"]] }

/-- A second input file, with a cell that is not a number and a short row. -/
def roughFile : CSVFile :=
  { headers := ["X", "Y"], rows := [["5", "oops"], ["7"], ["9", "40"]] }

/-- A file system with the two input files. -/
def exampleEnv : Env Double :=
  stdEnv [("a.csv", exampleFile), ("data/b.csv", roughFile)]

/-- A heap in which every object is an `AverageProcessor`. -/
def meanCls : Nat → IProcessor Double := fun _ => averageProcessor

/-- The heap of newly constructed `AverageProcessor` objects. -/
def meanHeap : Heap meanCls := fun _ => AverageProcessor.init

/-- An engine with no binding. -/
def noBinding : FVProcessor := FVProcessor.create "out.csv"

/-- An engine with the binding of the end-to-end example, `X` to `AvgX`. -/
def oneBinding : FVProcessor := noBinding.addOutput "X" "AvgX" 0

/-- An engine with two bindings on two processor objects. -/
def twoBindings : FVProcessor := oneBinding.addOutput "Y" "AvgY" 1

/-- An engine with two bindings that share one processor object. -/
def sharedBindings : FVProcessor := oneBinding.addOutput "Y" "AvgY" 0

/-- An engine with a binding on a column `Z` that the example files lack, on a
processor object of its own. -/
def missingBinding : FVProcessor := oneBinding.addOutput "Z" "AvgZ" 1

/-- An engine with a binding on the missing column `Z` whose processor object
is the one bound to `X`. -/
def missingSharedBinding : FVProcessor := oneBinding.addOutput "Z" "AvgZ" 0

/-- An engine with two bindings that carry the same output name. -/
def duplicateNames : FVProcessor :=
  (noBinding.addOutput "X" "Stat" 0).addOutput "Y" "Stat" 1

/-- An input file whose header has the column `X` twice, and a column `x`. -/
def twinFile : CSVFile :=
  { headers := ["x", "X", "Y", "X"],
    rows := [["0", "1", "10", "100"], ["0", "3", "30", "300"]] }

/-- A file system with the file of the doubled column. -/
def twinEnv : Env Double := stdEnv [("twin.csv", twinFile)]

/-- A file system in which no input file can be opened. -/
def emptyEnv : Env Double := stdEnv []

/-- An input file with a cell that starts with a number and goes on with
letters. -/
def junkFile : CSVFile :=
  { headers := ["X"], rows := [["12abc"]] }

/-- A file system with the file of the cell `12abc`. -/
def junkEnv : Env Double := stdEnv [("junk.csv", junkFile)]

/-! ## Lemmas on rounding -/

theorem pow2_eq_zpow (e : Int) : pow2 e = (2 : ℚ) ^ e := by
  unfold pow2
  split
  · rename_i h
    have he : e = (e.toNat : Int) := (Int.toNat_of_nonneg h).symm
    conv_rhs => rw [he]
    rw [zpow_natCast]
    push_cast
    rfl
  · rename_i h
    have hneg : 0 ≤ -e := by omega
    have he : e = -((-e).toNat : Int) := by
      rw [Int.toNat_of_nonneg hneg]
      ring
    conv_rhs => rw [he]
    rw [zpow_neg, zpow_natCast]
    push_cast
    rw [one_div]

theorem pow2_pos (e : Int) : 0 < pow2 e := by
  rw [pow2_eq_zpow]
  positivity

theorem bitLenAux_zero (fuel : Nat) : bitLenAux fuel 0 = 0 := by
  cases fuel <;> simp [bitLenAux]

theorem bitLenAux_spec (fuel n : Nat) (h : n ≤ fuel) (hn : 0 < n) :
    n < 2 ^ bitLenAux fuel n ∧ 2 ^ bitLenAux fuel n ≤ 2 * n := by
  induction fuel generalizing n with
  | zero => omega
  | succ f ih =>
    have hne : n ≠ 0 := by omega
    simp only [bitLenAux, hne, if_false]
    by_cases hhalf : n / 2 = 0
    · have h1 : n = 1 := by omega
      subst h1
      simp [bitLenAux_zero]
    · have hpos : 0 < n / 2 := Nat.pos_of_ne_zero hhalf
      obtain ⟨a, b⟩ := ih (n / 2) (by omega) hpos
      rw [pow_succ]
      constructor <;> omega

theorem bitLen_spec (n : Nat) (hn : 0 < n) : n < 2 ^ bitLen n ∧ 2 ^ bitLen n ≤ 2 * n :=
  bitLenAux_spec n n (le_refl n) hn

theorem ilog2_spec (a : ℚ) (ha : 0 < a) :
    (2 : ℚ) ^ Double.ilog2 a ≤ a ∧ a < (2 : ℚ) ^ (Double.ilog2 a + 1) := by
  have hnum : 0 < a.num := Rat.num_pos.mpr ha
  have hN : 0 < a.num.natAbs := Int.natAbs_pos.mpr (ne_of_gt hnum)
  have hden : 0 < a.den := a.den_pos
  obtain ⟨n1, n2⟩ := bitLen_spec a.num.natAbs hN
  obtain ⟨d1, d2⟩ := bitLen_spec a.den hden
  have hcast : ((a.num.natAbs : ℕ) : ℚ) = (a.num : ℚ) := by
    have h1 : ((a.num.natAbs : ℕ) : ℤ) = a.num := Int.natAbs_of_nonneg (le_of_lt hnum)
    have h2 : (((a.num.natAbs : ℕ) : ℤ) : ℚ) = (a.num : ℚ) := by rw [h1]
    rw [← h2, Int.cast_natCast]
  have hdq : (0 : ℚ) < (a.den : ℚ) := by exact_mod_cast hden
  have n1q : (a.num.natAbs : ℚ) < (2 : ℚ) ^ (bitLen a.num.natAbs) := by exact_mod_cast n1
  have n2q : (2 : ℚ) ^ (bitLen a.num.natAbs) ≤ 2 * (a.num.natAbs : ℚ) := by exact_mod_cast n2
  have d1q : (a.den : ℚ) < (2 : ℚ) ^ (bitLen a.den) := by exact_mod_cast d1
  have d2q : (2 : ℚ) ^ (bitLen a.den) ≤ 2 * (a.den : ℚ) := by exact_mod_cast d2
  have hK : (0 : ℚ) < (2 : ℚ) ^ (bitLen a.num.natAbs) := by positivity
  have hL : (0 : ℚ) < (2 : ℚ) ^ (bitLen a.den) := by positivity
  have he0 : (2 : ℚ) ^ ((bitLen a.num.natAbs : Int) - (bitLen a.den : Int)) =
      (2 : ℚ) ^ (bitLen a.num.natAbs) / (2 : ℚ) ^ (bitLen a.den) := by
    rw [zpow_sub₀ (by norm_num : (2 : ℚ) ≠ 0), zpow_natCast, zpow_natCast]
  have hmul : a * (a.den : ℚ) = (a.num.natAbs : ℚ) := by
    rw [hcast]
    exact Rat.mul_den_eq_num a
  have hup : a < (2 : ℚ) ^ ((bitLen a.num.natAbs : Int) - (bitLen a.den : Int)) * 2 := by
    rw [he0, div_mul_eq_mul_div, lt_div_iff₀ hL]
    nlinarith
  have hlow : (2 : ℚ) ^ ((bitLen a.num.natAbs : Int) - (bitLen a.den : Int)) < a * 2 := by
    rw [he0, div_lt_iff₀ hL]
    nlinarith
  unfold Double.ilog2
  rw [pow2_eq_zpow]
  split
  · rename_i hlt
    constructor
    · rw [zpow_sub_one₀ (by norm_num : (2 : ℚ) ≠ 0)]
      rw [← div_eq_mul_inv, div_le_iff₀ (by norm_num : (0 : ℚ) < 2)]
      exact le_of_lt hlow
    · have : (bitLen a.num.natAbs : Int) - (bitLen a.den : Int) - 1 + 1 =
          (bitLen a.num.natAbs : Int) - (bitLen a.den : Int) := by ring
      rw [this]
      exact hlt
  · rename_i hge
    constructor
    · exact not_lt.mp hge
    · rw [zpow_add_one₀ (by norm_num : (2 : ℚ) ≠ 0)]
      exact hup

theorem two_zpow_lt (m n : Int) : (2 : ℚ) ^ m < (2 : ℚ) ^ n ↔ m < n :=
  zpow_lt_zpow_iff_right₀ (by norm_num)

theorem two_zpow_le (m n : Int) (h : m ≤ n) : (2 : ℚ) ^ m ≤ (2 : ℚ) ^ n :=
  zpow_le_zpow_right₀ (by norm_num) h

theorem two_zpow_pos (m : Int) : (0 : ℚ) < (2 : ℚ) ^ m := by positivity

theorem ilog2_unique (a : ℚ) (e : Int) (ha : 0 < a) (h1 : (2 : ℚ) ^ e ≤ a)
    (h2 : a < (2 : ℚ) ^ (e + 1)) : Double.ilog2 a = e := by
  obtain ⟨s1, s2⟩ := ilog2_spec a ha
  have hA : Double.ilog2 a < e + 1 := (two_zpow_lt _ _).mp (lt_of_le_of_lt s1 h2)
  have hB : e < Double.ilog2 a + 1 := (two_zpow_lt _ _).mp (lt_of_le_of_lt h1 s2)
  omega

theorem ilog2_mono (a b : ℚ) (ha : 0 < a) (hab : a ≤ b) :
    Double.ilog2 a ≤ Double.ilog2 b := by
  obtain ⟨s1, _⟩ := ilog2_spec a ha
  obtain ⟨_, t2⟩ := ilog2_spec b (lt_of_lt_of_le ha hab)
  have h : Double.ilog2 a < Double.ilog2 b + 1 :=
    (two_zpow_lt _ _).mp (lt_of_le_of_lt (le_trans s1 hab) t2)
  omega

theorem floor_toNat_bounds (x : ℚ) (hx : 0 ≤ x) :
    ((⌊x⌋.toNat : ℕ) : ℚ) ≤ x ∧ x < ((⌊x⌋.toNat : ℕ) : ℚ) + 1 := by
  have h0 : 0 ≤ ⌊x⌋ := Int.floor_nonneg.mpr hx
  have hc : ((⌊x⌋.toNat : ℕ) : ℚ) = ((⌊x⌋ : ℤ) : ℚ) := by
    have h1 : ((⌊x⌋.toNat : ℕ) : ℤ) = ⌊x⌋ := Int.toNat_of_nonneg h0
    calc ((⌊x⌋.toNat : ℕ) : ℚ) = (((⌊x⌋.toNat : ℕ) : ℤ) : ℚ) := (Int.cast_natCast _).symm
      _ = ((⌊x⌋ : ℤ) : ℚ) := by rw [h1]
  rw [hc]
  exact ⟨Int.floor_le x, Int.lt_floor_add_one x⟩

theorem floor_toNat_mono (x y : ℚ) (hxy : x ≤ y) : ⌊x⌋.toNat ≤ ⌊y⌋.toNat :=
  Int.toNat_le_toNat (Int.floor_mono hxy)

theorem roundHalfEven_bounds (x : ℚ) :
    ⌊x⌋.toNat ≤ roundHalfEven x ∧ roundHalfEven x ≤ ⌊x⌋.toNat + 1 := by
  unfold roundHalfEven
  simp only
  split <;> omega

theorem roundHalfEven_natCast (n : Nat) : roundHalfEven (n : ℚ) = n := by
  unfold roundHalfEven
  simp

theorem roundHalfEven_mono (x y : ℚ) (hx : 0 ≤ x) (hxy : x ≤ y) :
    roundHalfEven x ≤ roundHalfEven y := by
  have hf := floor_toNat_mono x y hxy
  rcases Nat.eq_or_lt_of_le hf with heq | hlt
  · obtain ⟨x1, x2⟩ := floor_toNat_bounds x hx
    obtain ⟨y1, y2⟩ := floor_toNat_bounds y (le_trans hx hxy)
    unfold roundHalfEven
    simp only
    rw [← heq] at y1 y2 ⊢
    by_cases cx : x - ((⌊x⌋.toNat : ℕ) : ℚ) > 1 / 2 ∨
        (x - ((⌊x⌋.toNat : ℕ) : ℚ) = 1 / 2 ∧ ⌊x⌋.toNat % 2 = 1)
    · have cy : y - ((⌊x⌋.toNat : ℕ) : ℚ) > 1 / 2 ∨
          (y - ((⌊x⌋.toNat : ℕ) : ℚ) = 1 / 2 ∧ ⌊x⌋.toNat % 2 = 1) := by
        rcases cx with c | ⟨c, hodd⟩
        · left
          linarith
        · by_cases hy : y - ((⌊x⌋.toNat : ℕ) : ℚ) > 1 / 2
          · left
            exact hy
          · right
            exact ⟨by linarith, hodd⟩
      rw [if_pos cx, if_pos cy]
    · rw [if_neg cx]
      split <;> omega
  · have b1 := (roundHalfEven_bounds x).2
    have b2 := (roundHalfEven_bounds y).1
    omega

theorem quantum_ge (a : ℚ) : -1074 ≤ Double.quantum a ∧ Double.ilog2 a - 52 ≤ Double.quantum a := by
  unfold Double.quantum
  constructor
  · exact le_max_right _ _
  · exact le_max_left _ _

theorem scaled_lt (a : ℚ) (ha : 0 < a) : a / (2 : ℚ) ^ Double.quantum a < (2 : ℚ) ^ (53 : ℕ) := by
  obtain ⟨_, s2⟩ := ilog2_spec a ha
  obtain ⟨_, q2⟩ := quantum_ge a
  rw [div_lt_iff₀ (two_zpow_pos _)]
  have h53 : (2 : ℚ) ^ (53 : ℕ) * (2 : ℚ) ^ Double.quantum a = (2 : ℚ) ^ (53 + Double.quantum a) := by
    rw [zpow_add₀ (by norm_num : (2 : ℚ) ≠ 0)]
    norm_cast
  rw [h53]
  exact lt_of_lt_of_le s2 (two_zpow_le _ _ (by omega))

theorem scaled_ge (a : ℚ) (ha : 0 < a) (hq : Double.quantum a = Double.ilog2 a - 52) :
    (2 : ℚ) ^ (52 : ℕ) ≤ a / (2 : ℚ) ^ Double.quantum a := by
  obtain ⟨s1, _⟩ := ilog2_spec a ha
  rw [le_div_iff₀ (two_zpow_pos _)]
  have h52 : (2 : ℚ) ^ (52 : ℕ) * (2 : ℚ) ^ Double.quantum a = (2 : ℚ) ^ (52 + Double.quantum a) := by
    rw [zpow_add₀ (by norm_num : (2 : ℚ) ≠ 0)]
    norm_cast
  rw [h52, hq]
  have : 52 + (Double.ilog2 a - 52) = Double.ilog2 a := by ring
  rw [this]
  exact s1

theorem nearestMag_eq (a : ℚ) :
    Double.nearestMag a =
      (roundHalfEven (a / (2 : ℚ) ^ Double.quantum a) : ℚ) * (2 : ℚ) ^ Double.quantum a := by
  unfold Double.nearestMag
  rw [pow2_eq_zpow]

theorem nearestMag_nonneg (a : ℚ) : 0 ≤ Double.nearestMag a := by
  rw [nearestMag_eq]
  exact mul_nonneg (Nat.cast_nonneg _) (le_of_lt (two_zpow_pos _))

theorem roundHalfEven_scaled_le (a : ℚ) (ha : 0 < a) :
    roundHalfEven (a / (2 : ℚ) ^ Double.quantum a) ≤ 2 ^ 53 := by
  have h := roundHalfEven_mono _ ((2 ^ 53 : ℕ) : ℚ)
    (div_nonneg (le_of_lt ha) (le_of_lt (two_zpow_pos _)))
    (by
      have := scaled_lt a ha
      push_cast
      exact le_of_lt this)
  rwa [roundHalfEven_natCast] at h

theorem nearestMag_mono (a b : ℚ) (ha : 0 < a) (hab : a ≤ b) :
    Double.nearestMag a ≤ Double.nearestMag b := by
  have hb : 0 < b := lt_of_lt_of_le ha hab
  have hq : Double.quantum a ≤ Double.quantum b := by
    have := ilog2_mono a b ha hab
    unfold Double.quantum
    exact max_le_max (by omega) (le_refl _)
  rw [nearestMag_eq, nearestMag_eq]
  rcases eq_or_lt_of_le hq with heq | hlt
  · rw [← heq]
    apply mul_le_mul_of_nonneg_right _ (le_of_lt (two_zpow_pos _))
    have := roundHalfEven_mono (a / (2 : ℚ) ^ Double.quantum a) (b / (2 : ℚ) ^ Double.quantum a)
      (div_nonneg (le_of_lt ha) (le_of_lt (two_zpow_pos _)))
      (div_le_div_of_nonneg_right hab (le_of_lt (two_zpow_pos _)))
    exact_mod_cast this
  · obtain ⟨qa1, _⟩ := quantum_ge a
    have hqb : Double.quantum b = Double.ilog2 b - 52 := by
      unfold Double.quantum at hlt qa1 ⊢
      rcases max_cases (Double.ilog2 b - 52) (-1074) with ⟨h, _⟩ | ⟨h, _⟩
      · exact h
      · rw [h] at hlt
        omega
    have hup : (roundHalfEven (a / (2 : ℚ) ^ Double.quantum a) : ℚ) ≤ (2 : ℚ) ^ (53 : ℕ) := by
      exact_mod_cast roundHalfEven_scaled_le a ha
    have hlow : (2 : ℚ) ^ (52 : ℕ) ≤ (roundHalfEven (b / (2 : ℚ) ^ Double.quantum b) : ℚ) := by
      have h := roundHalfEven_mono ((2 ^ 52 : ℕ) : ℚ) (b / (2 : ℚ) ^ Double.quantum b)
        (by positivity)
        (by
          have := scaled_ge b hb hqb
          push_cast
          exact this)
      rw [roundHalfEven_natCast] at h
      exact_mod_cast h
    calc (roundHalfEven (a / (2 : ℚ) ^ Double.quantum a) : ℚ) * (2 : ℚ) ^ Double.quantum a
        ≤ (2 : ℚ) ^ (53 : ℕ) * (2 : ℚ) ^ Double.quantum a :=
          mul_le_mul_of_nonneg_right hup (le_of_lt (two_zpow_pos _))
      _ = (2 : ℚ) ^ (53 + Double.quantum a) := by
          rw [zpow_add₀ (by norm_num : (2 : ℚ) ≠ 0)]
          norm_cast
      _ ≤ (2 : ℚ) ^ (52 + Double.quantum b) := two_zpow_le _ _ (by omega)
      _ = (2 : ℚ) ^ (52 : ℕ) * (2 : ℚ) ^ Double.quantum b := by
          rw [zpow_add₀ (by norm_num : (2 : ℚ) ≠ 0)]
          norm_cast
      _ ≤ (roundHalfEven (b / (2 : ℚ) ^ Double.quantum b) : ℚ) * (2 : ℚ) ^ Double.quantum b :=
          mul_le_mul_of_nonneg_right hlow (le_of_lt (two_zpow_pos _))

theorem nearestMag_zero : Double.nearestMag 0 = 0 := by
  rw [nearestMag_eq]
  simp [roundHalfEven]

theorem bitLen_le_53 (m : Nat) (hm : 0 < m) (hm2 : m < 2 ^ 53) : bitLen m ≤ 53 := by
  obtain ⟨_, h2⟩ := bitLen_spec m hm
  by_contra hc
  have h54 : 54 ≤ bitLen m := by omega
  have : 2 ^ 54 ≤ 2 ^ bitLen m := Nat.pow_le_pow_right (by norm_num) h54
  omega

theorem ilog2_nat_mul (m : Nat) (p : Int) (hm : 0 < m) :
    Double.ilog2 ((m : ℚ) * (2 : ℚ) ^ p) = (bitLen m : Int) - 1 + p := by
  obtain ⟨h1, h2⟩ := bitLen_spec m hm
  have hmq : (0 : ℚ) < (m : ℚ) := by exact_mod_cast hm
  have h1q : (m : ℚ) < (2 : ℚ) ^ (bitLen m : Int) := by
    rw [zpow_natCast]
    exact_mod_cast h1
  have h2q : (2 : ℚ) ^ (bitLen m : Int) ≤ 2 * (m : ℚ) := by
    rw [zpow_natCast]
    exact_mod_cast h2
  apply ilog2_unique
  · exact mul_pos hmq (two_zpow_pos p)
  · have : (2 : ℚ) ^ ((bitLen m : Int) - 1 + p) = (2 : ℚ) ^ (bitLen m : Int) / 2 * (2 : ℚ) ^ p := by
      rw [zpow_add₀ (by norm_num : (2 : ℚ) ≠ 0), zpow_sub_one₀ (by norm_num : (2 : ℚ) ≠ 0)]
      rfl
    rw [this]
    apply mul_le_mul_of_nonneg_right _ (le_of_lt (two_zpow_pos p))
    linarith
  · have : (2 : ℚ) ^ ((bitLen m : Int) - 1 + p + 1) = (2 : ℚ) ^ (bitLen m : Int) * (2 : ℚ) ^ p := by
      rw [← zpow_add₀ (by norm_num : (2 : ℚ) ≠ 0)]
      congr 1
      ring
    rw [this]
    exact mul_lt_mul_of_pos_right h1q (two_zpow_pos p)

/-- A positive rational `m * 2^p` with fewer than 54 bits in `m` and an
exponent of at least `-1074` is a double: rounding leaves it as it is. -/
theorem nearestMag_fixed (m : Nat) (p : Int) (hm : 0 < m) (hm2 : m < 2 ^ 53)
    (hp : -1074 ≤ p) :
    Double.nearestMag ((m : ℚ) * (2 : ℚ) ^ p) = (m : ℚ) * (2 : ℚ) ^ p := by
  have hlen := bitLen_le_53 m hm hm2
  have hq : Double.quantum ((m : ℚ) * (2 : ℚ) ^ p) ≤ p := by
    unfold Double.quantum
    rw [ilog2_nat_mul m p hm]
    apply max_le <;> omega
  rw [nearestMag_eq]
  obtain ⟨d, hd⟩ : ∃ d : ℕ, p = Double.quantum ((m : ℚ) * (2 : ℚ) ^ p) + (d : Int) :=
    ⟨(p - Double.quantum ((m : ℚ) * (2 : ℚ) ^ p)).toNat, by omega⟩
  have hscaled : (m : ℚ) * (2 : ℚ) ^ p / (2 : ℚ) ^ Double.quantum ((m : ℚ) * (2 : ℚ) ^ p) =
      ((m * 2 ^ d : ℕ) : ℚ) := by
    rw [div_eq_iff (ne_of_gt (two_zpow_pos _))]
    conv_lhs => rw [hd]
    rw [zpow_add₀ (by norm_num : (2 : ℚ) ≠ 0), zpow_natCast]
    push_cast
    ring
  rw [hscaled, roundHalfEven_natCast]
  conv_rhs => rw [hd]
  rw [zpow_add₀ (by norm_num : (2 : ℚ) ≠ 0), zpow_natCast]
  push_cast
  ring

theorem nearestMag_idem (a : ℚ) (ha : 0 < a) :
    Double.nearestMag (Double.nearestMag a) = Double.nearestMag a := by
  have hle := roundHalfEven_scaled_le a ha
  obtain ⟨hq, _⟩ := quantum_ge a
  rw [nearestMag_eq a]
  generalize hn : roundHalfEven (a / (2 : ℚ) ^ Double.quantum a) = n at hle ⊢
  rcases Nat.eq_zero_or_pos n with h0 | hpos
  · rw [h0]
    simp [nearestMag_zero]
  · rcases Nat.lt_or_ge n (2 ^ 53) with hlt | hge
    · exact nearestMag_fixed n _ hpos hlt hq
    · have hn53 : n = 2 ^ 53 := le_antisymm hle hge
      have hre : (n : ℚ) * (2 : ℚ) ^ Double.quantum a =
          ((2 ^ 52 : ℕ) : ℚ) * (2 : ℚ) ^ (Double.quantum a + 1) := by
        rw [hn53, zpow_add_one₀ (by norm_num : (2 : ℚ) ≠ 0)]
        push_cast
        ring
      rw [hre]
      exact nearestMag_fixed (2 ^ 52) _ (by positivity) (by norm_num) (by omega)

theorem nearestMag_natCast (n : Nat) (hn2 : n < 2 ^ 53) :
    Double.nearestMag (n : ℚ) = (n : ℚ) := by
  rcases Nat.eq_zero_or_pos n with h0 | hpos
  · rw [h0]
    simpa using nearestMag_zero
  · have := nearestMag_fixed n 0 hpos hn2 (by norm_num)
    simpa using this

/-! ## Lemmas on the double arithmetic of the processors -/

theorem Double.zero_eq : (0 : Double) = Double.fin false 0 := by decide!

theorem Double.one_eq : (1 : Double) = Double.fin false 1 := by decide!

theorem Double.hundred_eq : (100 : Double) = Double.fin false 100 := by decide!

theorem Double.neg_one_eq : (-1 : Double) = Double.fin true 1 := by decide!

theorem Double.add_eq (x y : Double) : x + y = Double.add x y := rfl

theorem Double.sub_eq (x y : Double) : x - y = Double.add x (Double.neg y) := rfl

theorem Double.mul_eq (x y : Double) : x * y = Double.mul x y := rfl

theorem Double.div_eq (x y : Double) : x / y = Double.div x y := rfl

theorem wrapInt32_id (n : Int) (h1 : -2147483648 ≤ n) (h2 : n < 2147483648) :
    wrapInt32 n = n := by
  unfold wrapInt32
  omega

theorem AverageProcessor.feed_state (s : AverageProcessor) (xs : List Double)
    (h0 : 0 ≤ s.m_count) (hlen : s.m_count + (xs.length : Int) < 2147483648) :
    (s.feed xs).m_sum = xs.foldl (fun a x => a + x) s.m_sum ∧
      (s.feed xs).m_count = s.m_count + (xs.length : Int) := by
  induction xs generalizing s with
  | nil => simp [AverageProcessor.feed]
  | cons x t ih =>
    simp only [List.length_cons] at hlen
    push_cast at hlen
    have hc : (s.notifyValue x).m_count = s.m_count + 1 := by
      simp only [AverageProcessor.notifyValue]
      exact wrapInt32_id _ (by omega) (by omega)
    have h := ih (s.notifyValue x) (by rw [hc]; omega) (by rw [hc]; omega)
    have hstep : s.feed (x :: t) = (s.notifyValue x).feed t := rfl
    rw [hstep, h.1, h.2, hc]
    constructor
    · rfl
    · simp only [List.length_cons]
      push_cast
      ring

theorem AverageProcessor.getResult_feed_reset (s : AverageProcessor) (xs : List Double)
    (hlen : xs.length < 2 ^ 31) :
    ((s.reset).feed xs).getResult = doubleMean xs := by
  have hl : ((s.reset).m_count + (xs.length : Int)) < 2147483648 := by
    have : (s.reset).m_count = 0 := rfl
    rw [this]
    have : (xs.length : Int) < 2 ^ 31 := by exact_mod_cast hlen
    omega
  obtain ⟨h1, h2⟩ := AverageProcessor.feed_state s.reset xs (le_refl _) hl
  unfold AverageProcessor.getResult doubleMean
  rw [h1, h2]
  have hs : (s.reset).m_sum = 0 := rfl
  have hc : (s.reset).m_count = 0 := rfl
  rw [hs, hc, zero_add]
  by_cases hx : xs.length = 0
  · simp [hx]
  · have hpos : (0 : Int) < (xs.length : Int) := by omega
    simp [hx, hpos]

theorem representable_iff (q : ℚ) :
    Double.representable q = true ↔ (Double.ofRat q).toRat = some q := by
  simp [Double.representable]

theorem Double.toRat_add (x y : Double) (a b : ℚ) (hx : x.toRat = some a)
    (hy : y.toRat = some b) (hr : Double.representable (a + b) = true) :
    (x + y).toRat = some (a + b) := by
  cases x with
  | nan => simp [Double.toRat] at hx
  | inf s => simp [Double.toRat] at hx
  | fin s a1 =>
    cases y with
    | nan => simp [Double.toRat] at hy
    | inf t => simp [Double.toRat] at hy
    | fin t b1 =>
      simp only [Double.toRat, Option.some.injEq] at hx hy
      rw [Double.add_eq]
      simp only [Double.add, hx, hy]
      split
      · rename_i h0
        simp [Double.toRat, Double.value, h0]
      · exact (representable_iff _).mp hr

theorem Double.toRat_div_ofInt (x : Double) (a : ℚ) (n : Int) (hn : 0 < n)
    (hx : x.toRat = some a) (hr : Double.representable (a / (n : ℚ)) = true) :
    (x / Double.ofInt n).toRat = some (a / (n : ℚ)) := by
  have hnq : (0 : ℚ) < (n : ℚ) := by exact_mod_cast hn
  cases x with
  | nan => simp [Double.toRat] at hx
  | inf s => simp [Double.toRat] at hx
  | fin s a1 =>
    simp only [Double.toRat, Option.some.injEq] at hx
    rw [Double.div_eq]
    have habs : |(n : ℚ)| = (n : ℚ) := abs_of_pos hnq
    have hneg : decide (n < 0) = false := by simp; omega
    simp only [Double.ofInt, Double.div, habs, hneg, ne_of_gt hnq, if_false]
    split
    · rename_i h0
      have ha0 : a = 0 := by
        rw [← hx, h0]
        simp [Double.value]
      simp [Double.toRat, Double.value, ha0]
    · have hv : Double.value false (n : ℚ) = (n : ℚ) := rfl
      rw [hv, hx]
      exact (representable_iff _).mp hr

theorem AverageProcessor.feed_exact (s : AverageProcessor) (xs : List Double) (qs : List ℚ)
    (a : ℚ) (hs : s.m_sum.toRat = some a) (hvals : xs.map Double.toRat = qs.map some)
    (hrep : ∀ k, k ≤ qs.length → Double.representable (a + (qs.take k).sum) = true) :
    (s.feed xs).m_sum.toRat = some (a + qs.sum) := by
  induction xs generalizing s qs a with
  | nil =>
    cases qs with
    | nil => simpa [AverageProcessor.feed] using hs
    | cons q t => simp at hvals
  | cons x t ih =>
    cases qs with
    | nil => simp at hvals
    | cons q u =>
      simp only [List.map_cons, List.cons.injEq] at hvals
      have hstep : s.feed (x :: t) = (s.notifyValue x).feed t := rfl
      have h1 := hrep 1 (by simp)
      simp only [List.take_succ_cons, List.take_zero, List.sum_cons, List.sum_nil,
        add_zero] at h1
      have hsum : (s.notifyValue x).m_sum.toRat = some (a + q) :=
        Double.toRat_add s.m_sum x a q hs hvals.1 h1
      rw [hstep, ih (s.notifyValue x) u (a + q) hsum hvals.2]
      · simp only [List.sum_cons]
        rw [add_assoc]
      · intro k hk
        have := hrep (k + 1) (by simp; omega)
        simp only [List.take_succ_cons, List.sum_cons] at this
        rw [add_assoc]
        exact this
/-! ## The order of the doubles -/

theorem Double.le_refl_of_not_nan (x : Double) (h : x.isNaN = false) :
    Double.le x x = true := by
  cases x <;> simp_all [Double.le, Double.lt, Double.eq, Double.isNaN]

theorem Double.le_of_gt (y m : Double) (h : Double.gt y m = true) : Double.le m y = true := by
  unfold Double.gt at h
  simp [Double.le, h]

theorem Double.le_of_not_gt (y m : Double) (hy : y.isNaN = false) (hm : m.isNaN = false)
    (h : Double.gt y m = false) : Double.le y m = true := by
  unfold Double.gt at h
  cases y with
  | nan => simp [Double.isNaN] at hy
  | inf s =>
    cases m with
    | nan => simp [Double.isNaN] at hm
    | inf t => cases s <;> cases t <;> simp_all [Double.le, Double.lt, Double.eq]
    | fin t b => cases s <;> simp_all [Double.le, Double.lt, Double.eq]
  | fin s a =>
    cases m with
    | nan => simp [Double.isNaN] at hm
    | inf t => cases t <;> simp_all [Double.le, Double.lt, Double.eq]
    | fin t b =>
      simp only [Double.lt, decide_eq_false_iff_not, not_lt] at h
      simp only [Double.le, Double.lt, Double.eq, Bool.or_eq_true, decide_eq_true_eq]
      exact lt_or_eq_of_le h

theorem Double.le_fin_iff (s t : Bool) (a b : ℚ) :
    Double.le (Double.fin s a) (Double.fin t b) = true ↔
      Double.value s a ≤ Double.value t b := by
  simp only [Double.le, Double.lt, Double.eq, Bool.or_eq_true, decide_eq_true_eq]
  exact le_iff_lt_or_eq.symm

theorem Double.le_chain (x y z : Double) (h1 : Double.le x y = true)
    (h2 : Double.le y z = true) : Double.le x z = true := by
  cases x with
  | nan => simp [Double.le, Double.lt, Double.eq] at h1
  | inf s =>
    cases y with
    | nan => simp [Double.le, Double.lt, Double.eq] at h1
    | inf t =>
      cases z with
      | nan => simp [Double.le, Double.lt, Double.eq] at h2
      | inf u => cases s <;> cases t <;> cases u <;> simp_all [Double.le, Double.lt, Double.eq]
      | fin u c => cases s <;> cases t <;> simp_all [Double.le, Double.lt, Double.eq]
    | fin t b =>
      cases z with
      | nan => simp [Double.le, Double.lt, Double.eq] at h2
      | inf u => cases s <;> cases u <;> simp_all [Double.le, Double.lt, Double.eq]
      | fin u c => cases s <;> simp_all [Double.le, Double.lt, Double.eq]
  | fin s a =>
    cases y with
    | nan => simp [Double.le, Double.lt, Double.eq] at h1
    | inf t =>
      cases z with
      | nan => simp [Double.le, Double.lt, Double.eq] at h2
      | inf u => cases t <;> cases u <;> simp_all [Double.le, Double.lt, Double.eq]
      | fin u c => cases t <;> simp_all [Double.le, Double.lt, Double.eq]
    | fin t b =>
      cases z with
      | nan => simp [Double.le, Double.lt, Double.eq] at h2
      | inf u => cases u <;> simp_all [Double.le, Double.lt, Double.eq]
      | fin u c =>
        rw [Double.le_fin_iff] at h1 h2 ⊢
        exact le_trans h1 h2

/-! ## Lemmas on `MaxProcessor` -/

theorem MaxProcessor.feed_hasValue (s : MaxProcessor) (xs : List Double)
    (h : s.m_hasValue = true) (hm : s.m_max.isNaN = false)
    (hxs : ∀ x ∈ xs, x.isNaN = false) :
    (s.feed xs).m_hasValue = true ∧ (s.feed xs).m_max ∈ s.m_max :: xs ∧
      ∀ x ∈ s.m_max :: xs, Double.le x (s.feed xs).m_max = true := by
  induction xs generalizing s with
  | nil =>
    refine ⟨h, by simp [MaxProcessor.feed], ?_⟩
    intro x hx
    simp only [List.mem_singleton] at hx
    rw [hx]
    exact Double.le_refl_of_not_nan _ hm
  | cons y t ih =>
    have hstep : s.feed (y :: t) = (s.notifyValue y).feed t := rfl
    have hy : y.isNaN = false := hxs y (by simp)
    have ht : ∀ x ∈ t, x.isNaN = false := fun x hx => hxs x (by simp [hx])
    rw [hstep]
    cases hgt : Double.gt y s.m_max with
    | true =>
      have hn : s.notifyValue y = { m_max := y, m_hasValue := true } := by
        simp [MaxProcessor.notifyValue, hgt]
      obtain ⟨a, b, c⟩ := ih (s.notifyValue y) (by rw [hn]) (by rw [hn]; exact hy) ht
      rw [hn] at a b c ⊢
      refine ⟨a, ?_, ?_⟩
      · simp only [List.mem_cons] at b ⊢
        tauto
      · intro x hx
        simp only [List.mem_cons] at hx
        rcases hx with hx | hx | hx
        · rw [hx]
          exact Double.le_chain _ _ _ (Double.le_of_gt _ _ hgt) (c y (by simp))
        · rw [hx]
          exact c y (by simp)
        · exact c x (by simp [hx])
    | false =>
      have hn : s.notifyValue y = s := by
        simp [MaxProcessor.notifyValue, h, hgt]
      obtain ⟨a, b, c⟩ := ih s h hm ht
      rw [hn]
      refine ⟨a, ?_, ?_⟩
      · simp only [List.mem_cons] at b ⊢
        tauto
      · intro x hx
        simp only [List.mem_cons] at hx
        rcases hx with hx | hx | hx
        · rw [hx]
          exact c s.m_max (by simp)
        · rw [hx]
          exact Double.le_chain _ _ _ (Double.le_of_not_gt y s.m_max hy hm hgt)
            (c s.m_max (by simp))
        · exact c x (by simp [hx])

/-! ## Lemmas on `VariabilityProcessor` -/

theorem Double.ne_neg_one : Double.ne (-1) (-1) = false := by decide!

theorem variabilitySamples_cons (p x : Double) (t : List Double) :
    variabilitySamples (p :: x :: t) =
      (if (Double.ne p (-1) && Double.gt (p + x) 0) = true then [variabilitySample p x]
        else []) ++ variabilitySamples (x :: t) := by
  unfold variabilitySamples consecutivePairs
  cases h : (Double.ne p (-1) && Double.gt (p + x) 0)
  · simp [List.filter_cons, h]
  · simp [List.filter_cons, h]

theorem VariabilityProcessor.feed_avg (s : VariabilityProcessor) (xs : List Double) :
    (s.feed xs).m_avgProcessor =
      s.m_avgProcessor.feed (variabilitySamples (s.m_prevValue :: xs)) := by
  induction xs generalizing s with
  | nil => simp [VariabilityProcessor.feed, variabilitySamples, consecutivePairs,
      AverageProcessor.feed]
  | cons x t ih =>
    have hstep : s.feed (x :: t) = (s.notifyValue x).feed t := rfl
    rw [hstep, ih (s.notifyValue x), variabilitySamples_cons]
    have hp : (s.notifyValue x).m_prevValue = x := rfl
    rw [hp]
    cases h1 : Double.ne s.m_prevValue (-1)
    · simp [VariabilityProcessor.notifyValue, h1]
    · cases h2 : Double.gt (s.m_prevValue + x) 0
      · simp [VariabilityProcessor.notifyValue, h1, h2]
      · simp [VariabilityProcessor.notifyValue, h1, h2, AverageProcessor.feed,
          variabilitySample]

theorem variabilitySamples_sentinel (xs : List Double) :
    variabilitySamples (-1 :: xs) = variabilitySamples xs := by
  cases xs with
  | nil => simp [variabilitySamples, consecutivePairs]
  | cons x t => simp [variabilitySamples_cons, Double.ne_neg_one]

theorem variabilitySamples_length (xs : List Double) :
    (variabilitySamples xs).length ≤ xs.length - 1 := by
  unfold variabilitySamples consecutivePairs
  rw [List.length_map]
  refine le_trans (List.length_filter_le _ _) ?_
  rw [List.length_zip, List.length_tail]
  exact Nat.min_le_right _ _

theorem VariabilityProcessor.feed_samples (s : VariabilityProcessor) (ys : List Double) :
    ((s.reset).feed ys).m_avgProcessor =
      ((s.m_avgProcessor).reset).feed (variabilitySamples ys) := by
  rw [VariabilityProcessor.feed_avg]
  have hr : (s.reset).m_prevValue = -1 := rfl
  have ha : (s.reset).m_avgProcessor = (s.m_avgProcessor).reset := rfl
  rw [hr, ha, variabilitySamples_sentinel]

theorem VariabilityProcessor.result_after_reset (s : VariabilityProcessor) (ys : List Double)
    (hlen : ys.length ≤ 2 ^ 31) :
    ((s.reset).feed ys).getResult = doubleMean (variabilitySamples ys) := by
  unfold VariabilityProcessor.getResult
  rw [VariabilityProcessor.feed_samples]
  apply AverageProcessor.getResult_feed_reset
  have h := variabilitySamples_length ys
  have h2 : 0 < 2 ^ 31 := by norm_num
  omega

/-! ## The forms of the results of double arithmetic -/

theorem Double.ofRat_pos (q : ℚ) (hq : 0 < q) :
    (pow2 1024 ≤ Double.nearestMag q ∧ Double.ofRat q = Double.inf false) ∨
      (Double.nearestMag q < pow2 1024 ∧
        Double.ofRat q = Double.fin false (Double.nearestMag q)) := by
  unfold Double.ofRat
  have h0 : q ≠ 0 := ne_of_gt hq
  have habs : |q| = q := abs_of_pos hq
  have hneg : decide (q < 0) = false := by simp [le_of_lt hq]
  rw [if_neg h0, habs, hneg]
  by_cases h : pow2 1024 ≤ Double.nearestMag q
  · left
    exact ⟨h, by rw [if_pos h]⟩
  · right
    exact ⟨not_le.mp h, by rw [if_neg h]⟩

theorem Double.ofRat_neg (q : ℚ) (hq : q < 0) :
    Double.ofRat q = Double.inf true ∨
      Double.ofRat q = Double.fin true (Double.nearestMag |q|) := by
  unfold Double.ofRat
  have h0 : q ≠ 0 := ne_of_lt hq
  have hneg : decide (q < 0) = true := by simp [hq]
  rw [if_neg h0, hneg]
  by_cases h : pow2 1024 ≤ Double.nearestMag |q|
  · left
    rw [if_pos h]
  · right
    rw [if_neg h]

theorem Double.ofRat_settled (q : ℚ) (hq : 0 < q) : Double.Settled (Double.ofRat q) := by
  rcases Double.ofRat_pos q hq with ⟨_, h⟩ | ⟨hlt, h⟩
  · exact Or.inr (Or.inl h)
  · exact Or.inr (Or.inr ⟨_, nearestMag_nonneg q, nearestMag_idem q hq, hlt, h⟩)

theorem Double.ofRat_nonNeg (q : ℚ) (hq : 0 < q) : Double.NonNeg (Double.ofRat q) := by
  rcases Double.ofRat_pos q hq with ⟨_, h⟩ | ⟨_, h⟩
  · exact Or.inl h
  · exact Or.inr ⟨_, nearestMag_nonneg q, h⟩

theorem Double.ofRat_within (q c : ℚ) (hq : 0 < q) (hqc : q ≤ c)
    (hfix : Double.nearestMag c = c) (hc : c < pow2 1024) :
    Double.Within c (Double.ofRat q) := by
  have hle : Double.nearestMag q ≤ c := by
    have := nearestMag_mono q c hq hqc
    rwa [hfix] at this
  rcases Double.ofRat_pos q hq with ⟨hov, _⟩ | ⟨_, h⟩
  · exact absurd (lt_of_le_of_lt (le_trans hov hle) hc) (lt_irrefl _)
  · exact ⟨_, nearestMag_nonneg q, hle, h⟩

theorem Double.ofRat_of_fixed (a : ℚ) (ha : 0 < a) (hfix : Double.nearestMag a = a)
    (hlt : a < pow2 1024) : Double.ofRat a = Double.fin false a := by
  rcases Double.ofRat_pos a ha with ⟨hov, _⟩ | ⟨_, h⟩
  · rw [hfix] at hov
    exact absurd (lt_of_le_of_lt hov hlt) (lt_irrefl _)
  · rw [h, hfix]

/-- The form of a sum: NaN, an infinity, or a finite double whose magnitude is
not negative. -/
theorem Double.add_form (x y : Double) :
    Double.add x y = Double.nan ∨ (∃ s, Double.add x y = Double.inf s) ∨
      ∃ s a, 0 ≤ a ∧ Double.add x y = Double.fin s a := by
  cases x with
  | nan => exact Or.inl (by cases y <;> rfl)
  | inf s =>
    cases y with
    | nan => exact Or.inl rfl
    | inf t =>
      by_cases h : s = t
      · exact Or.inr (Or.inl ⟨s, by simp [Double.add, h]⟩)
      · exact Or.inl (by simp [Double.add, h])
    | fin t b => exact Or.inr (Or.inl ⟨s, rfl⟩)
  | fin s a =>
    cases y with
    | nan => exact Or.inl rfl
    | inf t => exact Or.inr (Or.inl ⟨t, rfl⟩)
    | fin t b =>
      by_cases h0 : Double.value s a + Double.value t b = 0
      · exact Or.inr (Or.inr ⟨s && t, 0, le_refl 0, by simp [Double.add, h0]⟩)
      · have he : Double.add (Double.fin s a) (Double.fin t b) =
            Double.ofRat (Double.value s a + Double.value t b) := by
          simp [Double.add, h0]
        rw [he]
        rcases lt_or_gt_of_ne h0 with hneg | hpos
        · rcases Double.ofRat_neg _ hneg with h | h
          · exact Or.inr (Or.inl ⟨true, h⟩)
          · exact Or.inr (Or.inr ⟨true, _, nearestMag_nonneg _, h⟩)
        · rcases Double.ofRat_pos _ hpos with ⟨_, h⟩ | ⟨_, h⟩
          · exact Or.inr (Or.inl ⟨false, h⟩)
          · exact Or.inr (Or.inr ⟨false, _, nearestMag_nonneg _, h⟩)

theorem Double.gt_zero_form (e : Double)
    (hform : e = Double.nan ∨ (∃ s, e = Double.inf s) ∨ ∃ s a, (0 : ℚ) ≤ a ∧ e = Double.fin s a)
    (h : Double.gt e 0 = true) :
    e = Double.inf false ∨ ∃ b : ℚ, 0 < b ∧ e = Double.fin false b := by
  rw [Double.zero_eq] at h
  rcases hform with h1 | ⟨s, h1⟩ | ⟨s, a, ha, h1⟩
  · rw [h1] at h
    simp [Double.gt, Double.lt] at h
  · rw [h1] at h ⊢
    cases s
    · exact Or.inl rfl
    · simp [Double.gt, Double.lt] at h
  · rw [h1] at h ⊢
    cases s
    · simp only [Double.gt, Double.lt, Double.value, decide_eq_true_eq] at h
      exact Or.inr ⟨a, by simpa using h, rfl⟩
    · simp only [Double.gt, Double.lt, Double.value, decide_eq_true_eq] at h
      simp at h
      linarith

theorem Double.abs_form (d : Double)
    (hform : d = Double.nan ∨ (∃ s, d = Double.inf s) ∨ ∃ s a, (0 : ℚ) ≤ a ∧ d = Double.fin s a) :
    Double.abs d = Double.nan ∨ Double.abs d = Double.inf false ∨
      ∃ a : ℚ, 0 ≤ a ∧ Double.abs d = Double.fin false a := by
  rcases hform with h1 | ⟨s, h1⟩ | ⟨s, a, ha, h1⟩
  · rw [h1]
    exact Or.inl rfl
  · rw [h1]
    exact Or.inr (Or.inl rfl)
  · rw [h1]
    exact Or.inr (Or.inr ⟨a, ha, rfl⟩)

theorem Double.div_settled (d e : Double)
    (hd : d = Double.nan ∨ d = Double.inf false ∨ ∃ a : ℚ, 0 ≤ a ∧ d = Double.fin false a)
    (he : e = Double.inf false ∨ ∃ b : ℚ, 0 < b ∧ e = Double.fin false b) :
    Double.Settled (Double.div d e) := by
  rcases hd with h1 | h1 | ⟨a, ha, h1⟩
  · rw [h1]
    exact Or.inl (by cases e <;> rfl)
  · rw [h1]
    rcases he with h2 | ⟨b, hb, h2⟩
    · rw [h2]
      exact Or.inl rfl
    · rw [h2]
      exact Or.inr (Or.inl rfl)
  · rw [h1]
    rcases he with h2 | ⟨b, hb, h2⟩
    · rw [h2]
      exact Or.inr (Or.inr ⟨0, le_refl 0, nearestMag_zero, pow2_pos _, rfl⟩)
    · rw [h2]
      have hb0 : b ≠ 0 := ne_of_gt hb
      by_cases ha0 : a = 0
      · exact Or.inr (Or.inr ⟨0, le_refl 0, nearestMag_zero, pow2_pos _,
          by simp [Double.div, hb0, ha0]⟩)
      · have he : Double.div (Double.fin false a) (Double.fin false b) =
            Double.ofRat (a / b) := by
          simp [Double.div, hb0, ha0, Double.value]
        rw [he]
        exact Double.ofRat_settled _ (div_pos (lt_of_le_of_ne ha (Ne.symm ha0)) hb)

theorem Double.mul_hundred_settled (w : Double) (hw : Double.Settled w) :
    Double.Settled (Double.mul w 100) := by
  rw [Double.hundred_eq]
  rcases hw with h1 | h1 | ⟨a, ha, _, _, h1⟩
  · rw [h1]
    exact Or.inl rfl
  · rw [h1]
    exact Or.inr (Or.inl (by simp [Double.mul]))
  · rw [h1]
    by_cases ha0 : a = 0
    · exact Or.inr (Or.inr ⟨0, le_refl 0, nearestMag_zero, pow2_pos _,
        by simp [Double.mul, ha0, Double.value]⟩)
    · have he : Double.mul (Double.fin false a) (Double.fin false 100) =
          Double.ofRat (a * 100) := by
        simp [Double.mul, ha0, Double.value]
      rw [he]
      exact Double.ofRat_settled _
        (mul_pos (lt_of_le_of_ne ha (Ne.symm ha0)) (by norm_num))

theorem Double.ofInt_one : Double.ofInt 1 = Double.fin false 1 := by decide!

theorem Double.settled_fixed (v : Double) (hv : Double.Settled v) :
    (0 + v) / Double.ofInt 1 = v := by
  rw [Double.add_eq, Double.div_eq, Double.zero_eq, Double.ofInt_one]
  rcases hv with h1 | h1 | ⟨a, ha, hfix, hlt, h1⟩
  · rw [h1]
    rfl
  · rw [h1]
    rfl
  · rw [h1]
    by_cases ha0 : a = 0
    · simp [Double.add, Double.div, ha0, Double.value]
    · have hpos : 0 < a := lt_of_le_of_ne ha (Ne.symm ha0)
      have hr := Double.ofRat_of_fixed a hpos hfix hlt
      simp [Double.add, Double.div, ha0, Double.value, hr]

theorem variabilitySample_settled (x y : Double) (hxy : Double.gt (x + y) 0 = true) :
    Double.Settled (variabilitySample x y) := by
  unfold variabilitySample
  rw [Double.mul_eq, Double.div_eq, Double.sub_eq]
  apply Double.mul_hundred_settled
  apply Double.div_settled
  · exact Double.abs_form _ (Double.add_form x (Double.neg y))
  · exact Double.gt_zero_form _ (Double.add_form x y) hxy

/-! ## Bounds on the results of double arithmetic -/

theorem Double.maxMag_fixed : Double.nearestMag Double.maxMag = Double.maxMag := by decide!

theorem Double.maxMag_lt : Double.maxMag < pow2 1024 := by decide!

theorem Double.maxMag_pos : 0 < Double.maxMag := by decide!

theorem Double.nearestMag_one : Double.nearestMag 1 = 1 := by decide!

theorem Double.nearestMag_hundred : Double.nearestMag 100 = 100 := by decide!

theorem Double.one_lt_pow2 : (1 : ℚ) < pow2 1024 := by decide!

theorem Double.hundred_lt_pow2 : (100 : ℚ) < pow2 1024 := by decide!

theorem natCast_lt_pow2 (n : ℕ) (h : n < 2 ^ 53) : (n : ℚ) < pow2 1024 := by
  rw [pow2_eq_zpow]
  have h1 : (n : ℚ) < (2 : ℚ) ^ (53 : ℕ) := by exact_mod_cast h
  have h2 : (2 : ℚ) ^ (53 : ℕ) ≤ (2 : ℚ) ^ (1024 : ℤ) := by
    have h3 := two_zpow_le 53 1024 (by norm_num)
    have h4 : (2 : ℚ) ^ (53 : ℤ) = (2 : ℚ) ^ (53 : ℕ) := by
      rw [← zpow_natCast]
      rfl
    rwa [h4] at h3
  exact lt_of_lt_of_le h1 h2

theorem Double.nearestMag_le_max (q : ℚ) (hq : 0 ≤ q) (h : q ≤ Double.maxMag) :
    Double.nearestMag q ≤ Double.maxMag := by
  rcases eq_or_lt_of_le hq with h0 | hpos
  · rw [← h0, nearestMag_zero]
    exact le_of_lt Double.maxMag_pos
  · have := nearestMag_mono q Double.maxMag hpos h
    rwa [Double.maxMag_fixed] at this

theorem Double.nonNeg_le (v : Double) (h : Double.NonNeg v) : Double.le 0 v = true := by
  rw [Double.zero_eq]
  rcases h with h | ⟨a, ha, h⟩
  · rw [h]
    rfl
  · rw [h, Double.le_fin_iff]
    simpa [Double.value] using ha

theorem Double.within_nonNeg (c : ℚ) (v : Double) (h : Double.Within c v) : Double.NonNeg v := by
  obtain ⟨a, ha, _, h⟩ := h
  exact Or.inr ⟨a, ha, h⟩

theorem Double.within_le (c : ℚ) (v : Double) (h : Double.Within c v) :
    Double.le v (Double.fin false c) = true := by
  obtain ⟨a, _, hac, h⟩ := h
  rw [h, Double.le_fin_iff]
  simpa [Double.value] using hac

theorem Double.range_form (x : Double) (hL : Double.le Double.lowest x = true)
    (hM : Double.le x Double.maxValue = true) :
    ∃ s a, x = Double.fin s a ∧ -Double.maxMag ≤ Double.value s a ∧
      Double.value s a ≤ Double.maxMag := by
  cases x with
  | nan => simp [Double.le, Double.lt, Double.eq] at hM
  | inf s =>
    cases s
    · simp [Double.le, Double.lt, Double.eq, Double.maxValue] at hM
    · simp [Double.le, Double.lt, Double.eq, Double.lowest] at hL
  | fin s a =>
    unfold Double.lowest at hL
    unfold Double.maxValue at hM
    rw [Double.le_fin_iff] at hL hM
    exact ⟨s, a, rfl, by simpa [Double.value] using hL, by simpa [Double.value] using hM⟩

theorem Double.nonneg_form (x : Double) (h0 : Double.le 0 x = true)
    (hM : Double.le x Double.maxValue = true) :
    ∃ s a, x = Double.fin s a ∧ 0 ≤ Double.value s a ∧
      Double.value s a ≤ Double.maxMag := by
  rw [Double.zero_eq] at h0
  cases x with
  | nan => simp [Double.le, Double.lt, Double.eq] at hM
  | inf s =>
    cases s
    · simp [Double.le, Double.lt, Double.eq, Double.maxValue] at hM
    · simp [Double.le, Double.lt, Double.eq] at h0
  | fin s a =>
    unfold Double.maxValue at hM
    rw [Double.le_fin_iff] at h0 hM
    exact ⟨s, a, rfl, by simpa [Double.value] using h0, by simpa [Double.value] using hM⟩

theorem Double.value_not (t : Bool) (b : ℚ) : Double.value (!t) b = -Double.value t b := by
  cases t <;> simp [Double.value]

/-- The absolute value of a difference of finite doubles: `+inf` on overflow,
and otherwise the rounded magnitude of the exact difference. -/
theorem Double.abs_sub_cases (s t : Bool) (a b : ℚ) :
    (pow2 1024 ≤ Double.nearestMag |Double.value s a - Double.value t b| ∧
        Double.abs (Double.fin s a - Double.fin t b) = Double.inf false) ∨
      Double.abs (Double.fin s a - Double.fin t b) =
        Double.fin false (Double.nearestMag |Double.value s a - Double.value t b|) := by
  rw [Double.sub_eq]
  have hneg : Double.neg (Double.fin t b) = Double.fin (!t) b := rfl
  rw [hneg]
  by_cases h0 : Double.value s a - Double.value t b = 0
  · right
    have hs : Double.value s a + Double.value (!t) b = 0 := by
      rw [Double.value_not]
      linarith
    have he : Double.add (Double.fin s a) (Double.fin (!t) b) = Double.fin (s && !t) 0 := by
      simp only [Double.add, hs, if_true]
    rw [he, h0, abs_zero, nearestMag_zero]
    rfl
  · have hs : Double.value s a + Double.value (!t) b = Double.value s a - Double.value t b := by
      rw [Double.value_not]
      ring
    have he : Double.add (Double.fin s a) (Double.fin (!t) b) =
        Double.ofRat (Double.value s a - Double.value t b) := by
      simp only [Double.add, hs, h0, if_false]
    rw [he]
    unfold Double.ofRat
    rw [if_neg h0]
    by_cases hov : pow2 1024 ≤ Double.nearestMag |Double.value s a - Double.value t b|
    · left
      rw [if_pos hov]
      exact ⟨hov, rfl⟩
    · right
      rw [if_neg hov]
      rfl

/-- A positive sum of finite doubles: `+inf` on overflow, and otherwise the
rounded exact sum, which is positive. -/
theorem Double.add_fin_pos (s t : Bool) (a b : ℚ)
    (h : Double.gt (Double.fin s a + Double.fin t b) 0 = true) :
    0 < Double.value s a + Double.value t b ∧
      ((pow2 1024 ≤ Double.nearestMag (Double.value s a + Double.value t b) ∧
          Double.fin s a + Double.fin t b = Double.inf false) ∨
        (0 < Double.nearestMag (Double.value s a + Double.value t b) ∧
          Double.fin s a + Double.fin t b =
            Double.fin false (Double.nearestMag (Double.value s a + Double.value t b)))) := by
  rw [Double.add_eq] at h ⊢
  rw [Double.zero_eq] at h
  by_cases h0 : Double.value s a + Double.value t b = 0
  · have he : Double.add (Double.fin s a) (Double.fin t b) = Double.fin (s && t) 0 := by
      simp only [Double.add, h0, if_true]
    rw [he] at h
    simp [Double.gt, Double.lt, Double.value] at h
  · have he : Double.add (Double.fin s a) (Double.fin t b) =
        Double.ofRat (Double.value s a + Double.value t b) := by
      simp only [Double.add, h0, if_false]
    rw [he] at h ⊢
    rcases lt_or_gt_of_ne h0 with hneg | hpos
    · rcases Double.ofRat_neg _ hneg with h1 | h1
      · rw [h1] at h
        simp [Double.gt, Double.lt] at h
      · rw [h1] at h
        simp only [Double.gt, Double.lt, decide_eq_true_eq] at h
        have hv : Double.value true (Double.nearestMag |Double.value s a + Double.value t b|) =
            -Double.nearestMag |Double.value s a + Double.value t b| := rfl
        have hz : Double.value false 0 = 0 := rfl
        rw [hv, hz] at h
        have := nearestMag_nonneg |Double.value s a + Double.value t b|
        linarith
    · refine ⟨hpos, ?_⟩
      rcases Double.ofRat_pos _ hpos with ⟨hov, h1⟩ | ⟨_, h1⟩
      · exact Or.inl ⟨hov, h1⟩
      · right
        rw [h1] at h
        simp only [Double.gt, Double.lt, decide_eq_true_eq] at h
        exact ⟨h, h1⟩

theorem Double.div_nonNeg (m n : ℚ) (hm : 0 ≤ m) (hn : 0 < n) :
    Double.NonNeg (Double.div (Double.fin false m) (Double.fin false n)) := by
  have hn0 : n ≠ 0 := ne_of_gt hn
  by_cases hm0 : m = 0
  · exact Or.inr ⟨0, le_refl 0, by simp [Double.div, hn0, hm0]⟩
  · have he : Double.div (Double.fin false m) (Double.fin false n) = Double.ofRat (m / n) := by
      simp [Double.div, hn0, hm0, Double.value]
    rw [he]
    exact Double.ofRat_nonNeg _ (div_pos (lt_of_le_of_ne hm (Ne.symm hm0)) hn)

theorem Double.div_within (m n c : ℚ) (hm : 0 ≤ m) (hn : 0 < n) (hmn : m ≤ c * n)
    (hc : 0 ≤ c) (hfix : Double.nearestMag c = c) (hlt : c < pow2 1024) :
    Double.Within c (Double.div (Double.fin false m) (Double.fin false n)) := by
  have hn0 : n ≠ 0 := ne_of_gt hn
  by_cases hm0 : m = 0
  · exact ⟨0, le_refl 0, hc, by simp [Double.div, hn0, hm0]⟩
  · have he : Double.div (Double.fin false m) (Double.fin false n) = Double.ofRat (m / n) := by
      simp [Double.div, hn0, hm0, Double.value]
    rw [he]
    exact Double.ofRat_within _ c (div_pos (lt_of_le_of_ne hm (Ne.symm hm0)) hn)
      ((div_le_iff₀ hn).mpr hmn) hfix hlt

theorem Double.mul_hundred_nonNeg (w : Double) (hw : Double.NonNeg w) :
    Double.NonNeg (Double.mul w 100) := by
  rw [Double.hundred_eq]
  rcases hw with h1 | ⟨a, ha, h1⟩
  · rw [h1]
    exact Or.inl (by simp [Double.mul])
  · rw [h1]
    by_cases ha0 : a = 0
    · exact Or.inr ⟨0, le_refl 0, by simp [Double.mul, ha0, Double.value]⟩
    · have he : Double.mul (Double.fin false a) (Double.fin false 100) =
          Double.ofRat (a * 100) := by
        simp [Double.mul, ha0, Double.value]
      rw [he]
      exact Double.ofRat_nonNeg _ (mul_pos (lt_of_le_of_ne ha (Ne.symm ha0)) (by norm_num))

theorem Double.mul_hundred_within (w : Double) (hw : Double.Within 1 w) :
    Double.Within 100 (Double.mul w 100) := by
  rw [Double.hundred_eq]
  obtain ⟨a, ha, ha1, h1⟩ := hw
  rw [h1]
  by_cases ha0 : a = 0
  · exact ⟨0, le_refl 0, by norm_num, by simp [Double.mul, ha0, Double.value]⟩
  · have he : Double.mul (Double.fin false a) (Double.fin false 100) =
        Double.ofRat (a * 100) := by
      simp [Double.mul, ha0, Double.value]
    rw [he]
    exact Double.ofRat_within _ 100 (mul_pos (lt_of_le_of_ne ha (Ne.symm ha0)) (by norm_num))
      (by linarith) Double.nearestMag_hundred Double.hundred_lt_pow2

theorem Double.zero_nonNeg : Double.NonNeg (Double.fin false 0) :=
  Or.inr ⟨0, le_refl 0, rfl⟩

theorem Double.zero_within (c : ℚ) (hc : 0 ≤ c) : Double.Within c (Double.fin false 0) :=
  ⟨0, le_refl 0, hc, rfl⟩

/-- The sample of a pair of finite doubles with a positive double sum is
`+inf` or a finite double that is not negative: it is never NaN. -/
theorem variabilitySample_nonNeg (x y : Double)
    (hx : Double.le Double.lowest x = true ∧ Double.le x Double.maxValue = true)
    (hy : Double.le Double.lowest y = true ∧ Double.le y Double.maxValue = true)
    (hxy : Double.gt (x + y) 0 = true) :
    Double.NonNeg (variabilitySample x y) := by
  obtain ⟨s, a, rfl, ha1, ha2⟩ := Double.range_form x hx.1 hx.2
  obtain ⟨t, b, rfl, hb1, hb2⟩ := Double.range_form y hy.1 hy.2
  unfold variabilitySample
  rw [Double.mul_eq, Double.div_eq]
  apply Double.mul_hundred_nonNeg
  obtain ⟨hpos, hsum⟩ := Double.add_fin_pos s t a b hxy
  rcases hsum with ⟨hov, he⟩ | ⟨hn, he⟩
  · rw [he]
    have hbig : Double.maxMag < Double.value s a + Double.value t b := by
      by_contra hc
      have := Double.nearestMag_le_max _ (le_of_lt hpos) (not_lt.mp hc)
      exact absurd (lt_of_le_of_lt (le_trans hov this) Double.maxMag_lt) (lt_irrefl _)
    have hd : |Double.value s a - Double.value t b| ≤ Double.maxMag := by
      rw [abs_le]
      constructor <;> linarith
    rcases Double.abs_sub_cases s t a b with ⟨hov2, _⟩ | hd2
    · have := Double.nearestMag_le_max _ (abs_nonneg _) hd
      exact absurd (lt_of_le_of_lt (le_trans hov2 this) Double.maxMag_lt) (lt_irrefl _)
    · rw [hd2]
      exact Double.zero_nonNeg
  · rw [he]
    rcases Double.abs_sub_cases s t a b with ⟨_, hd2⟩ | hd2
    · rw [hd2]
      exact Or.inl rfl
    · rw [hd2]
      exact Double.div_nonNeg _ _ (nearestMag_nonneg _) hn

/-- The sample of a pair of finite doubles that are not negative, with a
positive double sum, is a finite double from 0 to 100. -/
theorem variabilitySample_within (x y : Double)
    (hx : Double.le 0 x = true ∧ Double.le x Double.maxValue = true)
    (hy : Double.le 0 y = true ∧ Double.le y Double.maxValue = true)
    (hxy : Double.gt (x + y) 0 = true) :
    Double.Within 100 (variabilitySample x y) := by
  obtain ⟨s, a, rfl, ha1, ha2⟩ := Double.nonneg_form x hx.1 hx.2
  obtain ⟨t, b, rfl, hb1, hb2⟩ := Double.nonneg_form y hy.1 hy.2
  unfold variabilitySample
  rw [Double.mul_eq, Double.div_eq]
  apply Double.mul_hundred_within
  obtain ⟨hpos, hsum⟩ := Double.add_fin_pos s t a b hxy
  have hle : |Double.value s a - Double.value t b| ≤ Double.value s a + Double.value t b := by
    rw [abs_le]
    constructor <;> linarith
  have hd : |Double.value s a - Double.value t b| ≤ Double.maxMag := by
    rw [abs_le]
    constructor <;> linarith
  have hd2 : Double.abs (Double.fin s a - Double.fin t b) =
      Double.fin false (Double.nearestMag |Double.value s a - Double.value t b|) := by
    rcases Double.abs_sub_cases s t a b with ⟨hov2, _⟩ | hd2
    · have := Double.nearestMag_le_max _ (abs_nonneg _) hd
      exact absurd (lt_of_le_of_lt (le_trans hov2 this) Double.maxMag_lt) (lt_irrefl _)
    · exact hd2
  rw [hd2]
  rcases hsum with ⟨_, he⟩ | ⟨hn, he⟩
  · rw [he]
    exact Double.zero_within 1 (by norm_num)
  · rw [he]
    apply Double.div_within _ _ 1 (nearestMag_nonneg _) hn _ (by norm_num)
      Double.nearestMag_one Double.one_lt_pow2
    rw [one_mul]
    rcases eq_or_lt_of_le (abs_nonneg (Double.value s a - Double.value t b)) with h0 | hp
    · rw [← h0, nearestMag_zero]
      exact le_of_lt hn
    · exact nearestMag_mono _ _ hp hle

theorem Double.add_nonNeg (u v : Double) (hu : Double.NonNeg u) (hv : Double.NonNeg v) :
    Double.NonNeg (u + v) := by
  rw [Double.add_eq]
  rcases hu with h1 | ⟨a, ha, h1⟩
  · rw [h1]
    rcases hv with h2 | ⟨b, hb, h2⟩
    · rw [h2]
      exact Or.inl rfl
    · rw [h2]
      exact Or.inl rfl
  · rw [h1]
    rcases hv with h2 | ⟨b, hb, h2⟩
    · rw [h2]
      exact Or.inl rfl
    · rw [h2]
      by_cases h0 : a + b = 0
      · exact Or.inr ⟨0, le_refl 0, by simp [Double.add, Double.value, h0]⟩
      · have he : Double.add (Double.fin false a) (Double.fin false b) =
            Double.ofRat (a + b) := by
          simp [Double.add, Double.value, h0]
        rw [he]
        exact Double.ofRat_nonNeg _ (lt_of_le_of_ne (add_nonneg ha hb) (Ne.symm h0))

theorem Double.add_within (u v : Double) (c : ℕ) (hu : Double.Within (c : ℚ) u)
    (hv : Double.Within 100 v) (hc : c + 100 < 2 ^ 53) :
    Double.Within ((c + 100 : ℕ) : ℚ) (u + v) := by
  rw [Double.add_eq]
  obtain ⟨a, ha, hac, h1⟩ := hu
  obtain ⟨b, hb, hbc, h2⟩ := hv
  rw [h1, h2]
  by_cases h0 : a + b = 0
  · exact ⟨0, le_refl 0, Nat.cast_nonneg _, by simp [Double.add, Double.value, h0]⟩
  · have he : Double.add (Double.fin false a) (Double.fin false b) = Double.ofRat (a + b) := by
      simp [Double.add, Double.value, h0]
    rw [he]
    apply Double.ofRat_within _ _ (lt_of_le_of_ne (add_nonneg ha hb) (Ne.symm h0)) _
      (nearestMag_natCast _ hc) (natCast_lt_pow2 _ hc)
    push_cast
    linarith

theorem foldl_add_nonNeg (l : List Double) (hl : ∀ v ∈ l, Double.NonNeg v) (u : Double)
    (hu : Double.NonNeg u) : Double.NonNeg (l.foldl (fun s x => s + x) u) := by
  induction l generalizing u with
  | nil => exact hu
  | cons v t ih =>
    rw [List.foldl_cons]
    exact ih (fun w hw => hl w (by simp [hw])) _ (Double.add_nonNeg u v hu (hl v (by simp)))

theorem foldl_add_within (l : List Double) (hl : ∀ v ∈ l, Double.Within 100 v) (u : Double)
    (c : ℕ) (hu : Double.Within (c : ℚ) u) (hb : c + 100 * l.length < 2 ^ 53) :
    Double.Within ((c + 100 * l.length : ℕ) : ℚ) (l.foldl (fun s x => s + x) u) := by
  induction l generalizing u c with
  | nil => simpa using hu
  | cons v t ih =>
    rw [List.foldl_cons]
    simp only [List.length_cons] at hb ⊢
    have h1 := Double.add_within u v c hu (hl v (by simp)) (by omega)
    have h2 := ih (fun w hw => hl w (by simp [hw])) (u + v) (c + 100) h1 (by omega)
    have hc : c + 100 + 100 * t.length = c + 100 * (t.length + 1) := by ring
    rw [hc] at h2
    exact h2

theorem Double.ofInt_natCast (n : ℕ) : Double.ofInt (n : ℤ) = Double.fin false (n : ℚ) := by
  unfold Double.ofInt
  have h1 : decide (((n : ℕ) : ℤ) < 0) = false := by simp
  have h2 : |(((n : ℕ) : ℤ) : ℚ)| = (n : ℚ) := by simp
  rw [h1, h2]

theorem doubleMean_within (l : List Double) (hl : ∀ v ∈ l, Double.Within 100 v)
    (hlen : l.length < 2 ^ 31) : Double.Within 100 (doubleMean l) := by
  unfold doubleMean
  by_cases h0 : l.length = 0
  · rw [if_pos h0, Double.zero_eq]
    exact Double.zero_within 100 (by norm_num)
  · rw [if_neg h0, Double.div_eq, Double.ofInt_natCast]
    have hz : Double.Within ((0 : ℕ) : ℚ) (0 : Double) := by
      rw [Double.zero_eq]
      exact Double.zero_within _ (by simp)
    have hb : 0 + 100 * l.length < 2 ^ 53 := by
      have : (2 : ℕ) ^ 31 * 100 < 2 ^ 53 := by norm_num
      omega
    obtain ⟨a, ha, hac, h1⟩ := foldl_add_within l hl 0 0 hz hb
    rw [h1]
    have hpos : (0 : ℚ) < (l.length : ℚ) := by
      have : 0 < l.length := Nat.pos_of_ne_zero h0
      exact_mod_cast this
    apply Double.div_within _ _ 100 ha hpos _ (by norm_num) Double.nearestMag_hundred
      Double.hundred_lt_pow2
    push_cast at hac
    linarith

theorem AverageProcessor.feed_sum (s : AverageProcessor) (xs : List Double) :
    (s.feed xs).m_sum = xs.foldl (fun a x => a + x) s.m_sum := by
  induction xs generalizing s with
  | nil => rfl
  | cons x t ih =>
    have hstep : s.feed (x :: t) = (s.notifyValue x).feed t := rfl
    rw [hstep, ih (s.notifyValue x)]
    rfl

theorem AverageProcessor.getResult_nonNeg (s : AverageProcessor)
    (hs : Double.NonNeg s.m_sum) : Double.NonNeg s.getResult := by
  unfold AverageProcessor.getResult
  by_cases hc : s.m_count > 0
  · rw [if_pos hc, Double.div_eq]
    obtain ⟨n, hn⟩ := Int.eq_ofNat_of_zero_le (le_of_lt hc)
    rw [hn] at hc ⊢
    rw [Double.ofInt_natCast]
    have hpos : (0 : ℚ) < (n : ℚ) := by exact_mod_cast hc
    rcases hs with h1 | ⟨a, ha, h1⟩
    · rw [h1]
      exact Or.inl rfl
    · rw [h1]
      exact Double.div_nonNeg _ _ ha hpos
  · rw [if_neg hc, Double.zero_eq]
    exact Double.zero_nonNeg

theorem variabilitySamples_mem (xs : List Double) (v : Double)
    (hv : v ∈ variabilitySamples xs) :
    ∃ a b, a ∈ xs ∧ b ∈ xs ∧ Double.gt (a + b) 0 = true ∧ v = variabilitySample a b := by
  unfold variabilitySamples consecutivePairs at hv
  simp only [List.mem_map, List.mem_filter, Bool.and_eq_true] at hv
  obtain ⟨p, ⟨hp, _, hsum⟩, hval⟩ := hv
  have hmem := List.of_mem_zip hp
  exact ⟨p.1, p.2, hmem.1, List.mem_of_mem_tail hmem.2, hsum, hval.symm⟩
/-! ## The claims on the processors -/

/-- C2 (as amended): a freshly reset `AverageProcessor` fed fewer than `2^31`
values returns, in double arithmetic, the sum of the values, taken from `0.0`
in the order they were fed, divided by their count, and `0` when nothing was
fed; fed 1, 2, 3 it returns 2; and it returns the arithmetic mean of the fed
values whenever they are finite and every partial sum and the mean itself are
values of doubles. -/
theorem average_getResult_is_mean (s : AverageProcessor) (xs : List Double)
    (hlen : xs.length < 2 ^ 31) :
    ((s.reset).feed xs).getResult = doubleMean xs ∧
      ((s.reset).feed []).getResult = 0 ∧
      ((s.reset).feed [1, 2, 3]).getResult = 2 ∧
      ∀ qs : List ℚ, xs.map Double.toRat = qs.map some →
        (∀ k, k ≤ qs.length → Double.representable ((qs.take k).sum) = true) →
        Double.representable (mean qs) = true →
        (((s.reset).feed xs).getResult).toRat = some (mean qs) := by
  refine ⟨AverageProcessor.getResult_feed_reset s xs hlen, rfl, ?_, ?_⟩
  · have hs : s.reset = AverageProcessor.init := rfl
    rw [hs]
    decide!
  · intro qs hvals hrep hmean
    have hlenq : xs.length = qs.length := by
      have := congrArg List.length hvals
      simpa using this
    have hl : ((s.reset).m_count + (xs.length : Int)) < 2147483648 := by
      have hc : (s.reset).m_count = 0 := rfl
      rw [hc]
      have : (xs.length : Int) < 2 ^ 31 := by exact_mod_cast hlen
      omega
    obtain ⟨_, h2⟩ := AverageProcessor.feed_state s.reset xs (le_refl _) hl
    have hsum := AverageProcessor.feed_exact s.reset xs qs 0 rfl hvals
      (by
        intro k hk
        rw [zero_add]
        exact hrep k hk)
    rw [zero_add] at hsum
    have hc : (s.reset).m_count = 0 := rfl
    rw [hc, zero_add] at h2
    unfold AverageProcessor.getResult
    rw [h2]
    by_cases hx : xs.length = 0
    · have hq : qs = [] := List.length_eq_zero.mp (by omega)
      simp [hx, hq, mean, Double.zero_eq, Double.toRat, Double.value]
    · have hpos : (0 : Int) < (xs.length : Int) := by omega
      rw [if_pos hpos]
      have hm : mean qs = qs.sum / ((xs.length : Int) : ℚ) := by
        unfold mean
        rw [if_neg (by omega), hlenq]
        simp
      rw [hm]
      apply Double.toRat_div_ofInt _ _ _ hpos hsum
      rw [← hm]
      exact hmean

/-- C2, witness: the values 1, 2, 3: every partial sum and the mean 2 are
doubles, and the result is 2. -/
theorem average_getResult_is_mean_witness :
    ([1, 2, 3] : List Double).length < 2 ^ 31 ∧
      ((AverageProcessor.init.reset).feed [1, 2, 3]).getResult = doubleMean [1, 2, 3] ∧
      (((AverageProcessor.init.reset).feed [1, 2, 3]).getResult).toRat =
        some (mean [1, 2, 3]) :=
  ⟨by decide,
    (average_getResult_is_mean AverageProcessor.init [1, 2, 3] (by decide)).1,
    (average_getResult_is_mean AverageProcessor.init [1, 2, 3] (by decide)).2.2.2
      [1, 2, 3] (by decide!) (by decide!) (by decide!)⟩

/-- C2, counterexample: fed the doubles of `1e308` twice, whose mean is that
value, the processor returns `inf`, as the sum overflows; fed `1e16`, 1,
`-1e16`, whose mean is 1/3, it returns 0, as `1e16 + 1` rounds to `1e16`. -/
theorem average_mean_counterexample :
    stdStod "1e308" = some (Double.ofRat ((10 ^ 308 : ℕ) : ℚ)) ∧
      (Double.ofRat ((10 ^ 308 : ℕ) : ℚ)).toRat ≠ none ∧
      ((AverageProcessor.init.reset).feed
        [Double.ofRat ((10 ^ 308 : ℕ) : ℚ), Double.ofRat ((10 ^ 308 : ℕ) : ℚ)]).getResult =
        Double.inf false ∧
      (Double.inf false).toRat = none ∧
      [Double.ofRat ((10 ^ 16 : ℕ) : ℚ), 1, Double.ofRat (-((10 ^ 16 : ℕ) : ℚ))].map
          Double.toRat =
        [some ((10 ^ 16 : ℕ) : ℚ), some 1, some (-((10 ^ 16 : ℕ) : ℚ))] ∧
      ((AverageProcessor.init.reset).feed
        [Double.ofRat ((10 ^ 16 : ℕ) : ℚ), 1, Double.ofRat (-((10 ^ 16 : ℕ) : ℚ))]).getResult =
        0 ∧
      mean [((10 ^ 16 : ℕ) : ℚ), 1, -((10 ^ 16 : ℕ) : ℚ)] = 1 / 3 := by
  decide!

/-- C3 (as amended): a freshly reset `MaxProcessor` fed any finite sequence of
values none of which is a NaN returns `0` when nothing was fed and otherwise
the maximum of the fed values: one of them, and at least every one of them in
the order of the doubles, whatever their signs; fed 5, 1, 9, 3 it returns 9,
fed -5, -2, -7 it returns -2. -/
theorem max_getResult_is_maximum (s : MaxProcessor) (xs : List Double)
    (hnan : ∀ x ∈ xs, x.isNaN = false) :
    ((xs = [] ∧ ((s.reset).feed xs).getResult = 0) ∨
      (xs ≠ [] ∧ ((s.reset).feed xs).getResult ∈ xs ∧
        ∀ x ∈ xs, Double.le x ((s.reset).feed xs).getResult = true)) ∧
      ((s.reset).feed [5, 1, 9, 3]).getResult = 9 ∧
      ((s.reset).feed [-5, -2, -7]).getResult = -2 := by
  refine ⟨?_, ?_, ?_⟩
  · cases xs with
    | nil => exact Or.inl ⟨rfl, rfl⟩
    | cons y t =>
      refine Or.inr ⟨by simp, ?_⟩
      have hstep : (s.reset).feed (y :: t) = ((s.reset).notifyValue y).feed t := rfl
      have hn : (s.reset).notifyValue y = { m_max := y, m_hasValue := true } := by
        simp [MaxProcessor.notifyValue, MaxProcessor.reset]
      rw [hstep, hn]
      obtain ⟨a, b, c⟩ :=
        MaxProcessor.feed_hasValue { m_max := y, m_hasValue := true } t rfl
          (hnan y (by simp)) (fun x hx => hnan x (by simp [hx]))
      unfold MaxProcessor.getResult
      rw [a]
      exact ⟨b, c⟩
  · have hs : s.reset = MaxProcessor.init := rfl
    rw [hs]
    decide!
  · have hs : s.reset = MaxProcessor.init := rfl
    rw [hs]
    decide!

/-- C3, witness: the values 5, 1, 9, 3, none of them a NaN: the result 9 is
one of them and at least each of them. -/
theorem max_getResult_is_maximum_witness :
    (∀ x ∈ ([5, 1, 9, 3] : List Double), x.isNaN = false) ∧
      ((MaxProcessor.init.reset).feed [5, 1, 9, 3]).getResult = 9 ∧
      (([5, 1, 9, 3] : List Double) = [] ∧
          ((MaxProcessor.init.reset).feed [5, 1, 9, 3]).getResult = 0 ∨
        ([5, 1, 9, 3] : List Double) ≠ [] ∧
          ((MaxProcessor.init.reset).feed [5, 1, 9, 3]).getResult ∈
            ([5, 1, 9, 3] : List Double) ∧
          ∀ x ∈ ([5, 1, 9, 3] : List Double),
            Double.le x ((MaxProcessor.init.reset).feed [5, 1, 9, 3]).getResult = true) :=
  ⟨by decide!,
    (max_getResult_is_maximum MaxProcessor.init [5, 1, 9, 3] (by decide!)).2.1,
    (max_getResult_is_maximum MaxProcessor.init [5, 1, 9, 3] (by decide!)).1⟩

/-- C3, counterexample: `std::stod` delivers a NaN for the cell `nan`; fed NaN,
5, 1 the processor returns the NaN, which is not at least 5; fed 5, NaN, 1 it
returns 5, which the fed NaN is not at most: neither result is at least every
fed value. -/
theorem max_with_nan_counterexample :
    stdStod "nan" = some Double.nan ∧
      ((MaxProcessor.init.reset).feed [Double.nan, 5, 1]).getResult = Double.nan ∧
      Double.le 5 ((MaxProcessor.init.reset).feed [Double.nan, 5, 1]).getResult = false ∧
      ((MaxProcessor.init.reset).feed [5, Double.nan, 1]).getResult = 5 ∧
      Double.le Double.nan
        ((MaxProcessor.init.reset).feed [5, Double.nan, 1]).getResult = false := by
  decide!

/-- C4 (as amended): a freshly reset `VariabilityProcessor` fed at most `2^31`
values `v_1 .. v_n` returns the mean, in double arithmetic, of the samples
`abs(v_i - v_(i+1)) / (v_i + v_(i+1)) * 100`, each computed in double
arithmetic, over exactly the consecutive pairs whose first value counts as a
previous value (the test `m_prevValue != -1`) and whose double sum is positive,
and `0` when there is no such pair; fed 10, 20 it returns the single sample of
that pair, the double `4691249611844266 / 2^47`, within `10^-14` of 100/3 and
printed as `33.333333`; fed 1, 3 it returns 50; fed one value it returns 0. -/
theorem variability_getResult_is_mean_of_samples (s : VariabilityProcessor)
    (xs : List Double) (v : Double) (hlen : xs.length ≤ 2 ^ 31) :
    ((s.reset).feed xs).getResult = doubleMean (variabilitySamples xs) ∧
      variabilitySamples [10, 20] = [variabilitySample 10 20] ∧
      variabilitySample 10 20 = Double.fin false (4691249611844266 / 2 ^ 47) ∧
      |(4691249611844266 / 2 ^ 47 : ℚ) - 100 / 3| < 1 / 10 ^ 14 ∧
      ((s.reset).feed [10, 20]).getResult = variabilitySample 10 20 ∧
      stdToString ((s.reset).feed [10, 20]).getResult = "33.333333" ∧
      ((s.reset).feed [1, 3]).getResult = 50 ∧
      ((s.reset).feed [v]).getResult = 0 := by
  have h2 : ([10, 20] : List Double).length ≤ 2 ^ 31 := by decide
  have h3 : ([1, 3] : List Double).length ≤ 2 ^ 31 := by decide
  have h1 : ([v] : List Double).length ≤ 2 ^ 31 := by
    rw [List.length_singleton]
    norm_num
  refine ⟨VariabilityProcessor.result_after_reset s xs hlen, ?_, ?_, ?_, ?_, ?_, ?_, ?_⟩
  · decide!
  · decide!
  · decide!
  · rw [VariabilityProcessor.result_after_reset s _ h2]
    decide!
  · rw [VariabilityProcessor.result_after_reset s _ h2]
    decide!
  · rw [VariabilityProcessor.result_after_reset s _ h3]
    decide!
  · rw [VariabilityProcessor.result_after_reset s _ h1]
    simp [variabilitySamples, consecutivePairs, doubleMean]

/-- C4, witness: the values 10, 20, 40: the result is the mean, in double
arithmetic, of the samples of the pairs (10, 20) and (20, 40). -/
theorem variability_getResult_is_mean_of_samples_witness :
    ([10, 20, 40] : List Double).length ≤ 2 ^ 31 ∧
      ((VariabilityProcessor.init.reset).feed [10, 20, 40]).getResult =
        doubleMean (variabilitySamples [10, 20, 40]) ∧
      variabilitySamples [10, 20, 40] = [variabilitySample 10 20, variabilitySample 20 40] :=
  ⟨by decide,
    (variability_getResult_is_mean_of_samples VariabilityProcessor.init [10, 20, 40] 0
      (by decide)).1,
    by decide!⟩

/-- C4, counterexample: the cells `1.7e308` and `1e307` are read as finite
doubles whose sum is positive; the exact sample of their values is above 88,
but the double sum overflows to `+inf`, the recorded sample is `0`, and the
result is `0`, not the mean of the exact samples. -/
theorem variability_overflow_counterexample :
    stdStod "1.7e308" = some (Double.ofRat ((17 * 10 ^ 307 : ℕ) : ℚ)) ∧
      stdStod "1e307" = some (Double.ofRat ((10 ^ 307 : ℕ) : ℚ)) ∧
      ((Double.ofRat ((17 * 10 ^ 307 : ℕ) : ℚ)).toRat.bind fun a =>
        (Double.ofRat ((10 ^ 307 : ℕ) : ℚ)).toRat.map fun b =>
          decide (0 < a + b ∧ 88 < exactSample a b)) = some true ∧
      Double.ofRat ((17 * 10 ^ 307 : ℕ) : ℚ) + Double.ofRat ((10 ^ 307 : ℕ) : ℚ) =
        Double.inf false ∧
      variabilitySamples
          [Double.ofRat ((17 * 10 ^ 307 : ℕ) : ℚ), Double.ofRat ((10 ^ 307 : ℕ) : ℚ)] =
        [0] ∧
      ((VariabilityProcessor.init.reset).feed
        [Double.ofRat ((17 * 10 ^ 307 : ℕ) : ℚ),
          Double.ofRat ((10 ^ 307 : ℕ) : ℚ)]).getResult = 0 := by
  decide!

/-- C5: for each of the three processors and after any sequence of
`notifyValue`, `reset` and `getResult` calls on a newly constructed object,
`reset()` followed by `getResult()` returns `0`, and the reset object is in the
state of a newly constructed one, so that any further calls leave the same
states and return the same values. -/
theorem reset_restores_fresh_state (calls more : List (Call Double)) :
    ((averageProcessor.getResult
          (averageProcessor.reset (averageProcessor.run AverageProcessor.init calls).1)).1 = 0 ∧
        averageProcessor.run
            (averageProcessor.reset (averageProcessor.run AverageProcessor.init calls).1) more =
          averageProcessor.run AverageProcessor.init more) ∧
      ((maxProcessor.getResult
          (maxProcessor.reset (maxProcessor.run MaxProcessor.init calls).1)).1 = 0 ∧
        maxProcessor.run
            (maxProcessor.reset (maxProcessor.run MaxProcessor.init calls).1) more =
          maxProcessor.run MaxProcessor.init more) ∧
      ((variabilityProcessor.getResult
          (variabilityProcessor.reset
            (variabilityProcessor.run VariabilityProcessor.init calls).1)).1 = 0 ∧
        variabilityProcessor.run
            (variabilityProcessor.reset
              (variabilityProcessor.run VariabilityProcessor.init calls).1) more =
          variabilityProcessor.run VariabilityProcessor.init more) := by
  refine ⟨⟨rfl, rfl⟩, ⟨rfl, rfl⟩, ⟨rfl, rfl⟩⟩

/-- C15: in a `VariabilityProcessor` a fed value of exactly `-1` is the marker
of "no previous value": fed to a reset object it leaves the reset state, and
after it in any state the next value `x` adds no sample to the inner average,
whatever the sum `-1 + x`, while `m_prevValue` becomes `x`; after reset, fed
-1, 3 the result is 0, and fed -1, `x`, `y` with `x` not the marker and
`x + y > 0` the result is the one sample of the pair `(x, y)`. -/
theorem variability_sentinel_collision (s : VariabilityProcessor) (x y : Double)
    (hx : Double.ne x (-1) = true) (hxy : Double.gt (x + y) 0 = true) :
    (s.reset).notifyValue (-1) = s.reset ∧
      (s.notifyValue (-1)).m_prevValue = (s.reset).m_prevValue ∧
      ((s.notifyValue (-1)).notifyValue x).m_avgProcessor =
        (s.notifyValue (-1)).m_avgProcessor ∧
      ((s.notifyValue (-1)).notifyValue x).m_prevValue = x ∧
      variabilitySamples [-1, x] = [] ∧
      ((s.reset).feed [-1, x]).getResult = 0 ∧
      ((s.reset).feed [-1, 3]).getResult = 0 ∧
      ((s.reset).feed [-1, x, y]).getResult = Double.abs (x - y) / (x + y) * 100 := by
  have hsamp : variabilitySamples [-1, x] = [] := by
    rw [variabilitySamples_sentinel]
    simp [variabilitySamples, consecutivePairs]
  have h2 : ∀ z : Double, ([-1, z] : List Double).length ≤ 2 ^ 31 := by
    intro z
    simp
  have h3 : ([-1, x, y] : List Double).length ≤ 2 ^ 31 := by simp
  refine ⟨?_, rfl, ?_, rfl, hsamp, ?_, ?_, ?_⟩
  · simp [VariabilityProcessor.notifyValue, VariabilityProcessor.reset, Double.ne_neg_one]
  · simp [VariabilityProcessor.notifyValue, Double.ne_neg_one]
  · rw [VariabilityProcessor.result_after_reset s _ (h2 x), hsamp]
    rfl
  · rw [VariabilityProcessor.result_after_reset s _ (h2 3)]
    decide!
  · rw [VariabilityProcessor.result_after_reset s _ h3, variabilitySamples_sentinel,
      variabilitySamples_cons]
    have hc : (Double.ne x (-1) && Double.gt (x + y) 0) = true := by
      rw [hx, hxy]
      rfl
    rw [if_pos hc]
    have hnil : variabilitySamples [y] = [] := by
      simp [variabilitySamples, consecutivePairs]
    rw [hnil]
    exact Double.settled_fixed _ (variabilitySample_settled x y hxy)

/-- C15, witness: the values -1, 2, 6 after a reset; the pair (-1, 2) has the
positive sum 1 and gives no sample, the pair (2, 6) gives 50. -/
theorem variability_sentinel_collision_witness :
    Double.ne 2 (-1) = true ∧ Double.gt ((2 : Double) + 6) 0 = true ∧
      Double.gt ((-1 : Double) + 2) 0 = true ∧
      ((VariabilityProcessor.init.reset).feed [-1, 2]).getResult = 0 ∧
      ((VariabilityProcessor.init.reset).feed [-1, 2, 6]).getResult =
        Double.abs ((2 : Double) - 6) / (2 + 6) * 100 ∧
      Double.abs ((2 : Double) - 6) / (2 + 6) * 100 = 50 :=
  ⟨by decide!, by decide!, by decide!,
    (variability_sentinel_collision VariabilityProcessor.init 2 6
      (by decide!) (by decide!)).2.2.2.2.2.1,
    (variability_sentinel_collision VariabilityProcessor.init 2 6
      (by decide!) (by decide!)).2.2.2.2.2.2.2,
    by decide!⟩

/-- C17 (as amended): for every sequence of at most `2^31` finite values that
are not negative, fed to a freshly reset `VariabilityProcessor`, the inner
average is fed the variability samples, each of them lies in [0, 100], and so
does `getResult()`; for any sequence `ys` of finite values `getResult()` is at
least 0 (it may be `+inf`, it is not NaN); fed -1/2, 1 it is 300, above 100. -/
theorem variability_result_bounds (s : VariabilityProcessor) (xs ys : List Double)
    (hnn : ∀ x ∈ xs, Double.le 0 x = true ∧ Double.le x Double.maxValue = true)
    (hlen : xs.length ≤ 2 ^ 31)
    (hfin : ∀ y ∈ ys, Double.le Double.lowest y = true ∧ Double.le y Double.maxValue = true) :
    ((s.reset).feed xs).m_avgProcessor =
        ((s.reset).m_avgProcessor).feed (variabilitySamples xs) ∧
      (∀ v ∈ variabilitySamples xs, Double.le 0 v = true ∧ Double.le v 100 = true) ∧
      Double.le 0 ((s.reset).feed xs).getResult = true ∧
      Double.le ((s.reset).feed xs).getResult 100 = true ∧
      Double.le 0 ((s.reset).feed ys).getResult = true ∧
      ((s.reset).feed ys).getResult ≠ Double.nan ∧
      ((s.reset).feed [-1 / 2, 1]).getResult = 300 ∧
      Double.gt ((s.reset).feed [-1 / 2, 1]).getResult 100 = true := by
  have hex : ((s.reset).feed [-1 / 2, 1]).getResult = 300 := by
    rw [VariabilityProcessor.result_after_reset s _ (by decide)]
    decide!
  have hw : ∀ v ∈ variabilitySamples xs, Double.Within 100 v := by
    intro v hv
    obtain ⟨a, b, ha, hb, hsum, rfl⟩ := variabilitySamples_mem xs v hv
    exact variabilitySample_within a b (hnn a ha) (hnn b hb) hsum
  have hres : Double.Within 100 ((s.reset).feed xs).getResult := by
    rw [VariabilityProcessor.result_after_reset s xs hlen]
    apply doubleMean_within _ hw
    have h := variabilitySamples_length xs
    have h2 : 0 < 2 ^ 31 := by norm_num
    omega
  have hn : Double.NonNeg ((s.reset).feed ys).getResult := by
    unfold VariabilityProcessor.getResult
    apply AverageProcessor.getResult_nonNeg
    rw [VariabilityProcessor.feed_samples, AverageProcessor.feed_sum]
    apply foldl_add_nonNeg
    · intro v hv
      obtain ⟨a, b, ha, hb, hsum, rfl⟩ := variabilitySamples_mem ys v hv
      exact variabilitySample_nonNeg a b (hfin a ha) (hfin b hb) hsum
    · exact Double.zero_nonNeg
  refine ⟨VariabilityProcessor.feed_samples s xs, ?_, ?_, ?_, ?_, ?_, hex, ?_⟩
  · intro v hv
    refine ⟨Double.nonNeg_le v (Double.within_nonNeg _ v (hw v hv)), ?_⟩
    rw [Double.hundred_eq]
    exact Double.within_le _ v (hw v hv)
  · exact Double.nonNeg_le _ (Double.within_nonNeg _ _ hres)
  · rw [Double.hundred_eq]
    exact Double.within_le _ _ hres
  · exact Double.nonNeg_le _ hn
  · rcases hn with h | ⟨a, _, h⟩
    · rw [h]
      exact Double.noConfusion
    · rw [h]
      exact Double.noConfusion
  · rw [hex]
    decide!

/-- C17, witness: the finite values 0, 10, 20, 0, none of them negative, and
the finite values -1/2, 1. -/
theorem variability_result_bounds_witness :
    (∀ x ∈ ([0, 10, 20, 0] : List Double),
        Double.le 0 x = true ∧ Double.le x Double.maxValue = true) ∧
      ([0, 10, 20, 0] : List Double).length ≤ 2 ^ 31 ∧
      (∀ y ∈ ([-1 / 2, 1] : List Double),
        Double.le Double.lowest y = true ∧ Double.le y Double.maxValue = true) ∧
      Double.le 0 ((VariabilityProcessor.init.reset).feed [0, 10, 20, 0]).getResult = true ∧
      Double.le ((VariabilityProcessor.init.reset).feed [0, 10, 20, 0]).getResult 100 = true ∧
      Double.le 0 ((VariabilityProcessor.init.reset).feed [-1 / 2, 1]).getResult = true :=
  ⟨by decide!, by decide, by decide!,
    (variability_result_bounds VariabilityProcessor.init [0, 10, 20, 0] [-1 / 2, 1]
      (by decide!) (by decide) (by decide!)).2.2.1,
    (variability_result_bounds VariabilityProcessor.init [0, 10, 20, 0] [-1 / 2, 1]
      (by decide!) (by decide) (by decide!)).2.2.2.1,
    (variability_result_bounds VariabilityProcessor.init [0, 10, 20, 0] [-1 / 2, 1]
      (by decide!) (by decide) (by decide!)).2.2.2.2.1⟩

/-- C17, counterexample: `std::stod` delivers `+inf` for the cell `inf`, a
value that is not negative; fed `+inf`, `+inf`, or 5, `+inf`, the processor
records the sample `abs(inf - inf) / inf * 100` resp. `inf / inf * 100`, a
NaN, and returns NaN, which is neither at least 0 nor at most 100. -/
theorem variability_bounds_counterexample :
    stdStod "inf" = some (Double.inf false) ∧
      Double.le 0 (Double.inf false) = true ∧
      variabilitySamples [Double.inf false, Double.inf false] = [Double.nan] ∧
      ((VariabilityProcessor.init.reset).feed
        [Double.inf false, Double.inf false]).getResult = Double.nan ∧
      variabilitySamples [5, Double.inf false] = [Double.nan] ∧
      ((VariabilityProcessor.init.reset).feed [5, Double.inf false]).getResult = Double.nan ∧
      Double.le 0 Double.nan = false ∧
      Double.le Double.nan 100 = false := by
  decide!


/-! ## Lemmas on the heap and on the loops of the engine -/

section EngineLemmas

variable {D : Type} {cls : Nat → IProcessor D}

theorem foldl_update_frame {β : Type} (ptr : β → Nat)
    (g : (b : β) → (cls (ptr b)).State → (cls (ptr b)).State)
    (l : List β) (h : Heap cls) (a : Nat) (ha : a ∉ l.map ptr) :
    (l.foldl (fun h b => Function.update h (ptr b) (g b (h (ptr b)))) h) a = h a := by
  induction l generalizing h with
  | nil => rfl
  | cons b t ih =>
    simp only [List.map_cons, List.mem_cons, not_or] at ha
    simp only [List.foldl_cons]
    rw [ih _ ha.2, Function.update_noteq ha.1]

theorem foldl_update_at {β : Type} (ptr : β → Nat)
    (g : (b : β) → (cls (ptr b)).State → (cls (ptr b)).State)
    (l : List β) (h : Heap cls) (hnd : (l.map ptr).Nodup) (b : β) (hb : b ∈ l) :
    (l.foldl (fun h b => Function.update h (ptr b) (g b (h (ptr b)))) h) (ptr b) =
      g b (h (ptr b)) := by
  induction l generalizing h with
  | nil => simp at hb
  | cons c t ih =>
    simp only [List.map_cons, List.nodup_cons] at hnd
    simp only [List.foldl_cons]
    rcases List.mem_cons.mp hb with hbc | hbt
    · subst hbc
      rw [foldl_update_frame ptr g t _ _ hnd.1, Function.update_same]
    · have hne : ptr b ≠ ptr c := by
        intro he
        exact hnd.1 (he ▸ List.mem_map_of_mem ptr hbt)
      rw [ih _ hnd.2 hbt, Function.update_noteq hne]

theorem processCell_eq (env : Env D) (row : List String) (heap : Heap cls)
    (oc : OutputType × Int) :
    FVProcessor.processCell env row heap oc =
      Function.update heap oc.1.m_pProcessor
        ((cls oc.1.m_pProcessor).notifyOpt (heap oc.1.m_pProcessor)
          (deliveredValue env row oc.2)) := by
  unfold FVProcessor.processCell deliveredValue
  cases hc : cellAt row oc.2 with
  | none => simp [IProcessor.notifyOpt]
  | some cell =>
    cases hv : env.stod cell with
    | none => simp [IProcessor.notifyOpt, hv]
    | some v => simp [IProcessor.notifyOpt, hv]

theorem zip_columnIndices (outputs : List OutputType) (headers : List String) :
    outputs.zip (FVProcessor.columnIndices outputs headers) =
      outputs.map (fun o => (o, findColumn headers o.m_inputColumnName)) := by
  unfold FVProcessor.columnIndices
  induction outputs with
  | nil => rfl
  | cons o t ih => simp [ih]

theorem resetAll_at (outputs : List OutputType) (heap : Heap cls)
    (hnd : (outputs.map (fun o => o.m_pProcessor)).Nodup) (o : OutputType)
    (ho : o ∈ outputs) :
    (FVProcessor.resetAll outputs heap) o.m_pProcessor =
      (cls o.m_pProcessor).reset (heap o.m_pProcessor) :=
  foldl_update_at (fun o : OutputType => o.m_pProcessor)
    (fun o s => (cls o.m_pProcessor).reset s) outputs heap hnd o ho

theorem resetAll_frame (outputs : List OutputType) (heap : Heap cls) (a : Nat)
    (ha : a ∉ outputs.map (fun o => o.m_pProcessor)) :
    (FVProcessor.resetAll outputs heap) a = heap a :=
  foldl_update_frame (fun o : OutputType => o.m_pProcessor)
    (fun o s => (cls o.m_pProcessor).reset s) outputs heap a ha

theorem processRow_eq (env : Env D) (outputs : List OutputType) (headers : List String)
    (heap : Heap cls) (row : List String) :
    FVProcessor.processRow env outputs (FVProcessor.columnIndices outputs headers) heap row =
      outputs.foldl
        (fun h o => Function.update h o.m_pProcessor
          ((cls o.m_pProcessor).notifyOpt (h o.m_pProcessor)
            (deliveredValue env row (findColumn headers o.m_inputColumnName))))
        heap := by
  unfold FVProcessor.processRow
  rw [zip_columnIndices, List.foldl_map]
  congr 1
  funext h o
  exact processCell_eq env row h _

theorem processRow_at (env : Env D) (outputs : List OutputType) (headers : List String)
    (heap : Heap cls) (row : List String)
    (hnd : (outputs.map (fun o => o.m_pProcessor)).Nodup) (o : OutputType)
    (ho : o ∈ outputs) :
    (FVProcessor.processRow env outputs (FVProcessor.columnIndices outputs headers) heap row)
        o.m_pProcessor =
      (cls o.m_pProcessor).notifyOpt (heap o.m_pProcessor)
        (deliveredValue env row (findColumn headers o.m_inputColumnName)) := by
  rw [processRow_eq]
  exact foldl_update_at (fun o : OutputType => o.m_pProcessor)
    (fun o s => (cls o.m_pProcessor).notifyOpt s
      (deliveredValue env row (findColumn headers o.m_inputColumnName)))
    outputs heap hnd o ho

theorem processRow_frame (env : Env D) (outputs : List OutputType) (headers : List String)
    (heap : Heap cls) (row : List String) (a : Nat)
    (ha : a ∉ outputs.map (fun o => o.m_pProcessor)) :
    (FVProcessor.processRow env outputs (FVProcessor.columnIndices outputs headers) heap row) a =
      heap a := by
  rw [processRow_eq]
  exact foldl_update_frame (fun o : OutputType => o.m_pProcessor)
    (fun o s => (cls o.m_pProcessor).notifyOpt s
      (deliveredValue env row (findColumn headers o.m_inputColumnName)))
    outputs heap a ha

theorem feed_filterMap (P : IProcessor D) (s : P.State) {α : Type} (f : α → Option D)
    (l : List α) :
    l.foldl (fun s x => P.notifyOpt s (f x)) s = P.feed s (l.filterMap f) := by
  induction l generalizing s with
  | nil => rfl
  | cons x t ih =>
    simp only [List.foldl_cons]
    rw [ih]
    cases hx : f x with
    | none => simp [List.filterMap_cons, hx, IProcessor.notifyOpt]
    | some v => simp [List.filterMap_cons, hx, IProcessor.notifyOpt, IProcessor.feed]

theorem processRows_at (env : Env D) (outputs : List OutputType) (headers : List String)
    (rows : List (List String)) (heap : Heap cls)
    (hnd : (outputs.map (fun o => o.m_pProcessor)).Nodup) (o : OutputType)
    (ho : o ∈ outputs) :
    (FVProcessor.processRows env outputs (FVProcessor.columnIndices outputs headers) rows heap)
        o.m_pProcessor =
      (cls o.m_pProcessor).feed (heap o.m_pProcessor)
        (rows.filterMap
          (fun row => deliveredValue env row (findColumn headers o.m_inputColumnName))) := by
  rw [← feed_filterMap]
  unfold FVProcessor.processRows
  induction rows generalizing heap with
  | nil => rfl
  | cons row t ih =>
    simp only [List.foldl_cons]
    rw [ih, processRow_at env outputs headers heap row hnd o ho]

theorem processRows_frame (env : Env D) (outputs : List OutputType) (headers : List String)
    (rows : List (List String)) (heap : Heap cls) (a : Nat)
    (ha : a ∉ outputs.map (fun o => o.m_pProcessor)) :
    (FVProcessor.processRows env outputs (FVProcessor.columnIndices outputs headers) rows heap) a =
      heap a := by
  unfold FVProcessor.processRows
  induction rows generalizing heap with
  | nil => rfl
  | cons row t ih =>
    simp only [List.foldl_cons]
    rw [ih, processRow_frame env outputs headers heap row a ha]

theorem collectResults_congr (outputs : List OutputType) (h1 h2 : Heap cls)
    (hag : ∀ o ∈ outputs, h1 o.m_pProcessor = h2 o.m_pProcessor) :
    (FVProcessor.collectResults outputs h1).1 = (FVProcessor.collectResults outputs h2).1 := by
  induction outputs generalizing h1 h2 with
  | nil => rfl
  | cons o t ih =>
    simp only [FVProcessor.collectResults]
    rw [hag o (by simp)]
    congr 1
    apply ih
    intro o2 ho2
    by_cases he : o2.m_pProcessor = o.m_pProcessor
    · rw [he, Function.update_same, Function.update_same]
    · rw [Function.update_noteq he, Function.update_noteq he]
      exact hag o2 (by simp [ho2])

theorem collectResults_length (outputs : List OutputType) (heap : Heap cls) :
    (FVProcessor.collectResults outputs heap).1.length = outputs.length := by
  induction outputs generalizing heap with
  | nil => rfl
  | cons o t ih => simp [FVProcessor.collectResults, ih]

theorem collectResults_nodup (outputs : List OutputType) (heap : Heap cls)
    (hnd : (outputs.map (fun o => o.m_pProcessor)).Nodup) :
    (FVProcessor.collectResults outputs heap).1 =
      outputs.map (fun o => ((cls o.m_pProcessor).getResult (heap o.m_pProcessor)).1) := by
  induction outputs generalizing heap with
  | nil => rfl
  | cons o t ih =>
    simp only [List.map_cons, List.nodup_cons] at hnd
    simp only [FVProcessor.collectResults, List.map_cons]
    congr 1
    rw [ih _ hnd.2]
    apply List.map_congr_left
    intro o2 ho2
    have hne : o2.m_pProcessor ≠ o.m_pProcessor := by
      intro he
      exact hnd.1 (he ▸ List.mem_map_of_mem (fun o => o.m_pProcessor) ho2)
    rw [Function.update_noteq hne]

end EngineLemmas

section CallLemmas

variable {D : Type} {cls : Nat → IProcessor D}

theorem formattedResult_eq (env : Env D) (heap : Heap cls) (p : Nat) (values : List D) :
    formattedResult env heap p values =
      env.to_string ((cls p).getResult ((cls p).feed ((cls p).reset (heap p)) values)).1 :=
  rfl

theorem initOutput_outputs (env : Env D) (self : FVProcessor) :
    (FVProcessor.initOutput env self).m_outputs = self.m_outputs := by
  unfold FVProcessor.initOutput
  split <;> rfl

theorem initOutput_path (env : Env D) (self : FVProcessor) :
    (FVProcessor.initOutput env self).m_outputCsvPath = self.m_outputCsvPath := by
  unfold FVProcessor.initOutput
  split <;> rfl

theorem initOutput_rows (env : Env D) (self : FVProcessor) :
    outputRows (FVProcessor.initOutput env self) = outputRows self := by
  unfold FVProcessor.initOutput
  split
  · rename_i h
    cases hw : self.m_outputCSV with
    | none => simp [outputRows, hw, CSVFileWriter.create]
    | some w => simp [hw] at h
  · rfl

theorem initOutput_isSome (env : Env D) (self : FVProcessor) (hne : self.m_outputs ≠ []) :
    ∃ w, (FVProcessor.initOutput env self).m_outputCSV = some w := by
  unfold FVProcessor.initOutput
  cases hw : self.m_outputCSV with
  | none => simp [hne]
  | some w => simp [hw]

theorem addInputCSVFile_thrown (env : Env D) (self : FVProcessor) (heap : Heap cls)
    (path : String) :
    (FVProcessor.addInputCSVFile env self heap path).thrown = none ↔
      FVProcessor.initThrows env self = false ∧ ∃ file, env.openInput path = some file := by
  unfold FVProcessor.addInputCSVFile
  cases ht : FVProcessor.initThrows env self with
  | true => simp
  | false =>
    cases hf : env.openInput path with
    | none => simp
    | some file =>
      cases hw : (FVProcessor.initOutput env self).m_outputCSV <;> simp [hw]

theorem addInputCSVFile_self (env : Env D) (self : FVProcessor) (heap : Heap cls)
    (path : String) (file : CSVFile) (w : CSVFileWriter)
    (ht : FVProcessor.initThrows env self = false) (hf : env.openInput path = some file)
    (hw : (FVProcessor.initOutput env self).m_outputCSV = some w) :
    (FVProcessor.addInputCSVFile env self heap path).self =
      { FVProcessor.initOutput env self with
        m_outputCSV := some ((w.addRow
          (env.filename path ::
            (FVProcessor.collectResults self.m_outputs
              (FVProcessor.processRows env self.m_outputs
                (FVProcessor.columnIndices self.m_outputs file.headers) file.rows
                (FVProcessor.resetAll self.m_outputs heap))).1.map env.to_string)).flush) } := by
  unfold FVProcessor.addInputCSVFile
  simp only [ht, hf, hw, initOutput_outputs]
  rfl

theorem addInputCSVFile_self_none (env : Env D) (self : FVProcessor) (heap : Heap cls)
    (path : String)
    (hw : (FVProcessor.initOutput env self).m_outputCSV = none) :
    (FVProcessor.addInputCSVFile env self heap path).self = FVProcessor.initOutput env self := by
  unfold FVProcessor.addInputCSVFile
  cases ht : FVProcessor.initThrows env self with
  | true => simp
  | false =>
    cases hf : env.openInput path with
    | none => simp
    | some file => simp [hw]

theorem results_nodup (env : Env D) (outputs : List OutputType) (file : CSVFile)
    (heap : Heap cls) (path : String)
    (hnd : (outputs.map (fun o => o.m_pProcessor)).Nodup) :
    env.filename path ::
        (FVProcessor.collectResults outputs
          (FVProcessor.processRows env outputs
            (FVProcessor.columnIndices outputs file.headers) file.rows
            (FVProcessor.resetAll outputs heap))).1.map env.to_string =
      expectedRow env outputs heap path file := by
  unfold expectedRow formattedResult parsedCells
  rw [collectResults_nodup _ _ hnd, List.map_map]
  congr 1
  apply List.map_congr_left
  intro o ho
  simp only [Function.comp]
  rw [processRows_at env outputs file.headers file.rows _ hnd o ho,
    resetAll_at outputs heap hnd o ho]

theorem addInputCSVFile_rows (env : Env D) (self : FVProcessor) (heap : Heap cls)
    (path : String) (file : CSVFile)
    (hne : self.m_outputs ≠ [])
    (hnd : (self.m_outputs.map (fun o => o.m_pProcessor)).Nodup)
    (ht : FVProcessor.initThrows env self = false) (hf : env.openInput path = some file) :
    outputRows (FVProcessor.addInputCSVFile env self heap path).self =
      outputRows self ++ [expectedRow env self.m_outputs heap path file] := by
  obtain ⟨w, hw⟩ := initOutput_isSome env self hne
  rw [addInputCSVFile_self env self heap path file w ht hf hw, results_nodup env _ file heap path hnd,
    ← initOutput_rows env self]
  simp [outputRows, hw, CSVFileWriter.addRow, CSVFileWriter.flush]

end CallLemmas

section MoreLemmas

variable {D : Type} {cls : Nat → IProcessor D}

theorem foldl_update_agree {β : Type} (ptr : β → Nat)
    (g : (b : β) → (cls (ptr b)).State → (cls (ptr b)).State)
    (ps : List Nat) (l : List β) (hsub : ∀ b ∈ l, ptr b ∈ ps) (h1 h2 : Heap cls)
    (hag : ∀ a ∈ ps, h1 a = h2 a) :
    ∀ a ∈ ps,
      (l.foldl (fun h b => Function.update h (ptr b) (g b (h (ptr b)))) h1) a =
        (l.foldl (fun h b => Function.update h (ptr b) (g b (h (ptr b)))) h2) a := by
  induction l generalizing h1 h2 with
  | nil => exact hag
  | cons b t ih =>
    simp only [List.foldl_cons]
    apply ih (fun b hb => hsub b (List.mem_cons_of_mem _ hb))
    intro a ha
    by_cases he : a = ptr b
    · subst he
      rw [Function.update_same, Function.update_same, hag _ ha]
    · rw [Function.update_noteq he, Function.update_noteq he]
      exact hag a ha

theorem foldl_update_fixed {β : Type} (ptr : β → Nat)
    (g : (b : β) → (cls (ptr b)).State → (cls (ptr b)).State)
    (l : List β) (h : Heap cls) (a : Nat)
    (hfix : ∀ b ∈ l, ptr b = a → ∀ s, g b s = s) :
    (l.foldl (fun h b => Function.update h (ptr b) (g b (h (ptr b)))) h) a = h a := by
  induction l generalizing h with
  | nil => rfl
  | cons b t ih =>
    simp only [List.foldl_cons]
    rw [ih _ (fun b hb => hfix b (List.mem_cons_of_mem _ hb))]
    by_cases he : a = ptr b
    · subst he
      rw [Function.update_same, hfix b (by simp) rfl]
    · rw [Function.update_noteq he]

theorem resetAll_agree (outputs : List OutputType) (h1 h2 : Heap cls)
    (hreset : ∀ o ∈ outputs, ∀ s t, (cls o.m_pProcessor).reset s = (cls o.m_pProcessor).reset t)
    (a : Nat) (ha : a ∈ outputs.map (fun o => o.m_pProcessor) ∨ h1 a = h2 a) :
    (FVProcessor.resetAll outputs h1) a = (FVProcessor.resetAll outputs h2) a := by
  unfold FVProcessor.resetAll
  induction outputs generalizing h1 h2 with
  | nil =>
    rcases ha with ha | ha
    · simp at ha
    · exact ha
  | cons o t ih =>
    simp only [List.foldl_cons]
    apply ih _ _ (fun o ho => hreset o (List.mem_cons_of_mem _ ho))
    by_cases he : a = o.m_pProcessor
    · right
      subst he
      rw [Function.update_same, Function.update_same]
      exact hreset o (by simp) _ _
    · rw [Function.update_noteq he, Function.update_noteq he]
      rcases ha with ha | ha
      · left
        simp only [List.map_cons, List.mem_cons] at ha
        rcases ha with ha | ha
        · exact absurd ha he
        · exact ha
      · right
        exact ha

theorem processRows_agree (env : Env D) (outputs : List OutputType) (headers : List String)
    (rows : List (List String)) (h1 h2 : Heap cls)
    (hag : ∀ a ∈ outputs.map (fun o => o.m_pProcessor), h1 a = h2 a) :
    ∀ a ∈ outputs.map (fun o => o.m_pProcessor),
      (FVProcessor.processRows env outputs (FVProcessor.columnIndices outputs headers) rows h1) a =
        (FVProcessor.processRows env outputs (FVProcessor.columnIndices outputs headers) rows h2)
          a := by
  unfold FVProcessor.processRows
  induction rows generalizing h1 h2 with
  | nil => exact hag
  | cons row t ih =>
    simp only [List.foldl_cons]
    apply ih
    rw [processRow_eq, processRow_eq]
    exact foldl_update_agree (fun o : OutputType => o.m_pProcessor)
      (fun o s => (cls o.m_pProcessor).notifyOpt s
        (deliveredValue env row (findColumn headers o.m_inputColumnName)))
      _ outputs (fun b hb => List.mem_map_of_mem _ hb) h1 h2 hag

theorem mixedRow_heap_irrelevant (env : Env D) (outputs : List OutputType) (h1 h2 : Heap cls)
    (path : String) (file : CSVFile)
    (hreset : ∀ o ∈ outputs, ∀ s t,
      (cls o.m_pProcessor).reset s = (cls o.m_pProcessor).reset t) :
    FVProcessor.mixedRow env outputs h1 path file =
      FVProcessor.mixedRow env outputs h2 path file := by
  unfold FVProcessor.mixedRow
  congr 2
  apply collectResults_congr
  intro o ho
  apply processRows_agree env outputs file.headers file.rows _ _ _ _
    (List.mem_map_of_mem _ ho)
  intro a ha
  exact resetAll_agree outputs h1 h2 hreset a (Or.inl ha)

theorem initOutput_csv (env : Env D) (self : FVProcessor) :
    (FVProcessor.initOutput env self).m_outputCSV =
      if self.m_outputCSV.isNone ∧ self.m_outputs ≠ [] then
        some (CSVFileWriter.create self.m_outputCsvPath self.outputHeaders
          (env.createOutput self.m_outputCsvPath))
      else self.m_outputCSV := by
  unfold FVProcessor.initOutput
  split <;> rfl

/-- The rows a successful call appends: the mixed row when the table exists
after the first part of the call, nothing otherwise. -/
theorem addInputCSVFile_rows_general (env : Env D) (self : FVProcessor) (heap : Heap cls)
    (path : String) (file : CSVFile)
    (ht : FVProcessor.initThrows env self = false) (hf : env.openInput path = some file) :
    outputRows (FVProcessor.addInputCSVFile env self heap path).self =
      outputRows self ++
        (if self.m_outputCSV.isSome ∨ self.m_outputs ≠ [] then
          [FVProcessor.mixedRow env self.m_outputs heap path file]
         else []) := by
  cases hw : (FVProcessor.initOutput env self).m_outputCSV with
  | none =>
    rw [addInputCSVFile_self_none env self heap path hw, initOutput_rows]
    rw [initOutput_csv] at hw
    have hcond : ¬ (self.m_outputCSV.isSome ∨ self.m_outputs ≠ []) := by
      cases hs : self.m_outputCSV with
      | none =>
        by_cases hne : self.m_outputs = []
        · simp [hne]
        · simp [hs, hne] at hw
      | some w => simp [hs] at hw
    simp [hcond]
  | some w =>
    rw [addInputCSVFile_self env self heap path file w ht hf hw, ← initOutput_rows env self]
    have hcond : self.m_outputCSV.isSome ∨ self.m_outputs ≠ [] := by
      rw [initOutput_csv] at hw
      cases hs : self.m_outputCSV with
      | none =>
        by_cases hne : self.m_outputs = []
        · simp [hs, hne] at hw
        · exact Or.inr hne
      | some w => simp
    simp [hcond, outputRows, hw, CSVFileWriter.addRow, CSVFileWriter.flush, FVProcessor.mixedRow]

theorem addInputCSVFile_outputs (env : Env D) (self : FVProcessor) (heap : Heap cls)
    (path : String) :
    (FVProcessor.addInputCSVFile env self heap path).self.m_outputs = self.m_outputs := by
  unfold FVProcessor.addInputCSVFile
  cases ht : FVProcessor.initThrows env self with
  | true => simp [initOutput_outputs]
  | false =>
    cases hf : env.openInput path with
    | none => simp [initOutput_outputs]
    | some file =>
      cases hw : (FVProcessor.initOutput env self).m_outputCSV <;>
        simp [hw, initOutput_outputs]

theorem addInputCSVFile_csv_isSome (env : Env D) (self : FVProcessor) (heap : Heap cls)
    (path : String) :
    (FVProcessor.addInputCSVFile env self heap path).self.m_outputCSV.isSome =
      (FVProcessor.initOutput env self).m_outputCSV.isSome := by
  unfold FVProcessor.addInputCSVFile
  cases ht : FVProcessor.initThrows env self with
  | true => simp
  | false =>
    cases hf : env.openInput path with
    | none => simp
    | some file =>
      cases hw : (FVProcessor.initOutput env self).m_outputCSV <;> simp [hw]

end MoreLemmas

section ClaimLemmas

variable {D : Type} {cls : Nat → IProcessor D}

theorem findColumn_missing (headers : List String) (name : String) (h : name ∉ headers) :
    findColumn headers name = -1 := by
  unfold findColumn
  have : headers.indexOf name = headers.length := List.indexOf_eq_length.mpr h
  simp [this]

theorem deliveredValue_missing (env : Env D) (row : List String) :
    deliveredValue env row (-1) = none := by
  simp [deliveredValue, cellAt]

theorem widthInv_initOutput (env : Env D) (self : FVProcessor) (h : WidthInv self) :
    WidthInv (FVProcessor.initOutput env self) := by
  intro w hw
  rw [initOutput_csv] at hw
  rw [initOutput_outputs]
  split at hw
  · cases hw
    simp [CSVFileWriter.create, FVProcessor.outputHeaders]
  · exact h w hw

theorem mixedRow_length (env : Env D) (outputs : List OutputType) (heap : Heap cls)
    (path : String) (file : CSVFile) :
    (FVProcessor.mixedRow env outputs heap path file).length = outputs.length + 1 := by
  simp [FVProcessor.mixedRow, collectResults_length]

theorem widthInv_addInputCSVFile (env : Env D) (self : FVProcessor) (heap : Heap cls)
    (path : String) (h : WidthInv self) :
    WidthInv (FVProcessor.addInputCSVFile env self heap path).self := by
  have h1 := widthInv_initOutput env self h
  cases ht : FVProcessor.initThrows env self with
  | true =>
    have : (FVProcessor.addInputCSVFile env self heap path).self =
        FVProcessor.initOutput env self := by
      unfold FVProcessor.addInputCSVFile
      simp [ht]
    rw [this]
    exact h1
  | false =>
    cases hf : env.openInput path with
    | none =>
      have : (FVProcessor.addInputCSVFile env self heap path).self =
          FVProcessor.initOutput env self := by
        unfold FVProcessor.addInputCSVFile
        simp [ht, hf]
      rw [this]
      exact h1
    | some file =>
      cases hw : (FVProcessor.initOutput env self).m_outputCSV with
      | none =>
        rw [addInputCSVFile_self_none env self heap path hw]
        exact h1
      | some w =>
        rw [addInputCSVFile_self env self heap path file w ht hf hw]
        intro w2 hw2
        simp only [Option.some.injEq] at hw2
        subst hw2
        obtain ⟨a, b⟩ := h1 w hw
        rw [initOutput_outputs] at a ⊢
        refine ⟨by simpa [CSVFileWriter.addRow, CSVFileWriter.flush] using a, ?_⟩
        intro row hrow
        simp only [CSVFileWriter.addRow, CSVFileWriter.flush, List.mem_append,
          List.mem_singleton] at hrow ⊢
        rcases hrow with hrow | hrow
        · exact b row hrow
        · rw [hrow, a]
          simpa [FVProcessor.mixedRow] using
            mixedRow_length env self.m_outputs heap path file

theorem widthInv_run (w : World cls) (cmds : List (Cmd D)) (h : WidthInv w.self)
    (hlegal : noLateAddOutput w cmds = true) : WidthInv (w.run cmds).self := by
  induction cmds generalizing w with
  | nil => exact h
  | cons c t ih =>
    cases c with
    | addOutput cn n p =>
      simp only [noLateAddOutput, Bool.and_eq_true] at hlegal
      apply ih _ _ hlegal.2
      intro w2 hw2
      have hnone : w.self.m_outputCSV = none := by
        simpa using hlegal.1
      simp [World.step, FVProcessor.addOutput, hnone] at hw2
    | addInputCSVFile env path =>
      simp only [noLateAddOutput] at hlegal
      apply ih _ _ hlegal
      exact widthInv_addInputCSVFile env w.self w.heap path h

theorem rowsMatchHeader_of_widthInv (self : FVProcessor) (h : WidthInv self) :
    rowsMatchHeader self = true := by
  unfold rowsMatchHeader
  cases hw : self.m_outputCSV with
  | none => rfl
  | some w =>
    simp only [List.all_eq_true, beq_iff_eq]
    exact (h w hw).2

end ClaimLemmas

/-! ## The claims on the engine -/

/-- C1 (as amended): for every input file, every environment and every
non-empty list of bindings whose processors are distinct objects, a successful
`addInputCSVFile` appends the row made of the base name of the path and, for
each binding in registration order, the formatted `getResult()` of its
processor after `reset()` followed by `notifyValue` on exactly the successfully
parsed cells of its column, in row order. -/
theorem addInputCSVFile_appends_expected_row {D : Type} {cls : Nat → IProcessor D}
    (env : Env D) (self : FVProcessor) (heap : Heap cls) (inputCsvPath : String)
    (hne : self.m_outputs ≠ [])
    (hnd : (self.m_outputs.map (fun o => o.m_pProcessor)).Nodup)
    (hok : (FVProcessor.addInputCSVFile env self heap inputCsvPath).thrown = none) :
    ∃ file, env.openInput inputCsvPath = some file ∧
      outputRows (FVProcessor.addInputCSVFile env self heap inputCsvPath).self =
        outputRows self ++ [expectedRow env self.m_outputs heap inputCsvPath file] := by
  obtain ⟨ht, file, hf⟩ := (addInputCSVFile_thrown env self heap inputCsvPath).mp hok
  exact ⟨file, hf, addInputCSVFile_rows env self heap inputCsvPath file hne hnd ht hf⟩

/-- C1, witness: two bindings on two processor objects, on the file `a.csv`. -/
theorem addInputCSVFile_appends_expected_row_witness :
    twoBindings.m_outputs ≠ [] ∧
      (twoBindings.m_outputs.map (fun o => o.m_pProcessor)).Nodup ∧
      (FVProcessor.addInputCSVFile exampleEnv twoBindings meanHeap "a.csv").thrown = none ∧
      ∃ file, exampleEnv.openInput "a.csv" = some file ∧
        outputRows (FVProcessor.addInputCSVFile exampleEnv twoBindings meanHeap "a.csv").self =
          outputRows twoBindings ++
            [expectedRow exampleEnv twoBindings.m_outputs meanHeap "a.csv" file] :=
  ⟨by decide, by decide, by decide!,
    addInputCSVFile_appends_expected_row exampleEnv twoBindings meanHeap "a.csv"
      (by decide) (by decide) (by decide!)⟩

/-- C1, counterexample: with no binding the call on `a.csv` succeeds and
appends nothing, where the claim has the row `a.csv`; with two bindings, on `X`
and on `Y`, that share one `AverageProcessor`, the call appends
`a.csv,11.000000,11.000000`, the mean of all four cells, where the claim has
`a.csv,2.000000,20.000000`. -/
theorem addInputCSVFile_expected_row_counterexample :
    ((FVProcessor.addInputCSVFile exampleEnv noBinding meanHeap "a.csv").thrown = none ∧
        exampleEnv.openInput "a.csv" = some exampleFile ∧
        outputRows (FVProcessor.addInputCSVFile exampleEnv noBinding meanHeap "a.csv").self = [] ∧
        outputRows noBinding ++
            [expectedRow exampleEnv noBinding.m_outputs meanHeap "a.csv" exampleFile] =
          [["a.csv"]]) ∧
      ((FVProcessor.addInputCSVFile exampleEnv sharedBindings meanHeap "a.csv").thrown = none ∧
        outputRows
            (FVProcessor.addInputCSVFile exampleEnv sharedBindings meanHeap "a.csv").self =
          [["a.csv", "11.000000", "11.000000"]] ∧
        outputRows sharedBindings ++
            [expectedRow exampleEnv sharedBindings.m_outputs meanHeap "a.csv" exampleFile] =
          [["a.csv", "2.000000", "20.000000"]]) := by
  decide!

/-- C6 (as amended): for the input file `a.csv` with header `X,Y` and rows
(1,10), (3,30), and the single binding of `X` to `AvgX` on an
`AverageProcessor` in any state, the header written is `InputFileName,AvgX` and
the output row is `a.csv,2.000000`: its cells are exactly "a.csv" and
"2.000000", the text `std::to_string` gives for 2. -/
theorem end_to_end_row (outputCsvPath : String) (heap : Heap meanCls) (p : Nat) :
    outputRows
        ((World.run { self := FVProcessor.create outputCsvPath, heap := heap }
          [Cmd.addOutput "X" "AvgX" p, Cmd.addInputCSVFile exampleEnv "a.csv"]).self) =
        [["a.csv", "2.000000"]] ∧
      outputHeader
        ((World.run { self := FVProcessor.create outputCsvPath, heap := heap }
          [Cmd.addOutput "X" "AvgX" p, Cmd.addInputCSVFile exampleEnv "a.csv"]).self) =
        some ["InputFileName", "AvgX"] := by
  have hf : exampleEnv.openInput "a.csv" = some exampleFile := by decide!
  have hrow : expectedRow exampleEnv
      [{ m_inputColumnName := "X", m_outputTypeName := "AvgX", m_pProcessor := p }]
      heap "a.csv" exampleFile = ["a.csv", "2.000000"] := by
    have hcells : parsedCells exampleEnv exampleFile "X" = [1, 3] := by decide!
    have hname : exampleEnv.filename "a.csv" = "a.csv" := by decide!
    have hres : exampleEnv.to_string
        ((meanCls p).getResult
          ((meanCls p).feed ((meanCls p).reset (heap p)) [1, 3])).1 = "2.000000" := by
      have hreset : (meanCls p).reset (heap p) = AverageProcessor.init := rfl
      rw [hreset]
      show stdToString
        ((AverageProcessor.feed AverageProcessor.init [1, 3]).getResult) = "2.000000"
      decide!
    unfold expectedRow
    rw [hname, List.map_cons, List.map_nil, hcells, formattedResult_eq, hres]
  constructor
  · simp only [World.run, World.step, List.foldl_cons, List.foldl_nil]
    rw [addInputCSVFile_rows exampleEnv
      ((FVProcessor.create outputCsvPath).addOutput "X" "AvgX" p) heap "a.csv" exampleFile
      (by simp [FVProcessor.addOutput, FVProcessor.create])
      (by simp [FVProcessor.addOutput, FVProcessor.create])
      (by simp [FVProcessor.initThrows, exampleEnv, stdEnv]) hf]
    simp only [FVProcessor.addOutput, FVProcessor.create, List.nil_append, outputRows]
    rw [hrow]
  · simp only [World.run, World.step, List.foldl_cons, List.foldl_nil]
    have hw : (FVProcessor.initOutput exampleEnv
        ((FVProcessor.create outputCsvPath).addOutput "X" "AvgX" p)).m_outputCSV =
        some (CSVFileWriter.create outputCsvPath ["InputFileName", "AvgX"] true) := by
      simp [FVProcessor.initOutput, FVProcessor.addOutput, FVProcessor.create,
        FVProcessor.outputHeaders, exampleEnv, stdEnv]
    rw [addInputCSVFile_self exampleEnv
      ((FVProcessor.create outputCsvPath).addOutput "X" "AvgX" p) heap "a.csv" exampleFile _
      (by simp [FVProcessor.initThrows, exampleEnv, stdEnv]) hf hw]
    simp [outputHeader, CSVFileWriter.addRow, CSVFileWriter.flush, CSVFileWriter.create]

/-- C6, counterexample: the row written for the end-to-end example is
`a.csv,2.000000`, not `a.csv,2`. -/
theorem end_to_end_row_counterexample :
    outputRows
        ((World.run { self := FVProcessor.create "out.csv", heap := meanHeap }
          [Cmd.addOutput "X" "AvgX" 0, Cmd.addInputCSVFile exampleEnv "a.csv"]).self) =
        [["a.csv", "2.000000"]] ∧
      outputRows
        ((World.run { self := FVProcessor.create "out.csv", heap := meanHeap }
          [Cmd.addOutput "X" "AvgX" 0, Cmd.addInputCSVFile exampleEnv "a.csv"]).self) ≠
        [["a.csv", "2"]] := by
  decide!

/-- C7 (as amended): over every sequence of `addOutput` and `addInputCSVFile`
calls on a new engine in which no `addOutput` is called once the output table
exists, every output row is as wide as the header, and the header has one name
per binding: every row has as many result cells as there were bindings when
the table was created. -/
theorem rows_match_header_without_late_addOutput {D : Type} {cls : Nat → IProcessor D}
    (outputCsvPath : String) (heap : Heap cls) (cmds : List (Cmd D))
    (hlegal :
      noLateAddOutput { self := FVProcessor.create outputCsvPath, heap := heap } cmds = true) :
    rowsMatchHeader
        ((World.run { self := FVProcessor.create outputCsvPath, heap := heap } cmds).self) =
        true ∧
      ∀ w,
        (World.run { self := FVProcessor.create outputCsvPath, heap := heap }
            cmds).self.m_outputCSV = some w →
          w.m_headers.length =
              (World.run { self := FVProcessor.create outputCsvPath, heap := heap }
                cmds).self.m_outputs.length + 1 ∧
            ∀ row ∈ w.m_rows, row.length = w.m_headers.length := by
  have h0 : WidthInv (FVProcessor.create outputCsvPath) := by
    intro w hw
    simp [FVProcessor.create] at hw
  have h := widthInv_run { self := FVProcessor.create outputCsvPath, heap := heap } cmds h0 hlegal
  exact ⟨rowsMatchHeader_of_widthInv _ h, h⟩

/-- C7, witness: a binding, then the file `a.csv` twice. -/
theorem rows_match_header_without_late_addOutput_witness :
    noLateAddOutput { self := FVProcessor.create "out.csv", heap := meanHeap }
        [Cmd.addOutput "X" "AvgX" 0, Cmd.addInputCSVFile exampleEnv "a.csv",
          Cmd.addInputCSVFile exampleEnv "a.csv"] = true ∧
      rowsMatchHeader
        ((World.run { self := FVProcessor.create "out.csv", heap := meanHeap }
          [Cmd.addOutput "X" "AvgX" 0, Cmd.addInputCSVFile exampleEnv "a.csv",
            Cmd.addInputCSVFile exampleEnv "a.csv"]).self) = true :=
  ⟨by decide!,
    (rows_match_header_without_late_addOutput "out.csv" meanHeap
      [Cmd.addOutput "X" "AvgX" 0, Cmd.addInputCSVFile exampleEnv "a.csv",
        Cmd.addInputCSVFile exampleEnv "a.csv"] (by decide!)).1⟩

/-- C7, counterexample: `addOutput`, a file, a second `addOutput`, the file
again: the header stays `InputFileName,AvgX`, built for one binding, and the
second row has two result cells. -/
theorem rows_match_header_counterexample :
    rowsMatchHeader
        ((World.run { self := FVProcessor.create "out.csv", heap := meanHeap }
          [Cmd.addOutput "X" "AvgX" 0, Cmd.addInputCSVFile exampleEnv "a.csv",
            Cmd.addOutput "Y" "AvgY" 1, Cmd.addInputCSVFile exampleEnv "a.csv"]).self) =
        false ∧
      outputHeader
        ((World.run { self := FVProcessor.create "out.csv", heap := meanHeap }
          [Cmd.addOutput "X" "AvgX" 0, Cmd.addInputCSVFile exampleEnv "a.csv",
            Cmd.addOutput "Y" "AvgY" 1, Cmd.addInputCSVFile exampleEnv "a.csv"]).self) =
        some ["InputFileName", "AvgX"] ∧
      outputRows
        ((World.run { self := FVProcessor.create "out.csv", heap := meanHeap }
          [Cmd.addOutput "X" "AvgX" 0, Cmd.addInputCSVFile exampleEnv "a.csv",
            Cmd.addOutput "Y" "AvgY" 1, Cmd.addInputCSVFile exampleEnv "a.csv"]).self) =
        [["a.csv", "2.000000"], ["a.csv", "2.000000", "20.000000"]] := by
  decide!

/-- C8: for any files A and B and any bindings on processors whose `reset()`
leaves a state that does not depend on the state before, when A and then B are
processed, B processed alone succeeds too and appends the same row as B
processed after A; in particular the same file processed in two separate calls
gives two identical rows.  No hypothesis is made on whether a column is found:
the reset loop runs over every binding. -/
theorem results_are_file_scoped {D : Type} {cls : Nat → IProcessor D}
    (env : Env D) (self : FVProcessor) (heap : Heap cls) (pathA pathB : String)
    (hreset : ∀ o ∈ self.m_outputs, ∀ s t,
      (cls o.m_pProcessor).reset s = (cls o.m_pProcessor).reset t)
    (hA : (FVProcessor.addInputCSVFile env self heap pathA).thrown = none)
    (hAB : (FVProcessor.addInputCSVFile env
      (FVProcessor.addInputCSVFile env self heap pathA).self
      (FVProcessor.addInputCSVFile env self heap pathA).heap pathB).thrown = none) :
    (FVProcessor.addInputCSVFile env self heap pathB).thrown = none ∧
      ∃ rs : List (List String),
        outputRows (FVProcessor.addInputCSVFile env self heap pathB).self =
            outputRows self ++ rs ∧
          outputRows (FVProcessor.addInputCSVFile env
              (FVProcessor.addInputCSVFile env self heap pathA).self
              (FVProcessor.addInputCSVFile env self heap pathA).heap pathB).self =
            outputRows (FVProcessor.addInputCSVFile env self heap pathA).self ++ rs ∧
          (pathA = pathB →
            outputRows (FVProcessor.addInputCSVFile env
                (FVProcessor.addInputCSVFile env self heap pathA).self
                (FVProcessor.addInputCSVFile env self heap pathA).heap pathB).self =
              outputRows self ++ rs ++ rs) := by
  obtain ⟨htA, fileA, hfA⟩ := (addInputCSVFile_thrown env self heap pathA).mp hA
  obtain ⟨htAB, fileB, hfB⟩ := (addInputCSVFile_thrown env _ _ pathB).mp hAB
  have hB : (FVProcessor.addInputCSVFile env self heap pathB).thrown = none :=
    (addInputCSVFile_thrown env self heap pathB).mpr ⟨htA, fileB, hfB⟩
  have hrowsB := addInputCSVFile_rows_general env self heap pathB fileB htA hfB
  have hrowsAB := addInputCSVFile_rows_general env
    (FVProcessor.addInputCSVFile env self heap pathA).self
    (FVProcessor.addInputCSVFile env self heap pathA).heap pathB fileB htAB hfB
  have hsome : (FVProcessor.addInputCSVFile env self heap pathA).self.m_outputCSV.isSome =
      decide (self.m_outputCSV.isSome ∨ self.m_outputs ≠ []) := by
    rw [addInputCSVFile_csv_isSome, initOutput_csv]
    cases hs : self.m_outputCSV with
    | none =>
      by_cases hne : self.m_outputs = []
      · simp [hne]
      · simp [hne]
    | some w => simp
  have hcond : ((FVProcessor.addInputCSVFile env self heap pathA).self.m_outputCSV.isSome ∨
      self.m_outputs ≠ []) ↔ (self.m_outputCSV.isSome ∨ self.m_outputs ≠ []) := by
    rw [hsome]
    simp only [decide_eq_true_eq]
    tauto
  rw [addInputCSVFile_outputs] at hrowsAB
  rw [mixedRow_heap_irrelevant env self.m_outputs
    (FVProcessor.addInputCSVFile env self heap pathA).heap heap pathB fileB hreset] at hrowsAB
  simp only [hcond] at hrowsAB
  refine ⟨hB, _, hrowsB, hrowsAB, ?_⟩
  intro hsame
  subst hsame
  rw [hrowsAB, hrowsB]

/-- C8, witness: two bindings on `AverageProcessor` objects, the file `a.csv`
and then the file `data/b.csv`. -/
theorem results_are_file_scoped_witness :
    (FVProcessor.addInputCSVFile exampleEnv twoBindings meanHeap "data/b.csv").thrown = none ∧
      ∃ rs : List (List String),
        outputRows (FVProcessor.addInputCSVFile exampleEnv twoBindings meanHeap
            "data/b.csv").self = outputRows twoBindings ++ rs ∧
          outputRows (FVProcessor.addInputCSVFile exampleEnv
              (FVProcessor.addInputCSVFile exampleEnv twoBindings meanHeap "a.csv").self
              (FVProcessor.addInputCSVFile exampleEnv twoBindings meanHeap "a.csv").heap
              "data/b.csv").self =
            outputRows
              (FVProcessor.addInputCSVFile exampleEnv twoBindings meanHeap "a.csv").self ++ rs ∧
          ("a.csv" = "data/b.csv" →
            outputRows (FVProcessor.addInputCSVFile exampleEnv
                (FVProcessor.addInputCSVFile exampleEnv twoBindings meanHeap "a.csv").self
                (FVProcessor.addInputCSVFile exampleEnv twoBindings meanHeap "a.csv").heap
                "data/b.csv").self =
              outputRows twoBindings ++ rs ++ rs) :=
  results_are_file_scoped exampleEnv twoBindings meanHeap "a.csv" "data/b.csv"
    (fun _ _ _ _ => rfl) (by decide!) (by decide!)

section MissingLemmas

variable {D : Type} {cls : Nat → IProcessor D}

theorem processRows_fixed (env : Env D) (outputs : List OutputType)
    (headers : List String) (rows : List (List String)) (heap : Heap cls) (p : Nat)
    (hmiss : ∀ b ∈ outputs, b.m_pProcessor = p → b.m_inputColumnName ∉ headers) :
    (FVProcessor.processRows env outputs
        (FVProcessor.columnIndices outputs headers) rows heap) p = heap p := by
  unfold FVProcessor.processRows
  induction rows generalizing heap with
  | nil => rfl
  | cons row t ih =>
    simp only [List.foldl_cons]
    rw [ih, processRow_eq]
    apply foldl_update_fixed (fun o : OutputType => o.m_pProcessor)
      (fun b s => (cls b.m_pProcessor).notifyOpt s
        (deliveredValue env row (findColumn headers b.m_inputColumnName)))
    intro b hb hptr s
    simp only [findColumn_missing headers b.m_inputColumnName (hmiss b hb hptr),
      deliveredValue_missing, IProcessor.notifyOpt]

theorem foldl_update_inv {β : Type} (ptr : β → Nat)
    (g : (b : β) → (cls (ptr b)).State → (cls (ptr b)).State)
    (E : (a : Nat) → (cls a).State → Prop) (l : List β) (h : Heap cls) (p : Nat)
    (hstep : ∀ b ∈ l, ptr b = p → ∀ s, E (ptr b) (g b s))
    (hp : p ∈ l.map ptr ∨ E p (h p)) :
    E p ((l.foldl (fun h b => Function.update h (ptr b) (g b (h (ptr b)))) h) p) := by
  induction l generalizing h with
  | nil =>
    rcases hp with hp | hp
    · simp at hp
    · exact hp
  | cons b t ih =>
    simp only [List.foldl_cons]
    apply ih _ (fun c hc => hstep c (List.mem_cons_of_mem _ hc))
    by_cases he : p = ptr b
    · right
      subst he
      rw [Function.update_same]
      exact hstep b (by simp) rfl _
    · rw [Function.update_noteq he]
      rcases hp with hp | hp
      · left
        simp only [List.map_cons, List.mem_cons] at hp
        rcases hp with hp | hp
        · exact absurd hp he
        · exact hp
      · right
        exact hp

theorem collectResults_empty (E : (a : Nat) → (cls a).State → Prop)
    (pre post : List OutputType) (o : OutputType) (heap : Heap cls) (d : D) (p : Nat)
    (hop : o.m_pProcessor = p)
    (hget : ∀ s, E p s → ((cls p).getResult s).1 = d ∧ E p ((cls p).getResult s).2)
    (hE : E p (heap p)) :
    (FVProcessor.collectResults (pre ++ o :: post) heap).1[pre.length]? = some d := by
  induction pre generalizing heap with
  | nil =>
    subst hop
    simp [FVProcessor.collectResults, (hget _ hE).1]
  | cons q t ih =>
    simp only [List.cons_append, FVProcessor.collectResults, List.length_cons,
      List.getElem?_cons_succ]
    apply ih
    by_cases he : p = q.m_pProcessor
    · subst he
      rw [Function.update_same]
      exact (hget _ hE).2
    · rw [Function.update_noteq he]
      exact hE

theorem processRow_skip (env : Env D) (pre post : List OutputType) (o : OutputType)
    (headers : List String) (row : List String) (heap : Heap cls)
    (hskip : deliveredValue env row (findColumn headers o.m_inputColumnName) = none) :
    FVProcessor.processRow env (pre ++ o :: post)
        (FVProcessor.columnIndices (pre ++ o :: post) headers) heap row =
      FVProcessor.processRow env (pre ++ post)
        (FVProcessor.columnIndices (pre ++ post) headers) heap row := by
  rw [processRow_eq, processRow_eq, List.foldl_append, List.foldl_append, List.foldl_cons]
  simp only [hskip, IProcessor.notifyOpt, Function.update_eq_self]

end MissingLemmas

/-- C9 (as amended): for every file that was opened and whose header does not
contain the `inputColumnName` of a binding, nor that of any other binding on
the same processor object, the call does not fail; the binding has no parsed
cell and the row loop leaves its processor as the reset loop left it, so that
no `notifyValue` reached it; and the binding's cell of the appended row is the
formatted empty-state default `d` of the processor, whatever state earlier
files left.  `E` marks the empty states of the processor: `reset()` leads into
them, and `getResult()` on one of them returns `d` and stays in them. -/
theorem missing_column_gives_default {D : Type} {cls : Nat → IProcessor D}
    (env : Env D) (self : FVProcessor) (heap : Heap cls) (inputCsvPath : String)
    (file : CSVFile) (pre post : List OutputType) (o : OutputType) (d : D)
    (E : (a : Nat) → (cls a).State → Prop)
    (hsplit : self.m_outputs = pre ++ o :: post)
    (hf : env.openInput inputCsvPath = some file)
    (hout : FVProcessor.initThrows env self = false)
    (hmiss : o.m_inputColumnName ∉ file.headers)
    (hshare : ∀ b ∈ pre ++ post,
      b.m_pProcessor = o.m_pProcessor → b.m_inputColumnName ∉ file.headers)
    (hreset : ∀ s, E o.m_pProcessor ((cls o.m_pProcessor).reset s))
    (hget : ∀ s, E o.m_pProcessor s →
      ((cls o.m_pProcessor).getResult s).1 = d ∧
        E o.m_pProcessor ((cls o.m_pProcessor).getResult s).2) :
    (FVProcessor.addInputCSVFile env self heap inputCsvPath).thrown = none ∧
      parsedCells env file o.m_inputColumnName = [] ∧
      (FVProcessor.processRows env self.m_outputs
          (FVProcessor.columnIndices self.m_outputs file.headers) file.rows
          (FVProcessor.resetAll self.m_outputs heap)) o.m_pProcessor =
        (FVProcessor.resetAll self.m_outputs heap) o.m_pProcessor ∧
      ∃ row,
        (outputRows (FVProcessor.addInputCSVFile env self heap inputCsvPath).self).getLast? =
            some row ∧
          row[pre.length + 1]? = some (env.to_string d) := by
  have hall : ∀ b ∈ self.m_outputs,
      b.m_pProcessor = o.m_pProcessor → b.m_inputColumnName ∉ file.headers := by
    intro b hb hptr
    rw [hsplit] at hb
    simp only [List.mem_append, List.mem_cons] at hb
    rcases hb with hb | hb | hb
    · exact hshare b (by simp [hb]) hptr
    · rw [hb]
      exact hmiss
    · exact hshare b (by simp [hb]) hptr
  have hstate := processRows_fixed env self.m_outputs file.headers file.rows
    (FVProcessor.resetAll self.m_outputs heap) o.m_pProcessor hall
  have hmem : o.m_pProcessor ∈ self.m_outputs.map (fun o => o.m_pProcessor) := by
    rw [hsplit]
    simp
  have hreset2 : ∀ q, q = o.m_pProcessor →
      ∀ s : (cls q).State, E q ((cls q).reset s) := by
    intro q hq
    subst hq
    exact hreset
  have hE : E o.m_pProcessor ((FVProcessor.resetAll self.m_outputs heap) o.m_pProcessor) :=
    foldl_update_inv (fun o : OutputType => o.m_pProcessor)
      (fun b s => (cls b.m_pProcessor).reset s) E self.m_outputs heap o.m_pProcessor
      (fun b _ hb s => hreset2 b.m_pProcessor hb s)
      (Or.inl hmem)
  refine ⟨(addInputCSVFile_thrown env self heap inputCsvPath).mpr ⟨hout, file, hf⟩, ?_,
    hstate, ?_⟩
  · unfold parsedCells
    rw [findColumn_missing file.headers o.m_inputColumnName hmiss]
    simp [deliveredValue_missing]
  · have hrows := addInputCSVFile_rows_general env self heap inputCsvPath file hout hf
    have hne : self.m_outputs ≠ [] := by simp [hsplit]
    simp only [hne, ne_eq, not_false_eq_true, or_true, if_true] at hrows
    refine ⟨FVProcessor.mixedRow env self.m_outputs heap inputCsvPath file, ?_, ?_⟩
    · rw [hrows]
      simp
    · unfold FVProcessor.mixedRow
      rw [List.getElem?_cons_succ, List.getElem?_map]
      have hcr := collectResults_empty E pre post o
        (FVProcessor.processRows env self.m_outputs
          (FVProcessor.columnIndices self.m_outputs file.headers) file.rows
          (FVProcessor.resetAll self.m_outputs heap)) d o.m_pProcessor rfl hget
        (by rw [hstate]; exact hE)
      rw [← hsplit] at hcr
      rw [hcr]
      rfl

/-- C9, witness: the binding on the missing column `Z`, on a processor of its
own, next to the binding on `X`; the empty state of an `AverageProcessor` is
the newly constructed one, its default is `0`. -/
theorem missing_column_gives_default_witness :
    (FVProcessor.addInputCSVFile exampleEnv missingBinding meanHeap "a.csv").thrown = none ∧
      parsedCells exampleEnv exampleFile "Z" = [] ∧
      (FVProcessor.processRows exampleEnv missingBinding.m_outputs
          (FVProcessor.columnIndices missingBinding.m_outputs exampleFile.headers)
          exampleFile.rows
          (FVProcessor.resetAll missingBinding.m_outputs meanHeap)) 1 =
        (FVProcessor.resetAll missingBinding.m_outputs meanHeap) 1 ∧
      ∃ row,
        (outputRows
            (FVProcessor.addInputCSVFile exampleEnv missingBinding meanHeap "a.csv").self).getLast? =
            some row ∧
          row[2]? = some (exampleEnv.to_string 0) :=
  missing_column_gives_default exampleEnv missingBinding meanHeap "a.csv" exampleFile
    [{ m_inputColumnName := "X", m_outputTypeName := "AvgX", m_pProcessor := 0 }] []
    { m_inputColumnName := "Z", m_outputTypeName := "AvgZ", m_pProcessor := 1 } 0
    (fun _ s => s = AverageProcessor.init)
    (by decide) (by decide!) (by decide!) (by decide) (by decide) (fun _ => rfl)
    (fun s hs => by
      subst hs
      exact ⟨rfl, rfl⟩)

/-- C9, counterexample: the header of `a.csv` has no column `Z`, the binding on
`Z` shares its `AverageProcessor` with the binding on `X`; the processor
receives the two cells of `X` (its count is 2 after the row loop) and the cell written for `Z` is `2.000000`, not the
empty-state default `0.000000`. -/
theorem missing_column_counterexample :
    "Z" ∉ exampleFile.headers ∧
      (FVProcessor.addInputCSVFile exampleEnv missingSharedBinding meanHeap "a.csv").thrown =
        none ∧
      outputRows
          (FVProcessor.addInputCSVFile exampleEnv missingSharedBinding meanHeap "a.csv").self =
        [["a.csv", "2.000000", "2.000000"]] ∧
      exampleEnv.to_string
          (averageProcessor.getResult (averageProcessor.reset (meanHeap 0))).1 =
        "0.000000" ∧
      AverageProcessor.m_count
          ((FVProcessor.processRows exampleEnv missingSharedBinding.m_outputs
            (FVProcessor.columnIndices missingSharedBinding.m_outputs exampleFile.headers)
            exampleFile.rows
            (FVProcessor.resetAll missingSharedBinding.m_outputs meanHeap)) 0) =
        2 := by
  decide!

section NotifyLemmas

variable {D : Type} {cls : Nat → IProcessor D}

theorem processRow_notifications (env : Env D) (outputs : List OutputType)
    (headers : List String) (heap : Heap cls) (row : List String) :
    FVProcessor.processRow env outputs (FVProcessor.columnIndices outputs headers) heap row =
      (rowNotifications env outputs headers row).foldl notifyAt heap := by
  rw [processRow_eq]
  unfold rowNotifications
  induction outputs generalizing heap with
  | nil => rfl
  | cons o t ih =>
    rw [List.foldl_cons, ih]
    cases hv : deliveredValue env row (findColumn headers o.m_inputColumnName) with
    | none =>
      simp only [List.filterMap_cons, hv, Option.map_none', IProcessor.notifyOpt,
        Function.update_eq_self]
    | some v =>
      simp only [List.filterMap_cons, hv, Option.map_some', IProcessor.notifyOpt,
        List.foldl_cons, notifyAt]

theorem processRows_notifications (env : Env D) (outputs : List OutputType)
    (headers : List String) (rows : List (List String)) (heap : Heap cls) :
    FVProcessor.processRows env outputs (FVProcessor.columnIndices outputs headers) rows heap =
      (rows.flatMap (rowNotifications env outputs headers)).foldl notifyAt heap := by
  unfold FVProcessor.processRows
  induction rows generalizing heap with
  | nil => rfl
  | cons r t ih =>
    rw [List.foldl_cons, ih, processRow_notifications, List.flatMap_cons, List.foldl_append]

theorem rowNotifications_skip (env : Env D) (pre post : List OutputType) (o : OutputType)
    (headers : List String) (row : List String)
    (hskip : deliveredValue env row (findColumn headers o.m_inputColumnName) = none) :
    rowNotifications env (pre ++ o :: post) headers row =
      rowNotifications env pre headers row ++ rowNotifications env post headers row := by
  unfold rowNotifications
  rw [List.filterMap_append, List.filterMap_cons, hskip]
  rfl

theorem rowNotifications_mem (env : Env D) (outputs : List OutputType)
    (headers : List String) (row : List String) (o : OutputType) (v : D)
    (ho : o ∈ outputs)
    (hv : deliveredValue env row (findColumn headers o.m_inputColumnName) = some v) :
    (o.m_pProcessor, v) ∈ rowNotifications env outputs headers row := by
  unfold rowNotifications
  rw [List.mem_filterMap]
  exact ⟨o, ho, by rw [hv]; rfl⟩

theorem addInputCSVFile_heap_of_notifications (env : Env D) (self : FVProcessor)
    (heap : Heap cls) (path : String) (file : CSVFile)
    (ht : FVProcessor.initThrows env self = false) (hf : env.openInput path = some file)
    (hne : self.m_outputs ≠ []) :
    (FVProcessor.addInputCSVFile env self heap path).heap =
      (FVProcessor.collectResults self.m_outputs
        ((fileNotifications env self.m_outputs file).foldl notifyAt
          (FVProcessor.resetAll self.m_outputs heap))).2 := by
  obtain ⟨w, hw⟩ := initOutput_isSome env self hne
  unfold fileNotifications
  rw [← processRows_notifications]
  unfold FVProcessor.addInputCSVFile
  simp only [ht, hf, hw, initOutput_outputs]
  rfl

theorem addInputCSVFile_row_of_notifications (env : Env D) (self : FVProcessor)
    (heap : Heap cls) (path : String) (file : CSVFile)
    (ht : FVProcessor.initThrows env self = false) (hf : env.openInput path = some file)
    (hne : self.m_outputs ≠ []) :
    outputRows (FVProcessor.addInputCSVFile env self heap path).self =
      outputRows self ++
        [env.filename path ::
          (FVProcessor.collectResults self.m_outputs
            ((fileNotifications env self.m_outputs file).foldl notifyAt
              (FVProcessor.resetAll self.m_outputs heap))).1.map env.to_string] := by
  rw [addInputCSVFile_rows_general env self heap path file ht hf,
    if_pos (Or.inr hne)]
  unfold FVProcessor.mixedRow fileNotifications
  rw [processRows_notifications]

end NotifyLemmas

/-- C10 (as amended): when `std::stod` throws on a cell of a row, inside the
guard of the row loop, the call does not fail once the file is open and the
output table is there; the cell delivers no value: the cell step leaves the
heap as it was and the binding is absent from the `notifyValue` calls of the
row, while every other binding whose cell is accepted is among them with its
own value; the row loop makes, on the rows before, on this row and on all the
later rows, exactly the `notifyValue` calls of the accepted cells, in order;
and the row appended holds the results of the processors after these calls. -/
theorem malformed_cell_is_skipped {D : Type} {cls : Nat → IProcessor D}
    (env : Env D) (self : FVProcessor) (heap : Heap cls) (inputCsvPath : String)
    (file : CSVFile) (pre post : List OutputType) (o : OutputType)
    (before after : List (List String)) (row : List String) (cell : String)
    (hsplit : self.m_outputs = pre ++ o :: post)
    (hf : env.openInput inputCsvPath = some file)
    (hrows : file.rows = before ++ row :: after)
    (hcell : cellAt row (findColumn file.headers o.m_inputColumnName) = some cell)
    (hbad : env.stod cell = none)
    (hout : FVProcessor.initThrows env self = false) :
    (FVProcessor.addInputCSVFile env self heap inputCsvPath).thrown = none ∧
      (∀ h : Heap cls,
        FVProcessor.processCell env row h
          (o, findColumn file.headers o.m_inputColumnName) = h) ∧
      (∀ h : Heap cls,
        FVProcessor.processRows env self.m_outputs
            (FVProcessor.columnIndices self.m_outputs file.headers) file.rows h =
          FVProcessor.processRows env self.m_outputs
            (FVProcessor.columnIndices self.m_outputs file.headers) after
            (FVProcessor.processRow env (pre ++ post)
              (FVProcessor.columnIndices (pre ++ post) file.headers)
              (FVProcessor.processRows env self.m_outputs
                (FVProcessor.columnIndices self.m_outputs file.headers) before h)
              row)) ∧
      rowNotifications env self.m_outputs file.headers row =
        rowNotifications env pre file.headers row ++
          rowNotifications env post file.headers row ∧
      (∀ o2 ∈ pre ++ post, ∀ v : D,
        deliveredValue env row (findColumn file.headers o2.m_inputColumnName) = some v →
          (o2.m_pProcessor, v) ∈ rowNotifications env self.m_outputs file.headers row) ∧
      (∀ h : Heap cls,
        FVProcessor.processRow env self.m_outputs
            (FVProcessor.columnIndices self.m_outputs file.headers) h row =
          (rowNotifications env self.m_outputs file.headers row).foldl notifyAt h) ∧
      (∀ h : Heap cls,
        FVProcessor.processRows env self.m_outputs
            (FVProcessor.columnIndices self.m_outputs file.headers) file.rows h =
          (before.flatMap (rowNotifications env self.m_outputs file.headers) ++
            (rowNotifications env self.m_outputs file.headers row ++
              after.flatMap (rowNotifications env self.m_outputs file.headers))).foldl
            notifyAt h) ∧
      (FVProcessor.addInputCSVFile env self heap inputCsvPath).heap =
        (FVProcessor.collectResults self.m_outputs
          ((fileNotifications env self.m_outputs file).foldl notifyAt
            (FVProcessor.resetAll self.m_outputs heap))).2 ∧
      outputRows (FVProcessor.addInputCSVFile env self heap inputCsvPath).self =
        outputRows self ++
          [env.filename inputCsvPath ::
            (FVProcessor.collectResults self.m_outputs
              ((fileNotifications env self.m_outputs file).foldl notifyAt
                (FVProcessor.resetAll self.m_outputs heap))).1.map env.to_string] := by
  have hskip : deliveredValue env row (findColumn file.headers o.m_inputColumnName) = none := by
    simp [deliveredValue, hcell, hbad]
  have hne : self.m_outputs ≠ [] := by
    rw [hsplit]
    simp
  refine ⟨(addInputCSVFile_thrown env self heap inputCsvPath).mpr ⟨hout, file, hf⟩,
    ?_, ?_, ?_, ?_, ?_, ?_, ?_, ?_⟩
  · intro h
    rw [processCell_eq]
    simp only [hskip, IProcessor.notifyOpt, Function.update_eq_self]
  · intro h
    rw [hrows, hsplit]
    unfold FVProcessor.processRows
    rw [List.foldl_append, List.foldl_cons,
      processRow_skip env pre post o file.headers row _ hskip]
  · rw [hsplit]
    exact rowNotifications_skip env pre post o file.headers row hskip
  · intro o2 ho2 v hv
    apply rowNotifications_mem env self.m_outputs file.headers row o2 v _ hv
    rw [hsplit]
    rcases List.mem_append.mp ho2 with h1 | h1
    · exact List.mem_append.mpr (Or.inl h1)
    · exact List.mem_append.mpr (Or.inr (List.mem_cons_of_mem _ h1))
  · intro h
    exact processRow_notifications env self.m_outputs file.headers h row
  · intro h
    rw [processRows_notifications, hrows, List.flatMap_append, List.flatMap_cons]
  · exact addInputCSVFile_heap_of_notifications env self heap inputCsvPath file hout hf hne
  · exact addInputCSVFile_row_of_notifications env self heap inputCsvPath file hout hf hne

/-- C10, witness: the file `data/b.csv`, whose first row has the cell `oops` in
column `Y`, on which `std::stod` throws, with bindings on `X` and on `Y`: the
first row gives the one call `notifyValue(5)` on the processor of `X`, the
file the calls with 5, 7, 9 on it and with 40 on the processor of `Y`, and the
row appended is `b.csv,7.000000,40.000000`. -/
theorem malformed_cell_is_skipped_witness :
    stdStod "oops" = none ∧
      (FVProcessor.addInputCSVFile exampleEnv twoBindings meanHeap "data/b.csv").thrown = none ∧
      rowNotifications exampleEnv twoBindings.m_outputs roughFile.headers ["5", "oops"] =
        [(0, 5)] ∧
      (∀ h : Heap meanCls,
        FVProcessor.processRows exampleEnv twoBindings.m_outputs
            (FVProcessor.columnIndices twoBindings.m_outputs roughFile.headers)
            roughFile.rows h =
          ([(0, 5), (0, 7), (0, 9), (1, 40)] : List (Nat × Double)).foldl notifyAt h) ∧
      outputRows
          (FVProcessor.addInputCSVFile exampleEnv twoBindings meanHeap "data/b.csv").self =
        [["b.csv", "7.000000", "40.000000"]] :=
  ⟨by decide!,
    (malformed_cell_is_skipped exampleEnv twoBindings meanHeap "data/b.csv" roughFile
      [{ m_inputColumnName := "X", m_outputTypeName := "AvgX", m_pProcessor := 0 }] []
      { m_inputColumnName := "Y", m_outputTypeName := "AvgY", m_pProcessor := 1 }
      [] [["7"], ["9", "40"]] ["5", "oops"] "oops"
      (by decide) (by decide!) (by decide) (by decide!) (by decide!) (by decide!)).1,
    ((malformed_cell_is_skipped exampleEnv twoBindings meanHeap "data/b.csv" roughFile
      [{ m_inputColumnName := "X", m_outputTypeName := "AvgX", m_pProcessor := 0 }] []
      { m_inputColumnName := "Y", m_outputTypeName := "AvgY", m_pProcessor := 1 }
      [] [["7"], ["9", "40"]] ["5", "oops"] "oops"
      (by decide) (by decide!) (by decide) (by decide!) (by decide!)
      (by decide!)).2.2.2.1).trans (by decide!),
    fun h =>
      ((malformed_cell_is_skipped exampleEnv twoBindings meanHeap "data/b.csv" roughFile
        [{ m_inputColumnName := "X", m_outputTypeName := "AvgX", m_pProcessor := 0 }] []
        { m_inputColumnName := "Y", m_outputTypeName := "AvgY", m_pProcessor := 1 }
        [] [["7"], ["9", "40"]] ["5", "oops"] "oops"
        (by decide) (by decide!) (by decide) (by decide!) (by decide!)
        (by decide!)).2.2.2.2.2.2.1 h).trans
        (congrArg (fun l => List.foldl notifyAt h l) (by decide!)),
    ((malformed_cell_is_skipped exampleEnv twoBindings meanHeap "data/b.csv" roughFile
      [{ m_inputColumnName := "X", m_outputTypeName := "AvgX", m_pProcessor := 0 }] []
      { m_inputColumnName := "Y", m_outputTypeName := "AvgY", m_pProcessor := 1 }
      [] [["7"], ["9", "40"]] ["5", "oops"] "oops"
      (by decide) (by decide!) (by decide) (by decide!) (by decide!)
      (by decide!)).2.2.2.2.2.2.2.2).trans (by decide!)⟩

/-- C10, counterexample: the cell `12abc` is not a number, yet `std::stod`
reads the number at its start and delivers 12: the call on the file with this
one cell feeds the processor of the binding one value, and the row appended is
`junk.csv,12.000000`. -/
theorem malformed_cell_counterexample :
    isDecimalNumeral "12abc" = false ∧
      stdStod "12abc" = some 12 ∧
      (FVProcessor.addInputCSVFile junkEnv oneBinding meanHeap "junk.csv").thrown = none ∧
      fileNotifications junkEnv oneBinding.m_outputs junkFile = [(0, 12)] ∧
      AverageProcessor.m_count
          ((FVProcessor.addInputCSVFile junkEnv oneBinding meanHeap "junk.csv").heap 0) = 1 ∧
      outputRows (FVProcessor.addInputCSVFile junkEnv oneBinding meanHeap "junk.csv").self =
        [["junk.csv", "12.000000"]] := by
  decide!

/-! ## Further lemmas on the engine -/

section TableLemmas

variable {D : Type} {cls : Nat → IProcessor D}

theorem initOutput_header (env : Env D) (self : FVProcessor) :
    outputHeader (FVProcessor.initOutput env self) =
      if self.m_outputCSV.isNone ∧ self.m_outputs ≠ [] then some self.outputHeaders
      else outputHeader self := by
  unfold outputHeader
  rw [initOutput_csv]
  split <;> rfl

theorem addInputCSVFile_header (env : Env D) (self : FVProcessor) (heap : Heap cls)
    (path : String) :
    outputHeader (FVProcessor.addInputCSVFile env self heap path).self =
      outputHeader (FVProcessor.initOutput env self) := by
  unfold FVProcessor.addInputCSVFile
  cases ht : FVProcessor.initThrows env self with
  | true => simp
  | false =>
    cases hf : env.openInput path with
    | none => simp
    | some file =>
      cases hw : (FVProcessor.initOutput env self).m_outputCSV <;>
        simp [hw, outputHeader, CSVFileWriter.addRow, CSVFileWriter.flush]

theorem addInputCSVFile_header_keep (env : Env D) (self : FVProcessor) (heap : Heap cls)
    (path : String) (hdr : List String) (h : outputHeader self = some hdr) :
    outputHeader (FVProcessor.addInputCSVFile env self heap path).self = some hdr := by
  rw [addInputCSVFile_header, initOutput_header]
  have hsome : ¬ (self.m_outputCSV.isNone ∧ self.m_outputs ≠ []) := by
    intro hc
    cases hw : self.m_outputCSV with
    | none => simp [outputHeader, hw] at h
    | some w => simp [hw] at hc
  rw [if_neg hsome]
  exact h

theorem addInputCSVFile_header_build (env : Env D) (self : FVProcessor) (heap : Heap cls)
    (path : String) (hnone : self.m_outputCSV = none) (hne : self.m_outputs ≠ []) :
    outputHeader (FVProcessor.addInputCSVFile env self heap path).self =
      some ("InputFileName" :: self.m_outputs.map (fun o => o.m_outputTypeName)) := by
  rw [addInputCSVFile_header, initOutput_header]
  simp [hnone, hne, FVProcessor.outputHeaders]

theorem step_header_keep (w : World cls) (c : Cmd D) (hdr : List String)
    (h : outputHeader w.self = some hdr) : outputHeader (w.step c).self = some hdr := by
  cases c with
  | addOutput cn n p => exact h
  | addInputCSVFile env path => exact addInputCSVFile_header_keep env w.self w.heap path hdr h

theorem run_header_keep (w : World cls) (cmds : List (Cmd D)) (hdr : List String)
    (h : outputHeader w.self = some hdr) : outputHeader (w.run cmds).self = some hdr := by
  induction cmds generalizing w with
  | nil => exact h
  | cons c t ih => exact ih (w.step c) (step_header_keep w c hdr h)

theorem addInputCSVFile_rows_thrown (env : Env D) (self : FVProcessor) (heap : Heap cls)
    (path : String)
    (h : (FVProcessor.addInputCSVFile env self heap path).thrown ≠ none) :
    outputRows (FVProcessor.addInputCSVFile env self heap path).self = outputRows self ∧
      (FVProcessor.addInputCSVFile env self heap path).heap = heap := by
  unfold FVProcessor.addInputCSVFile at h ⊢
  cases ht : FVProcessor.initThrows env self with
  | true => simp [initOutput_rows]
  | false =>
    cases hf : env.openInput path with
    | none => simp [initOutput_rows]
    | some file =>
      cases hw : (FVProcessor.initOutput env self).m_outputCSV <;> simp [ht, hf, hw] at h

theorem addInputCSVFile_open_fails (env : Env D) (self : FVProcessor) (heap : Heap cls)
    (path : String) (hf : env.openInput path = none) :
    (FVProcessor.addInputCSVFile env self heap path).thrown ≠ none := by
  intro h
  obtain ⟨_, file, hfile⟩ := (addInputCSVFile_thrown env self heap path).mp h
  rw [hf] at hfile
  cases hfile

theorem step_rows_prefix (w : World cls) (c : Cmd D) :
    ∃ more, outputRows (w.step c).self = outputRows w.self ++ more := by
  cases c with
  | addOutput cn n p => exact ⟨[], by simp [World.step, FVProcessor.addOutput, outputRows]⟩
  | addInputCSVFile env path =>
    cases hth : (FVProcessor.addInputCSVFile env w.self w.heap path).thrown with
    | some msg =>
      refine ⟨[], ?_⟩
      have := (addInputCSVFile_rows_thrown env w.self w.heap path (by simp [hth])).1
      simpa [World.step] using this
    | none =>
      obtain ⟨ht, file, hf⟩ := (addInputCSVFile_thrown env w.self w.heap path).mp hth
      exact ⟨_, addInputCSVFile_rows_general env w.self w.heap path file ht hf⟩

theorem run_rows_prefix (w : World cls) (cmds : List (Cmd D)) :
    ∃ more, outputRows (w.run cmds).self = outputRows w.self ++ more := by
  induction cmds generalizing w with
  | nil => exact ⟨[], by simp [World.run]⟩
  | cons c t ih =>
    obtain ⟨m1, h1⟩ := step_rows_prefix w c
    obtain ⟨m2, h2⟩ := ih (w.step c)
    refine ⟨m1 ++ m2, ?_⟩
    have : w.run (c :: t) = (w.step c).run t := rfl
    rw [this, h2, h1, List.append_assoc]

theorem tableInv_step (w : World cls) (c : Cmd D) (h : TableInv w.self) :
    TableInv (w.step c).self := by
  cases c with
  | addOutput cn n p =>
    intro _
    simp [World.step, FVProcessor.addOutput]
  | addInputCSVFile env path =>
    intro hs
    simp only [World.step] at hs ⊢
    rw [addInputCSVFile_outputs]
    rw [addInputCSVFile_csv_isSome, initOutput_csv] at hs
    by_cases hc : w.self.m_outputCSV.isNone ∧ w.self.m_outputs ≠ []
    · exact hc.2
    · rw [if_neg hc] at hs
      exact h hs

theorem tableInv_run (w : World cls) (cmds : List (Cmd D)) (h : TableInv w.self) :
    TableInv (w.run cmds).self := by
  induction cmds generalizing w with
  | nil => exact h
  | cons c t ih => exact ih (w.step c) (tableInv_step w c h)

theorem tableInv_create (outputCsvPath : String) :
    TableInv (FVProcessor.create outputCsvPath) := by
  intro h
  simp [FVProcessor.create] at h

theorem addInputCSVFile_no_binding (env : Env D) (self : FVProcessor) (heap : Heap cls)
    (path : String) (hnone : self.m_outputCSV = none) (hnb : self.m_outputs = []) :
    (FVProcessor.addInputCSVFile env self heap path).self = self ∧
      ((FVProcessor.addInputCSVFile env self heap path).thrown = none ↔
        ∃ file, env.openInput path = some file) := by
  have hinit : FVProcessor.initOutput env self = self := by
    simp [FVProcessor.initOutput, hnb]
  have hthrows : FVProcessor.initThrows env self = false := by
    simp [FVProcessor.initThrows, hnb]
  constructor
  · rw [addInputCSVFile_self_none env self heap path (by rw [hinit]; exact hnone), hinit]
  · rw [addInputCSVFile_thrown]
    simp [hthrows]

theorem run_addOutputs (w : World cls) (bindings : List OutputType) :
    (w.run (bindings.map (fun o =>
        (Cmd.addOutput o.m_inputColumnName o.m_outputTypeName o.m_pProcessor : Cmd D)))).self =
      { w.self with m_outputs := w.self.m_outputs ++ bindings } ∧
    (w.run (bindings.map (fun o =>
        (Cmd.addOutput o.m_inputColumnName o.m_outputTypeName o.m_pProcessor : Cmd D)))).heap =
      w.heap := by
  induction bindings generalizing w with
  | nil => simp [World.run]
  | cons o t ih =>
    have hstep : w.run ((o :: t).map (fun o =>
        (Cmd.addOutput o.m_inputColumnName o.m_outputTypeName o.m_pProcessor : Cmd D))) =
        (w.step (Cmd.addOutput o.m_inputColumnName o.m_outputTypeName o.m_pProcessor)).run
          (t.map (fun o =>
            (Cmd.addOutput o.m_inputColumnName o.m_outputTypeName o.m_pProcessor : Cmd D))) := rfl
    rw [hstep]
    obtain ⟨h1, h2⟩ := ih (w.step (Cmd.addOutput o.m_inputColumnName o.m_outputTypeName
      o.m_pProcessor))
    rw [h1, h2]
    simp [World.step, FVProcessor.addOutput]

theorem run_no_binding (w : World cls) (calls : List (Env D × String))
    (hnone : w.self.m_outputCSV = none) (hnb : w.self.m_outputs = []) :
    (w.run (calls.map (fun c => Cmd.addInputCSVFile c.1 c.2))).self = w.self := by
  induction calls generalizing w with
  | nil => rfl
  | cons c t ih =>
    have hstep : w.run ((c :: t).map (fun c => Cmd.addInputCSVFile c.1 c.2)) =
        (w.step (Cmd.addInputCSVFile c.1 c.2)).run
          (t.map (fun c => Cmd.addInputCSVFile c.1 c.2)) := rfl
    have hself : (w.step (Cmd.addInputCSVFile c.1 c.2)).self = w.self :=
      (addInputCSVFile_no_binding c.1 w.self w.heap c.2 hnone hnb).1
    rw [hstep, ih _ (by rw [hself]; exact hnone) (by rw [hself]; exact hnb), hself]

end TableLemmas

section HistoryLemmas

variable {D : Type} {cls : Nat → IProcessor D}

/-- The state of a new engine after calls made without a binding and the
registration of a non-empty list of bindings: no table yet, and the bindings
as registered. -/
theorem history_before_first_table (outputCsvPath : String) (heap : Heap cls)
    (early : List (Env D × String)) (bindings : List OutputType) :
    (((World.mk (FVProcessor.create outputCsvPath) heap).run
        (early.map (fun c => Cmd.addInputCSVFile c.1 c.2))).run
        (bindings.map (fun o =>
          (Cmd.addOutput o.m_inputColumnName o.m_outputTypeName o.m_pProcessor : Cmd D)))).self =
      { m_outputs := bindings, m_outputCsvPath := outputCsvPath, m_outputCSV := none } := by
  rw [(run_addOutputs _ bindings).1,
    run_no_binding (World.mk (FVProcessor.create outputCsvPath) heap) early rfl rfl]
  simp [FVProcessor.create]

theorem indexOf_first (l : List String) (a : String) :
    ∀ j, j < l.indexOf a → l[j]? ≠ some a := by
  induction l with
  | nil => simp
  | cons b t ih =>
    intro j hj
    by_cases hb : b = a
    · rw [List.indexOf_cons_eq _ hb] at hj
      omega
    · rw [List.indexOf_cons_ne _ hb] at hj
      cases j with
      | zero => simpa using hb
      | succ k =>
        simp only [List.getElem?_cons_succ]
        exact ih k (by omega)

theorem findColumn_found (headers : List String) (name : String) (h : name ∈ headers) :
    findColumn headers name = (headers.indexOf name : Int) ∧
      headers.indexOf name < headers.length ∧
      headers[headers.indexOf name]? = some name := by
  have hlt : headers.indexOf name < headers.length := List.indexOf_lt_length.mpr h
  refine ⟨by simp [findColumn, hlt], hlt, ?_⟩
  rw [List.getElem?_eq_getElem hlt, List.getElem_indexOf hlt]

theorem cellAt_some (row : List String) (c : Int) (cell : String)
    (h : cellAt row c = some cell) :
    0 ≤ c ∧ c.toNat < row.length ∧ row[c.toNat]? = some cell := by
  unfold cellAt at h
  split at h
  · rename_i hg
    refine ⟨hg.1, hg.2, ?_⟩
    simp only [Option.some.injEq] at h
    rw [← h, List.getD_eq_getElem?_getD, List.getElem?_eq_getElem hg.2]
    rfl
  · cases h

theorem cellAt_nat (row : List String) (n : Nat) : cellAt row (n : Int) = row[n]? := by
  unfold cellAt
  by_cases hn : n < row.length
  · simp [hn, List.getD_eq_getElem?_getD, List.getElem?_eq_getElem hn]
  · simp [hn, List.getElem?_eq_none (not_lt.mp hn)]

theorem cellAt_short (row : List String) (c : Int) (h : (row.length : Int) ≤ c) :
    cellAt row c = none := by
  unfold cellAt
  have : ¬ (0 ≤ c ∧ c.toNat < row.length) := by
    intro hc
    omega
  simp [this]

theorem allSucceed_rows (env : Env D) (w : World cls) (paths : List String)
    (hne : w.self.m_outputs ≠ []) (hok : World.allSucceed env w paths = true) :
    ∃ newRows, outputRows (w.addFiles env paths).self = outputRows w.self ++ newRows ∧
      newRows.length = paths.length ∧
      newRows.map List.head? = paths.map (fun p => some (env.filename p)) := by
  induction paths generalizing w with
  | nil => exact ⟨[], by simp [World.addFiles, World.run], rfl, rfl⟩
  | cons p t ih =>
    simp only [World.allSucceed, Bool.and_eq_true, Option.isNone_iff_eq_none] at hok
    obtain ⟨ht, file, hf⟩ := (addInputCSVFile_thrown env w.self w.heap p).mp hok.1
    have hrows := addInputCSVFile_rows_general env w.self w.heap p file ht hf
    simp only [hne, ne_eq, not_false_eq_true, or_true, if_true] at hrows
    have hne2 : (w.step (Cmd.addInputCSVFile env p)).self.m_outputs ≠ [] := by
      simp only [World.step]
      rw [addInputCSVFile_outputs]
      exact hne
    obtain ⟨rest, h1, h2, h3⟩ := ih (w.step (Cmd.addInputCSVFile env p)) hne2 hok.2
    refine ⟨FVProcessor.mixedRow env w.self.m_outputs w.heap p file :: rest, ?_, ?_, ?_⟩
    · have hstep : w.addFiles env (p :: t) =
          (w.step (Cmd.addInputCSVFile env p)).addFiles env t := rfl
      rw [hstep, h1]
      simp only [World.step]
      rw [hrows]
      simp
    · simp [h2]
    · simp [h3, FVProcessor.mixedRow]

end HistoryLemmas

/-! ## The claims on the table, the calls and the columns -/

/-- C11 (as amended): on a new engine, after any calls made while no binding
is registered and the registration of a non-empty list of bindings, there is
no header yet; the next `addInputCSVFile` call, the first one made while a
binding is registered, builds the header `InputFileName` followed by the
bindings' output names in registration order, duplicates kept; and no later
call, `addOutput` or `addInputCSVFile`, rebuilds or changes it. -/
theorem header_built_by_first_call_with_bindings {D : Type} {cls : Nat → IProcessor D}
    (outputCsvPath : String) (heap : Heap cls) (early : List (Env D × String))
    (bindings : List OutputType) (env : Env D) (inputCsvPath : String)
    (later : List (Cmd D)) (hb : bindings ≠ []) :
    outputHeader
        (((World.mk (FVProcessor.create outputCsvPath) heap).run
          (early.map (fun c => Cmd.addInputCSVFile c.1 c.2))).run
          (bindings.map (fun o =>
            (Cmd.addOutput o.m_inputColumnName o.m_outputTypeName o.m_pProcessor :
              Cmd D)))).self = none ∧
      outputHeader
        ((((World.mk (FVProcessor.create outputCsvPath) heap).run
          (early.map (fun c => Cmd.addInputCSVFile c.1 c.2))).run
          (bindings.map (fun o =>
            (Cmd.addOutput o.m_inputColumnName o.m_outputTypeName o.m_pProcessor :
              Cmd D)))).step (Cmd.addInputCSVFile env inputCsvPath)).self =
        some ("InputFileName" :: bindings.map (fun o => o.m_outputTypeName)) ∧
      outputHeader
        (((((World.mk (FVProcessor.create outputCsvPath) heap).run
          (early.map (fun c => Cmd.addInputCSVFile c.1 c.2))).run
          (bindings.map (fun o =>
            (Cmd.addOutput o.m_inputColumnName o.m_outputTypeName o.m_pProcessor :
              Cmd D)))).step (Cmd.addInputCSVFile env inputCsvPath)).run later).self =
        some ("InputFileName" :: bindings.map (fun o => o.m_outputTypeName)) := by
  have hself := history_before_first_table outputCsvPath heap early bindings
  have hbuild : outputHeader
      ((((World.mk (FVProcessor.create outputCsvPath) heap).run
        (early.map (fun c => Cmd.addInputCSVFile c.1 c.2))).run
        (bindings.map (fun o =>
          (Cmd.addOutput o.m_inputColumnName o.m_outputTypeName o.m_pProcessor :
            Cmd D)))).step (Cmd.addInputCSVFile env inputCsvPath)).self =
      some ("InputFileName" :: bindings.map (fun o => o.m_outputTypeName)) := by
    simp only [World.step]
    rw [addInputCSVFile_header_build env _ _ inputCsvPath (by rw [hself]) (by rw [hself]; exact hb),
      hself]
  refine ⟨?_, hbuild, run_header_keep _ later _ hbuild⟩
  rw [hself]
  rfl

/-- C11, witness: a call without a binding, two bindings with the same output
name `Stat`, the call that builds the header, then a late binding and a call. -/
theorem header_built_by_first_call_with_bindings_witness :
    duplicateNames.m_outputs ≠ [] ∧
      outputHeader
        (((((World.mk (FVProcessor.create "out.csv") meanHeap).run
          ([(exampleEnv, "a.csv")].map (fun c => Cmd.addInputCSVFile c.1 c.2))).run
          (duplicateNames.m_outputs.map (fun o =>
            (Cmd.addOutput o.m_inputColumnName o.m_outputTypeName o.m_pProcessor :
              Cmd Double)))).step (Cmd.addInputCSVFile exampleEnv "a.csv")).run
          [Cmd.addOutput "Y" "Late" 2, Cmd.addInputCSVFile exampleEnv "data/b.csv"]).self =
        some ("InputFileName" :: duplicateNames.m_outputs.map (fun o => o.m_outputTypeName)) ∧
      "InputFileName" :: duplicateNames.m_outputs.map (fun o => o.m_outputTypeName) =
        ["InputFileName", "Stat", "Stat"] :=
  ⟨by decide,
    (header_built_by_first_call_with_bindings "out.csv" meanHeap [(exampleEnv, "a.csv")]
      duplicateNames.m_outputs exampleEnv "a.csv"
      [Cmd.addOutput "Y" "Late" 2, Cmd.addInputCSVFile exampleEnv "data/b.csv"]
      (by decide)).2.2,
    by decide⟩

/-- C11, counterexample: the first invocation of `addInputCSVFile`, made before
any binding is registered, builds no header; the header `InputFileName,AvgX` is
built by the second invocation, after `addOutput`. -/
theorem header_first_invocation_counterexample :
    outputHeader
        ((World.run { self := FVProcessor.create "out.csv", heap := meanHeap }
          [Cmd.addInputCSVFile exampleEnv "a.csv"]).self) = none ∧
      outputHeader
        ((World.run { self := FVProcessor.create "out.csv", heap := meanHeap }
          [Cmd.addInputCSVFile exampleEnv "a.csv", Cmd.addOutput "X" "AvgX" 0]).self) =
        none ∧
      outputHeader
        ((World.run { self := FVProcessor.create "out.csv", heap := meanHeap }
          [Cmd.addInputCSVFile exampleEnv "a.csv", Cmd.addOutput "X" "AvgX" 0,
            Cmd.addInputCSVFile exampleEnv "a.csv"]).self) =
        some ["InputFileName", "AvgX"] := by
  decide!

/-- C12 (as amended): every call of `addInputCSVFile` made while at least one
binding is registered either succeeds and appends exactly one row to the
output table, or fails and leaves the rows of the table and the processors as
they were; and whenever the input file cannot be opened the call fails, no
row is appended and no processor is touched. -/
theorem addInputCSVFile_all_or_nothing {D : Type} {cls : Nat → IProcessor D}
    (env : Env D) (self : FVProcessor) (heap : Heap cls) (inputCsvPath : String)
    (hne : self.m_outputs ≠ []) :
    (((FVProcessor.addInputCSVFile env self heap inputCsvPath).thrown = none ∧
          ∃ row, outputRows (FVProcessor.addInputCSVFile env self heap inputCsvPath).self =
            outputRows self ++ [row]) ∨
        ((FVProcessor.addInputCSVFile env self heap inputCsvPath).thrown ≠ none ∧
          outputRows (FVProcessor.addInputCSVFile env self heap inputCsvPath).self =
            outputRows self ∧
          (FVProcessor.addInputCSVFile env self heap inputCsvPath).heap = heap)) ∧
      (env.openInput inputCsvPath = none →
        (FVProcessor.addInputCSVFile env self heap inputCsvPath).thrown ≠ none ∧
          outputRows (FVProcessor.addInputCSVFile env self heap inputCsvPath).self =
            outputRows self ∧
          (FVProcessor.addInputCSVFile env self heap inputCsvPath).heap = heap) := by
  constructor
  · cases hth : (FVProcessor.addInputCSVFile env self heap inputCsvPath).thrown with
    | none =>
      left
      obtain ⟨ht, file, hf⟩ := (addInputCSVFile_thrown env self heap inputCsvPath).mp hth
      have hrows := addInputCSVFile_rows_general env self heap inputCsvPath file ht hf
      simp only [hne, ne_eq, not_false_eq_true, or_true, if_true] at hrows
      exact ⟨rfl, _, hrows⟩
    | some msg =>
      right
      have hnot : (FVProcessor.addInputCSVFile env self heap inputCsvPath).thrown ≠ none := by
        simp [hth]
      exact ⟨by simp, addInputCSVFile_rows_thrown env self heap inputCsvPath hnot⟩
  · intro hf
    have hnot := addInputCSVFile_open_fails env self heap inputCsvPath hf
    exact ⟨hnot, addInputCSVFile_rows_thrown env self heap inputCsvPath hnot⟩

/-- C12, witness: two bindings; the file `a.csv` is processed and one row is
appended, the file `nowhere.csv` cannot be opened and the call throws. -/
theorem addInputCSVFile_all_or_nothing_witness :
    twoBindings.m_outputs ≠ [] ∧
      exampleEnv.openInput "nowhere.csv" = none ∧
      (FVProcessor.addInputCSVFile exampleEnv twoBindings meanHeap "nowhere.csv").thrown =
        some "Failed to open input CSV file: nowhere.csv" ∧
      ((FVProcessor.addInputCSVFile exampleEnv twoBindings meanHeap "nowhere.csv").thrown ≠
          none ∧
        outputRows
            (FVProcessor.addInputCSVFile exampleEnv twoBindings meanHeap "nowhere.csv").self =
          outputRows twoBindings ∧
        (FVProcessor.addInputCSVFile exampleEnv twoBindings meanHeap "nowhere.csv").heap =
          meanHeap) :=
  ⟨by decide, by decide!, by decide!,
    (addInputCSVFile_all_or_nothing exampleEnv twoBindings meanHeap "nowhere.csv"
      (by decide)).2 (by decide!)⟩

/-- C12, counterexample: with no binding registered the call on the readable
file `a.csv` returns without an exception and the output table has no row
more than before: it neither appends a row nor fails. -/
theorem addInputCSVFile_all_or_nothing_counterexample :
    noBinding.m_outputs = [] ∧
      (FVProcessor.addInputCSVFile exampleEnv noBinding meanHeap "a.csv").thrown = none ∧
      outputRows (FVProcessor.addInputCSVFile exampleEnv noBinding meanHeap "a.csv").self =
        outputRows noBinding ∧
      ¬ ∃ row, outputRows
          (FVProcessor.addInputCSVFile exampleEnv noBinding meanHeap "a.csv").self =
        outputRows noBinding ++ [row] := by
  refine ⟨by decide, by decide!, by decide!, ?_⟩
  rintro ⟨row, hrow⟩
  have hlen := congrArg List.length hrow
  have h0 : outputRows
      (FVProcessor.addInputCSVFile exampleEnv noBinding meanHeap "a.csv").self = [] := by
    decide!
  have h1 : outputRows noBinding = [] := by decide
  rw [h0, h1] at hlen
  simp at hlen

/-- C13: for every sequence of files submitted to an engine with at least one
binding, every call returning without an exception, the output table consists
of the rows it had followed by exactly one new row per file, in the order of
submission, the first cell of the i-th new row being the base name of the
i-th file; and whatever calls follow, these rows stay as they are, at their
places: the table only grows at its end. -/
theorem rows_follow_submitted_files {D : Type} {cls : Nat → IProcessor D}
    (env : Env D) (w : World cls) (paths : List String) (later : List (Cmd D))
    (hne : w.self.m_outputs ≠ [])
    (hok : World.allSucceed env w paths = true) :
    ∃ newRows more,
      outputRows (w.addFiles env paths).self = outputRows w.self ++ newRows ∧
        newRows.length = paths.length ∧
        newRows.map List.head? = paths.map (fun p => some (env.filename p)) ∧
        outputRows ((w.addFiles env paths).run later).self =
          outputRows w.self ++ newRows ++ more := by
  obtain ⟨newRows, h1, h2, h3⟩ := allSucceed_rows env w paths hne hok
  obtain ⟨more, hmore⟩ := run_rows_prefix (w.addFiles env paths) later
  exact ⟨newRows, more, h1, h2, h3, by rw [hmore, h1]⟩

/-- C13, witness: the files `a.csv`, `data/b.csv`, `a.csv` on a new engine with
two bindings: three rows whose first cells are `a.csv`, `b.csv`, `a.csv`. -/
theorem rows_follow_submitted_files_witness :
    twoBindings.m_outputs ≠ [] ∧
      World.allSucceed exampleEnv { self := twoBindings, heap := meanHeap }
        ["a.csv", "data/b.csv", "a.csv"] = true ∧
      (outputRows ((World.mk twoBindings meanHeap).addFiles exampleEnv
        ["a.csv", "data/b.csv", "a.csv"]).self).map List.head? =
        [some "a.csv", some "b.csv", some "a.csv"] ∧
      ∃ newRows more,
        outputRows ((World.mk twoBindings meanHeap).addFiles exampleEnv
            ["a.csv", "data/b.csv", "a.csv"]).self =
          outputRows (World.mk twoBindings meanHeap).self ++ newRows ∧
        newRows.length = ["a.csv", "data/b.csv", "a.csv"].length ∧
        newRows.map List.head? =
          ["a.csv", "data/b.csv", "a.csv"].map (fun p => some (exampleEnv.filename p)) ∧
        outputRows (((World.mk twoBindings meanHeap).addFiles exampleEnv
            ["a.csv", "data/b.csv", "a.csv"]).run
            [Cmd.addInputCSVFile exampleEnv "nowhere.csv"]).self =
          outputRows (World.mk twoBindings meanHeap).self ++ newRows ++ more :=
  ⟨by decide, by decide!, by decide!,
    rows_follow_submitted_files exampleEnv { self := twoBindings, heap := meanHeap }
      ["a.csv", "data/b.csv", "a.csv"] [Cmd.addInputCSVFile exampleEnv "nowhere.csv"]
      (by decide) (by decide!)⟩

/-- C14: when a row has too few cells for the resolved position of a binding's
column (its length is at most the position), the guard of the row loop finds
no cell, the binding's step leaves the heap as it was, and the call does not
throw once the file is open and the table is there; the row loop does what it
does on the rows before, then on this row with every other binding fed its own
cell as if the short binding were absent, then on the later rows; and whenever
the guard yields a cell, the position is a valid index of the row and the cell
is the one stored there, so that no access is out of range. -/
theorem short_row_is_tolerated {D : Type} {cls : Nat → IProcessor D}
    (env : Env D) (self : FVProcessor) (heap : Heap cls) (inputCsvPath : String)
    (file : CSVFile) (pre post : List OutputType) (o : OutputType)
    (before after : List (List String)) (row : List String)
    (hsplit : self.m_outputs = pre ++ o :: post)
    (hf : env.openInput inputCsvPath = some file)
    (hrows : file.rows = before ++ row :: after)
    (hshort : (row.length : Int) ≤ findColumn file.headers o.m_inputColumnName)
    (hout : FVProcessor.initThrows env self = false) :
    (FVProcessor.addInputCSVFile env self heap inputCsvPath).thrown = none ∧
      cellAt row (findColumn file.headers o.m_inputColumnName) = none ∧
      (∀ h : Heap cls,
        FVProcessor.processCell env row h
          (o, findColumn file.headers o.m_inputColumnName) = h) ∧
      (∀ h : Heap cls,
        FVProcessor.processRows env self.m_outputs
            (FVProcessor.columnIndices self.m_outputs file.headers) file.rows h =
          FVProcessor.processRows env self.m_outputs
            (FVProcessor.columnIndices self.m_outputs file.headers) after
            (FVProcessor.processRow env (pre ++ post)
              (FVProcessor.columnIndices (pre ++ post) file.headers)
              (FVProcessor.processRows env self.m_outputs
                (FVProcessor.columnIndices self.m_outputs file.headers) before h)
              row)) ∧
      ∀ (r : List String) (c : Int) (cell : String), cellAt r c = some cell →
        0 ≤ c ∧ c.toNat < r.length ∧ r[c.toNat]? = some cell := by
  have hnone := cellAt_short row _ hshort
  have hskip : deliveredValue env row (findColumn file.headers o.m_inputColumnName) = none := by
    simp [deliveredValue, hnone]
  refine ⟨(addInputCSVFile_thrown env self heap inputCsvPath).mpr ⟨hout, file, hf⟩, hnone,
    ?_, ?_, cellAt_some⟩
  · intro h
    rw [processCell_eq]
    simp only [hskip, IProcessor.notifyOpt, Function.update_eq_self]
  · intro h
    rw [hrows, hsplit]
    unfold FVProcessor.processRows
    rw [List.foldl_append, List.foldl_cons,
      processRow_skip env pre post o file.headers row _ hskip]

/-- C14, witness: the file `data/b.csv`, whose second row `7` has one cell, with
bindings on `X` (position 0) and on `Y` (position 1); the row written is
`b.csv,7.000000,40.000000`: `X` got 5, 7, 9 and `Y` got 40 only. -/
theorem short_row_is_tolerated_witness :
    ((["7"] : List String).length : Int) ≤ findColumn roughFile.headers "Y" ∧
      outputRows
          (FVProcessor.addInputCSVFile exampleEnv twoBindings meanHeap "data/b.csv").self =
        [["b.csv", "7.000000", "40.000000"]] ∧
      (FVProcessor.addInputCSVFile exampleEnv twoBindings meanHeap "data/b.csv").thrown = none ∧
      cellAt ["7"] (findColumn roughFile.headers "Y") = none :=
  ⟨by decide, by decide!,
    (short_row_is_tolerated exampleEnv twoBindings meanHeap "data/b.csv" roughFile
      [{ m_inputColumnName := "X", m_outputTypeName := "AvgX", m_pProcessor := 0 }] []
      { m_inputColumnName := "Y", m_outputTypeName := "AvgY", m_pProcessor := 1 }
      [["5", "oops"]] [["9", "40"]] ["7"]
      (by decide) (by decide!) (by decide) (by decide) (by decide!)).1,
    (short_row_is_tolerated exampleEnv twoBindings meanHeap "data/b.csv" roughFile
      [{ m_inputColumnName := "X", m_outputTypeName := "AvgX", m_pProcessor := 0 }] []
      { m_inputColumnName := "Y", m_outputTypeName := "AvgY", m_pProcessor := 1 }
      [["5", "oops"]] [["9", "40"]] ["7"]
      (by decide) (by decide!) (by decide) (by decide) (by decide!)).2.1⟩

/-- C16: on an engine that, after any sequence of calls since its construction,
has no binding registered, `addInputCSVFile` on a readable file returns without
an exception, leaves the engine without an output table and the table without
a row; and after any number of such early calls followed by the registration
of bindings, the next `addInputCSVFile` call, not the first invocation overall
when there were early calls, builds the header from these bindings. -/
theorem no_binding_no_table {D : Type} {cls : Nat → IProcessor D}
    (outputCsvPath : String) (heap : Heap cls) (cmds : List (Cmd D)) (env : Env D)
    (inputCsvPath : String) (file : CSVFile) (early : List (Env D × String))
    (bindings : List OutputType) (env2 : Env D) (path2 : String)
    (hnb : ((World.mk (FVProcessor.create outputCsvPath) heap).run cmds).self.m_outputs = [])
    (hf : env.openInput inputCsvPath = some file)
    (hb : bindings ≠ []) :
    (FVProcessor.addInputCSVFile env
          ((World.mk (FVProcessor.create outputCsvPath) heap).run cmds).self
          ((World.mk (FVProcessor.create outputCsvPath) heap).run cmds).heap
          inputCsvPath).thrown = none ∧
      (FVProcessor.addInputCSVFile env
          ((World.mk (FVProcessor.create outputCsvPath) heap).run cmds).self
          ((World.mk (FVProcessor.create outputCsvPath) heap).run cmds).heap
          inputCsvPath).self.m_outputCSV = none ∧
      outputRows (FVProcessor.addInputCSVFile env
          ((World.mk (FVProcessor.create outputCsvPath) heap).run cmds).self
          ((World.mk (FVProcessor.create outputCsvPath) heap).run cmds).heap
          inputCsvPath).self = [] ∧
      outputHeader
        ((World.mk (FVProcessor.create outputCsvPath) heap).run
          (early.map (fun c => Cmd.addInputCSVFile c.1 c.2))).self = none ∧
      outputHeader
        ((((World.mk (FVProcessor.create outputCsvPath) heap).run
          (early.map (fun c => Cmd.addInputCSVFile c.1 c.2))).run
          (bindings.map (fun o =>
            (Cmd.addOutput o.m_inputColumnName o.m_outputTypeName o.m_pProcessor :
              Cmd D)))).step (Cmd.addInputCSVFile env2 path2)).self =
        some ("InputFileName" :: bindings.map (fun o => o.m_outputTypeName)) := by
  have hinv := tableInv_run (World.mk (FVProcessor.create outputCsvPath) heap) cmds
    (tableInv_create outputCsvPath)
  have hnone : ((World.mk (FVProcessor.create outputCsvPath) heap).run cmds).self.m_outputCSV =
      none := by
    cases hw : ((World.mk (FVProcessor.create outputCsvPath) heap).run cmds).self.m_outputCSV with
    | none => rfl
    | some w => exact absurd hnb (hinv (by simp [hw]))
  obtain ⟨hself, hthrown⟩ := addInputCSVFile_no_binding env _
    ((World.mk (FVProcessor.create outputCsvPath) heap).run cmds).heap inputCsvPath hnone hnb
  refine ⟨hthrown.mpr ⟨file, hf⟩, ?_, ?_, ?_, ?_⟩
  · rw [hself]
    exact hnone
  · rw [hself]
    simp [outputRows, hnone]
  · rw [run_no_binding (World.mk (FVProcessor.create outputCsvPath) heap) early rfl rfl]
    rfl
  · have hhist := history_before_first_table outputCsvPath heap early bindings
    simp only [World.step]
    rw [addInputCSVFile_header_build env2 _ _ path2 (by rw [hhist]) (by rw [hhist]; exact hb),
      hhist]

/-- C16, witness: a new engine, the file `a.csv` before any binding, then the
binding of `X` and the file again. -/
theorem no_binding_no_table_witness :
    ((World.mk (FVProcessor.create "out.csv") meanHeap).run []).self.m_outputs = [] ∧
      exampleEnv.openInput "a.csv" = some exampleFile ∧
      oneBinding.m_outputs ≠ [] ∧
      (FVProcessor.addInputCSVFile exampleEnv
          ((World.mk (FVProcessor.create "out.csv") meanHeap).run []).self
          ((World.mk (FVProcessor.create "out.csv") meanHeap).run []).heap
          "a.csv").thrown = none ∧
      outputHeader
        ((((World.mk (FVProcessor.create "out.csv") meanHeap).run
          ([(exampleEnv, "a.csv")].map (fun c => Cmd.addInputCSVFile c.1 c.2))).run
          (oneBinding.m_outputs.map (fun o =>
            (Cmd.addOutput o.m_inputColumnName o.m_outputTypeName o.m_pProcessor :
              Cmd Double)))).step (Cmd.addInputCSVFile exampleEnv "a.csv")).self =
        some ("InputFileName" :: oneBinding.m_outputs.map (fun o => o.m_outputTypeName)) :=
  ⟨rfl, by decide!, by decide,
    (no_binding_no_table "out.csv" meanHeap [] exampleEnv "a.csv" exampleFile
      [(exampleEnv, "a.csv")] oneBinding.m_outputs exampleEnv "a.csv"
      rfl (by decide!) (by decide)).1,
    (no_binding_no_table "out.csv" meanHeap [] exampleEnv "a.csv" exampleFile
      [(exampleEnv, "a.csv")] oneBinding.m_outputs exampleEnv "a.csv"
      rfl (by decide!) (by decide)).2.2.2.2⟩

/-- C18: the resolved position of a column name in a header is either "not
found" (`-1`, and the name is not in the header) or an index into the header
whose entry is the name exactly, with no equal entry to its left; a binding's
step in the row loop then reads the cell at that index, and no other: with the
header `x,X,Y,X` the name `X` resolves to position 1, the name `Z` to none,
and a binding on `X` is fed 1 and 3, the cells at position 1, not those of the
second `X`. -/
theorem column_resolution_first_match {D : Type} {cls : Nat → IProcessor D}
    (env : Env D) (headers : List String) (o : OutputType) (row : List String)
    (heap : Heap cls) :
    ((findColumn headers o.m_inputColumnName = -1 ∧ o.m_inputColumnName ∉ headers) ∨
        (0 ≤ findColumn headers o.m_inputColumnName ∧
          (findColumn headers o.m_inputColumnName).toNat < headers.length ∧
          headers[(findColumn headers o.m_inputColumnName).toNat]? =
            some o.m_inputColumnName ∧
          (∀ j, j < (findColumn headers o.m_inputColumnName).toNat →
            headers[j]? ≠ some o.m_inputColumnName) ∧
          FVProcessor.processCell env row heap
              (o, findColumn headers o.m_inputColumnName) =
            Function.update heap o.m_pProcessor
              ((cls o.m_pProcessor).notifyOpt (heap o.m_pProcessor)
                ((row[(findColumn headers o.m_inputColumnName).toNat]?).bind env.stod)))) ∧
      findColumn twinFile.headers "X" = 1 ∧
      findColumn twinFile.headers "Z" = -1 ∧
      parsedCells twinEnv twinFile "X" = [1, 3] ∧
      outputRows (FVProcessor.addInputCSVFile twinEnv oneBinding meanHeap "twin.csv").self =
        [["twin.csv", "2.000000"]] := by
  refine ⟨?_, by decide, by decide, by decide!, by decide!⟩
  by_cases hmem : o.m_inputColumnName ∈ headers
  · right
    obtain ⟨hfc, hlt, hget⟩ := findColumn_found headers o.m_inputColumnName hmem
    rw [hfc]
    refine ⟨by omega, by simpa using hlt, by simpa using hget, ?_, ?_⟩
    · intro j hj
      exact indexOf_first headers o.m_inputColumnName j (by simpa using hj)
    · rw [processCell_eq]
      simp only [deliveredValue, cellAt_nat, Int.toNat_ofNat]
  · left
    exact ⟨findColumn_missing headers o.m_inputColumnName hmem, hmem⟩

end FV
